import Mathlib

/-!
# A verification development for the segregated-list allocator `src/mm.c`

The C program is embedded shallowly.

* Memory is a flat array of bytes indexed by 64-bit addresses (a function
  `Nat → Nat`, every byte read is taken modulo 256); a 4-byte word is read and written
  little-endian, as on the x86-64 target of the program.
* A C `int` is represented by its 32-bit two's-complement bit pattern, a
  natural number below `2^32`; arithmetic wraps modulo `2^32`, comparisons
  and division are the signed ones.
* A pointer is a natural number below `2^64`; pointer arithmetic wraps.
* The globals `heap_start`, `seg_list` and the break of the region are fields
  of `State`; every C function is a function from the state before the call
  to the state after it and the returned value.
* The loops whose length depends on the contents of the heap (the list walk
  of `find_fit`, the walks over the heap and the lists in `mm_checkheap`)
  carry a fuel, and return `none` when it runs out.
* The last section fixes concrete regions and runs of the interface, which
  the theorems evaluate.
-/

namespace MM

/-! ## Machine arithmetic -/

/-- Conversion of a wider value to `int`: the low 32 bits. -/
def toInt32 (n : Nat) : Nat := n % 4294967296

/-- Sign test of an `int` bit pattern. -/
def isNeg (a : Nat) : Bool := decide (2147483648 ≤ a % 4294967296)

/-- Signed `a < b` on `int` bit patterns. -/
def slt (a b : Nat) : Bool :=
  decide ((a + 2147483648) % 4294967296 < (b + 2147483648) % 4294967296)

/-- Signed `a <= b` on `int` bit patterns. -/
def sle (a b : Nat) : Bool := !(slt b a)

/-- The `int` sum, wrapping. -/
def add32 (a b : Nat) : Nat := (a + b) % 4294967296

/-- The `int` difference, wrapping. -/
def sub32 (a b : Nat) : Nat := (a + 4294967296 - b % 4294967296) % 4294967296

/-- The `int` product, wrapping. -/
def mul32 (a b : Nat) : Nat := (a * b) % 4294967296

/-- Signed division of an `int` by a positive constant, truncating towards zero. -/
def sdiv32 (a d : Nat) : Nat :=
  if a % 4294967296 < 2147483648 then a % 4294967296 / d
  else (4294967296 - (4294967296 - a % 4294967296) / d) % 4294967296

/-- Sign extension of an `int` to 64 bits (an `int` added to a pointer, or
converted to `size_t`). -/
def sext (a : Nat) : Nat :=
  if a % 4294967296 < 2147483648 then a % 4294967296
  else a % 4294967296 + 18446744069414584320

/-- Pointer plus `int`. -/
def padd (p a : Nat) : Nat := (p + sext a) % 18446744073709551616

/-- Pointer minus `int`. -/
def psub (p a : Nat) : Nat :=
  (p + 18446744073709551616 - sext a) % 18446744073709551616

/-! ## Constants and globals -/

def WSIZE : Nat := 4
def DSIZE : Nat := 8
def CHUNKSIZE : Nat := 528
def OVERHEAD : Nat := 16
def BUCKETS : Nat := 16

/-- The fixed reference address `ref = (char * ) 0x800000000` of the link encoding. -/
def ref : Nat := 0x800000000

/-- The failure sentinel `(void * ) -1` of `mem_sbrk`. -/
def SBRK_FAIL : Nat := 18446744073709551615

/-- The memory: the byte stored at every address. -/
structure Mem where
  rd : Nat → Nat

/-- The globals of `mm.c` together with the region handed out by the growth
primitive: `mem_start`/`mem_max` bound the bytes the region may ever occupy,
`brk` is its current top. -/
structure State where
  mem : Mem
  brk : Nat
  mem_start : Nat
  mem_max : Nat
  heap_start : Nat
  seg_list : Nat

/-! ## Memory access -/

/-- Unsigned 4-byte little-endian load. -/
def GET (m : Mem) (p : Nat) : Nat :=
  m.rd p % 256 + 256 * (m.rd (p + 1) % 256) + 65536 * (m.rd (p + 2) % 256)
    + 16777216 * (m.rd (p + 3) % 256)

/-- The 4-byte little-endian store of the low 32 bits of `v`. -/
def PUT (m : Mem) (p v : Nat) : Mem := ⟨fun a =>
  if a = p then v % 256
  else if a = p + 1 then v / 256 % 256
  else if a = p + 2 then v / 65536 % 256
  else if a = p + 3 then v / 16777216 % 256
  else m.rd a⟩

/-- Load of a 64-bit pointer (an entry of `seg_list`). -/
def GETP (m : Mem) (p : Nat) : Nat := GET m p + 4294967296 * GET m (p + 4)

/-- Store of a 64-bit pointer (an entry of `seg_list`). -/
def PUTP (m : Mem) (p v : Nat) : Mem :=
  PUT (PUT m p (v % 4294967296)) (p + 4) (v / 4294967296 % 4294967296)

def PACK (size alloc : Nat) : Nat := size ||| alloc

def GET_SIZE (m : Mem) (p : Nat) : Nat := GET m p &&& 0xFFFFFFF8

def GET_ALLOC (m : Mem) (p : Nat) : Nat := GET m p &&& 0x1

def HDRP (bp : Nat) : Nat := psub bp WSIZE

def FTRP (m : Mem) (bp : Nat) : Nat := psub (padd bp (GET_SIZE m (HDRP bp))) DSIZE

def NEXT_BLKP (m : Mem) (bp : Nat) : Nat := padd bp (GET_SIZE m (HDRP bp))

def PREV_BLKP (m : Mem) (bp : Nat) : Nat := psub bp (GET_SIZE m (psub (HDRP bp) WSIZE))

def GET_PREV_FREE (m : Mem) (bp : Nat) : Nat :=
  let val := GET m bp
  if val = 4294967295 then 0 else (ref + val) % 18446744073709551616

def PUT_PREV_FREE (m : Mem) (bp addr : Nat) : Mem :=
  let val := if addr = 0 then 4294967295
             else (addr + 18446744073709551616 - ref) % 4294967296
  PUT m bp val

def GET_NEXT_FREE (m : Mem) (bp : Nat) : Nat :=
  let val := GET m (padd bp WSIZE)
  if val = 4294967295 then 0 else (ref + val) % 18446744073709551616

def PUT_NEXT_FREE (m : Mem) (bp addr : Nat) : Mem :=
  let val := if addr = 0 then 4294967295
             else (addr + 18446744073709551616 - ref) % 4294967296
  PUT m (padd bp WSIZE) val

def PACK_PREV_ALLOC (m : Mem) (p alloc : Nat) : Mem :=
  let val := if alloc ≠ 0 then GET m (HDRP p) ||| 0x2
             else GET m (HDRP p) &&& 0xFFFFFFFD
  PUT m (HDRP p) val

def GET_PREV_ALLOC (m : Mem) (p : Nat) : Nat :=
  if GET m (HDRP p) &&& 0x2 ≠ 0 then 1 else 0

/-- The address of `seg_list[i]`. -/
def slot (s : State) (i : Nat) : Nat := (s.seg_list + 8 * i) % 18446744073709551616

/-- The value of `seg_list[i]`. -/
def bucket (s : State) (i : Nat) : Nat := GETP s.mem (slot s i)

/-- The value of `seg_list[i]` read from the memory `m`. -/
def bucketIn (s : State) (m : Mem) (i : Nat) : Nat := GETP m (slot s i)

/-! ## The region growth primitive -/

/-- Modelled from the spec: the region growth adapter `mem_sbrk` of `memlib`,
which is not among the sources.  It extends the region by exactly `incr`
bytes and returns the old top, or fails with the sentinel `(void * ) -1`,
leaving the region as it was, when the region cannot grow by that much (or
the signed increment is negative). -/
def mem_sbrk (s : State) (incr : Nat) : State × Nat :=
  if isNeg incr || decide (s.mem_max < s.brk + incr % 4294967296) then (s, SBRK_FAIL)
  else ({ s with brk := s.brk + incr % 4294967296 }, s.brk)

/-! ## The free-list index -/

/-- The loop of `find_index`: `n` iterations remain, `i` is the loop variable. -/
def find_index_loop (size : Nat) : Nat → Nat → Nat
  | 0, _ => BUCKETS - 1
  | n + 1, i => if sle size (2 ^ i % 4294967296) then i else find_index_loop size n (i + 1)

def find_index (size : Nat) : Nat := find_index_loop size BUCKETS 0

def insert_free (s : State) (bp : Nat) : State :=
  let size := GET_SIZE s.mem (HDRP bp)
  let seg_index := find_index size
  let m1 := PUT_NEXT_FREE s.mem bp (bucketIn s s.mem seg_index)
  let m2 := PUT_PREV_FREE m1 bp 0
  let m3 := if bucketIn s m2 seg_index ≠ 0 then PUT_PREV_FREE m2 (bucketIn s m2 seg_index) bp
            else m2
  let m4 := PUTP m3 (slot s seg_index) bp
  let m5 := PACK_PREV_ALLOC m4 (NEXT_BLKP m4 bp) 0
  let m6 := PUT m5 (FTRP m5 bp) (GET m5 (HDRP bp))
  { s with mem := m6 }

def pop_free (s : State) (bp : Nat) : State :=
  let size := GET_SIZE s.mem (HDRP bp)
  let seg_index := find_index size
  let m1 := if GET_PREV_FREE s.mem bp = 0
            then PUTP s.mem (slot s seg_index) (GET_NEXT_FREE s.mem bp)
            else PUT_NEXT_FREE s.mem (GET_PREV_FREE s.mem bp) (GET_NEXT_FREE s.mem bp)
  let m2 := if GET_NEXT_FREE m1 bp ≠ 0
            then PUT_PREV_FREE m1 (GET_NEXT_FREE m1 bp) (GET_PREV_FREE m1 bp)
            else m1
  let m3 := PACK_PREV_ALLOC m2 (NEXT_BLKP m2 bp) 1
  { s with mem := m3 }

/-! ## The heap engine -/

def coalesce (s : State) (bp : Nat) : State × Nat :=
  let next := GET_ALLOC s.mem (HDRP (NEXT_BLKP s.mem bp))
  let prev := GET_PREV_ALLOC s.mem bp
  if prev ≠ 0 ∧ next ≠ 0 then
    (insert_free s bp, bp)
  else if prev = 0 ∧ next ≠ 0 then
    let size := add32 (GET_SIZE s.mem (HDRP bp)) (GET_SIZE s.mem (HDRP (PREV_BLKP s.mem bp)))
    let bp := PREV_BLKP s.mem bp
    let alloc := GET_PREV_ALLOC s.mem bp
    let s1 := pop_free s bp
    let m2 := PUT s1.mem (HDRP bp) (PACK size 0)
    let m3 := PACK_PREV_ALLOC m2 bp alloc
    (insert_free { s1 with mem := m3 } bp, bp)
  else if prev ≠ 0 ∧ next = 0 then
    let size := add32 (GET_SIZE s.mem (HDRP bp)) (GET_SIZE s.mem (HDRP (NEXT_BLKP s.mem bp)))
    let alloc := GET_PREV_ALLOC s.mem bp
    let s1 := pop_free s (NEXT_BLKP s.mem bp)
    let m2 := PUT s1.mem (HDRP bp) (PACK size 0)
    let m3 := PACK_PREV_ALLOC m2 bp alloc
    (insert_free { s1 with mem := m3 } bp, bp)
  else
    let size := add32 (GET_SIZE s.mem (HDRP bp)) (GET_SIZE s.mem (HDRP (PREV_BLKP s.mem bp)))
    let size := add32 size (GET_SIZE s.mem (HDRP (NEXT_BLKP s.mem bp)))
    let alloc := GET_PREV_ALLOC s.mem (PREV_BLKP s.mem bp)
    let s1 := pop_free s (PREV_BLKP s.mem bp)
    let s2 := pop_free s1 (NEXT_BLKP s1.mem bp)
    let bp := PREV_BLKP s2.mem bp
    let m3 := PUT s2.mem (HDRP bp) (PACK size 0)
    let m4 := PACK_PREV_ALLOC m3 bp alloc
    (insert_free { s2 with mem := m4 } bp, bp)

def extend_heap (s : State) (words : Nat) : State × Nat :=
  let size := if words % 2 ≠ 0 then mul32 (add32 words 1) WSIZE else mul32 words WSIZE
  let r := mem_sbrk s size
  let bp := r.2
  if bp = SBRK_FAIL then (r.1, 0)
  else
    let s0 := r.1
    let alloc := GET_PREV_ALLOC s0.mem bp
    let m1 := PUT s0.mem (HDRP bp) (PACK size 0)
    let m2 := PUT m1 (HDRP (NEXT_BLKP m1 bp)) (PACK 0 1)
    let m3 := PACK_PREV_ALLOC m2 bp alloc
    (insert_free { s0 with mem := m3 } bp, bp)

/-- The inner `while` loop of `find_fit` over one bucket list: `none` when
the fuel runs out before the list ends, `some 0` when the list ends without
a fit. -/
def find_fit_list (m : Mem) (size : Nat) : Nat → Nat → Option Nat
  | 0, _ => none
  | fuel + 1, ptr =>
    if ptr = 0 then some 0
    else if sle size (GET_SIZE m (HDRP ptr)) && decide (GET_ALLOC m (HDRP ptr) = 0)
      then some ptr
    else find_fit_list m size fuel (GET_NEXT_FREE m ptr)

/-- The outer `for` loop of `find_fit`: `n` iterations remain, `i` is the
loop variable. -/
def find_fit_loop (s : State) (size fuel : Nat) : Nat → Nat → Option Nat
  | 0, _ => some 0
  | n + 1, i =>
    match find_fit_list s.mem size fuel (bucket s i) with
    | none => none
    | some 0 => find_fit_loop s size fuel n (i + 1)
    | some ptr => some ptr

/-- The search `find_fit`.  A list of the region holds fewer blocks than the
region has bytes, which bounds the walk along one list. -/
def find_fit (s : State) (size : Nat) : Option Nat :=
  let seg_index := find_index size
  find_fit_loop s size (s.brk - s.mem_start + 1) (BUCKETS - seg_index) seg_index

def place (s : State) (bp size : Nat) : State :=
  if GET_ALLOC s.mem (HDRP bp) ≠ 0 ∨ slt (GET_SIZE s.mem (HDRP bp)) size = true then s
  else
    let alloc := GET_PREV_ALLOC s.mem bp
    let extra := sub32 (GET_SIZE s.mem (HDRP bp)) size
    if sle OVERHEAD extra = true then
      let s1 := pop_free s bp
      let m2 := PUT s1.mem (HDRP bp) (PACK size 1)
      let m3 := PACK_PREV_ALLOC m2 bp alloc
      let m4 := PUT m3 (HDRP (NEXT_BLKP m3 bp)) (PACK extra 0)
      let m5 := PACK_PREV_ALLOC m4 (NEXT_BLKP m4 bp) 1
      insert_free { s1 with mem := m5 } (NEXT_BLKP m5 bp)
    else
      let m1 := PUT s.mem (HDRP bp) (PACK (GET_SIZE s.mem (HDRP bp)) 1)
      let m2 := PACK_PREV_ALLOC m1 bp alloc
      pop_free { s with mem := m2 } bp

/-! ## The public interface -/

/-- The loop of `mm_init` that clears the bucket heads. -/
def clear_buckets (s : State) : Nat → Mem → Mem
  | 0, m => m
  | n + 1, m => PUTP (clear_buckets s n m) (slot s n) 0

/-- The result is the state after the call and the returned `int`
(`0`, or the bit pattern of `-1`). -/
def mm_init (s : State) : State × Nat :=
  let r1 := mem_sbrk { s with seg_list := 0 } (mul32 32 WSIZE)
  let s1 : State := { r1.1 with seg_list := r1.2 }
  if r1.2 = 0 then (s1, 4294967295)
  else
    let s2 : State := { s1 with mem := clear_buckets s1 BUCKETS s1.mem }
    let r3 := mem_sbrk s2 (mul32 4 WSIZE)
    let s3 : State := { r3.1 with heap_start := r3.2 }
    let hs := r3.2
    if hs = 0 then (s3, 4294967295)
    else
      let m4 := PUT s3.mem hs 0
      let m5 := PUT m4 (padd hs WSIZE) (PACK DSIZE 1)
      let m6 := PUT m5 (padd hs DSIZE) (PACK DSIZE 1)
      let m7 := PUT m6 (padd (padd hs WSIZE) DSIZE) (PACK 0 1)
      let m8 := PACK_PREV_ALLOC m7 (padd (padd hs DSIZE) DSIZE) 1
      let s8 : State := { s3 with mem := m8, heap_start := padd hs DSIZE }
      let r9 := extend_heap s8 (sdiv32 CHUNKSIZE WSIZE)
      if r9.2 = 0 then (r9.1, 4294967295) else (r9.1, 0)

/-- The adjusted block size that `malloc` computes from the request. -/
def adjust (size : Nat) : Nat :=
  let new_size := toInt32 (size + WSIZE)
  let new_size := mul32 (sdiv32 (sub32 (add32 new_size DSIZE) 1) DSIZE) DSIZE
  if slt new_size OVERHEAD = true then OVERHEAD else new_size

/-- The allocation `malloc`; `size` is a `size_t`.  The result is `none` only
when the search of the free lists runs out of fuel. -/
def malloc (s : State) (size : Nat) : Option (State × Nat) :=
  if isNeg (toInt32 size) = true then some (s, 0)
  else
    let new_size := adjust size
    match find_fit s new_size with
    | none => none
    | some bp =>
      if bp ≠ 0 then some (place s bp new_size, bp)
      else
        let extend_size := if slt CHUNKSIZE new_size = true then new_size else CHUNKSIZE
        let r := extend_heap s (sdiv32 extend_size WSIZE)
        if r.2 = 0 then some (r.1, 0)
        else some (place r.1 r.2 new_size, r.2)

def free (s : State) (ptr : Nat) : State :=
  if ptr = 0 then s
  else
    let alloc := GET_PREV_ALLOC s.mem ptr
    let size := GET_SIZE s.mem (HDRP ptr)
    let m1 := PUT s.mem (HDRP ptr) (PACK size 0)
    let m2 := PACK_PREV_ALLOC m1 ptr alloc
    (coalesce { s with mem := m2 } ptr).1

/-- The library `memcpy`: the `n` bytes at `src` are copied to `dst`. -/
def memcpy (m : Mem) (dst src n : Nat) : Mem := ⟨fun a =>
  if a < 18446744073709551616 ∧ (a + 18446744073709551616 - dst) % 18446744073709551616 < n
  then m.rd ((src + (a + 18446744073709551616 - dst) % 18446744073709551616)
            % 18446744073709551616)
  else m.rd a⟩

/-- The library `memset`: the `n` bytes at `dst` are set to `c`. -/
def memset (m : Mem) (dst c n : Nat) : Mem := ⟨fun a =>
  if a < 18446744073709551616 ∧ (a + 18446744073709551616 - dst) % 18446744073709551616 < n
  then c % 256
  else m.rd a⟩

/-- The number of bytes `realloc` passes to `memcpy`: the `int` variable
`oldsize`, converted to `size_t`. -/
def realloc_copy_len (m : Mem) (oldptr size : Nat) : Nat :=
  let oldsize := GET_SIZE m (HDRP oldptr)
  let oldsize := if slt (toInt32 size) oldsize = true then toInt32 size else oldsize
  sext oldsize

def realloc (s : State) (oldptr size : Nat) : Option (State × Nat) :=
  if oldptr = 0 then malloc s size
  else if size = 0 then some (free s oldptr, 0)
  else
    match malloc s size with
    | none => none
    | some (s1, ptr) =>
      if ptr = 0 then some (s1, 0)
      else
        let m2 := memcpy s1.mem ptr oldptr (realloc_copy_len s1.mem oldptr size)
        some (free { s1 with mem := m2 } oldptr, ptr)

def calloc (s : State) (nmemb size : Nat) : Option (State × Nat) :=
  let total := (nmemb * size) % 18446744073709551616
  match malloc s total with
  | none => none
  | some (s1, ptr) => some ({ s1 with mem := memset s1.mem ptr 0 total }, ptr)

/-! ## The consistency checker -/

/-- Modelled from the spec: `region_low()` of the growth adapter (`mem_heap_lo`
of `memlib`, not among the sources), the first byte of the region. -/
def mem_heap_lo (s : State) : Nat := s.mem_start

/-- Modelled from the spec: `region_high()` of the growth adapter (`mem_heap_hi`
of `memlib`, not among the sources), the last byte of the region. -/
def mem_heap_hi (s : State) : Nat := (s.brk + 18446744073709551615) % 18446744073709551616

def in_heap (s : State) (p : Nat) : Bool :=
  decide (p ≤ mem_heap_hi s) && decide (mem_heap_lo s ≤ p)

/-- The `int` value `1 << k`; the shift count is taken modulo 32, as the
shift instruction of the target does (for `k = -1` the C expression has no
defined value). -/
def shl1 (k : Nat) : Nat := 2 ^ (k % 32) % 4294967296

/-- The heap walk of `mm_checkheap`: the result is the code returned from
inside the loop (`1`) or `0` when the loop ends, together with the handle
`bp` at that point. -/
def check_walk (s : State) : Nat → Nat → Option (Nat × Nat)
  | 0, _ => none
  | fuel + 1, bp =>
    if GET_SIZE s.mem (HDRP bp) = 0 then some (0, bp)
    else if in_heap s bp = false then some (1, bp)
    else if bp % 8 ≠ 0 then some (1, bp)
    else if GET_ALLOC s.mem (HDRP bp) = 0 ∧
        (in_heap s (GET_NEXT_FREE s.mem bp) = false ∨ in_heap s (GET_PREV_FREE s.mem bp) = false)
      then some (1, bp)
    else check_walk s fuel (NEXT_BLKP s.mem bp)

/-- The walk of `mm_checkheap` along the list of bucket `i`; `bp` is the
handle at which the heap walk ended. -/
def check_list (s : State) (bp i : Nat) : Nat → Nat → Option Nat
  | 0, _ => none
  | fuel + 1, ptr =>
    if ptr = 0 then some 0
    else if GET s.mem (HDRP bp) ≠ GET s.mem (FTRP s.mem bp) then some 1
    else if in_heap s (GET_PREV_FREE s.mem ptr) = false ∧
        in_heap s (GET_NEXT_FREE s.mem ptr) = false then some 1
    else if GET_ALLOC s.mem (HDRP ptr) = 0 then some 1
    else if slt (shl1 i) (GET_SIZE s.mem (HDRP bp)) = true ∨
        sle (GET_SIZE s.mem (HDRP bp)) (shl1 (sub32 i 1)) = true then some 1
    else check_list s bp i fuel (GET_NEXT_FREE s.mem ptr)

/-- The loop of `mm_checkheap` over the buckets: `n` iterations remain. -/
def check_lists (s : State) (bp fuel : Nat) : Nat → Nat → Option Nat
  | 0, _ => some 0
  | n + 1, i =>
    match check_list s bp i fuel (bucket s i) with
    | none => none
    | some 0 => check_lists s bp fuel n (i + 1)
    | some r => some r

/-- The load `GET_NEXT_FREE(p)` as the cycle search of `mm_checkheap` makes
it, on pointers it has not tested: for `p = NULL` the function reads the word
at address 4, which lies in no object of the program, and the search has no
result there (`none`). -/
def next_free_of (s : State) (p : Nat) : Option Nat :=
  if p = 0 then none else some (GET_NEXT_FREE s.mem p)

/-- The hare-and-tortoise loop of `mm_checkheap` on one list.  The hare is
advanced by `GET_NEXT_FREE(GET_NEXT_FREE(hare))` after the test of `hare`
alone, so the outer load goes through `NULL` when the hare stands on the
last block of the list. -/
def check_cycle (s : State) : Nat → Nat → Nat → Option Nat
  | 0, _, _ => none
  | fuel + 1, hare, tortoise =>
    if tortoise = 0 then some 0
    else if tortoise = hare then some 1
    else
      match (if hare ≠ 0 then (next_free_of s hare).bind (next_free_of s) else some hare) with
      | none => none
      | some h => check_cycle s fuel h (GET_NEXT_FREE s.mem tortoise)

/-- The loop of `mm_checkheap` that looks for cycles: `n` iterations remain.
The hare starts at `GET_NEXT_FREE(seg_list[i])`, which is loaded before the
head is compared with `NULL`. -/
def check_cycles (s : State) (fuel : Nat) : Nat → Nat → Option Nat
  | 0, _ => some 0
  | n + 1, i =>
    match next_free_of s (bucket s i) with
    | none => none
    | some hare =>
      match check_cycle s fuel hare (bucket s i) with
      | none => none
      | some 0 => check_cycles s fuel n (i + 1)
      | some r => some r

/-- The checker `mm_checkheap` (its argument `verbose` only selects what is
printed): `some 0` for a pass, `some 1` for a failure, `none` when a loop
runs out of fuel or the cycle search loads through `NULL`. -/
def mm_checkheap (s : State) : Option Nat :=
  if GET_SIZE s.mem (HDRP s.heap_start) ≠ 8 ∨ GET_ALLOC s.mem (HDRP s.heap_start) = 0 then some 1
  else
    match check_walk s (s.brk - s.mem_start + 1) s.heap_start with
    | none => none
    | some (1, _) => some 1
    | some (_, bp) =>
      if GET_SIZE s.mem (HDRP bp) ≠ 0 ∨ GET_ALLOC s.mem (HDRP bp) = 0 then some 1
      else
        match check_lists s bp (s.brk - s.mem_start + 1) BUCKETS 0 with
        | none => none
        | some 0 => check_cycles s (s.brk - s.mem_start + 1) BUCKETS 0
        | some r => some r

/-- The state before `mm_init`: an empty region at `lo` that may grow up to
`hi`, over arbitrary memory contents `m0`. -/
def fresh (lo hi : Nat) (m0 : Mem) : State :=
  { mem := m0, brk := lo, mem_start := lo, mem_max := hi, heap_start := 0, seg_list := 0 }

/-! ## Observing a heap -/

/-- The handle of the first block: the block after the prologue. -/
def first_block (s : State) : Nat := NEXT_BLKP s.mem s.heap_start

/-- The address-ordered walk over the heap (the loop of `mm_checkheap` and of
`printheap`): from `bp`, `NEXT_BLKP` is applied until a header of size 0 is
met.  The result is the list of handles visited before that header and the
handle at which the walk ends, or `none` when the fuel runs out. -/
def walk (m : Mem) : Nat → Nat → Option (List Nat × Nat)
  | 0, _ => none
  | fuel + 1, bp =>
    if GET_SIZE m (HDRP bp) = 0 then some ([], bp)
    else match walk m fuel (NEXT_BLKP m bp) with
      | none => none
      | some r => some (bp :: r.1, r.2)

/-- The walk over the whole heap; the region has fewer blocks than bytes. -/
def heap_walk (s : State) : Option (List Nat × Nat) :=
  walk s.mem (s.brk - s.mem_start + 1) (first_block s)

/-- The handle `p` is the handle of a block of the heap whose allocated bit is set. -/
def allocated (s : State) (p : Nat) : Bool :=
  match heap_walk s with
  | none => false
  | some r => decide (p ∈ r.1) && decide (GET_ALLOC s.mem (HDRP p) ≠ 0)

/-- The number of bytes `malloc` asks the region to grow by for the request
`size`, as `extend_heap` passes it to `mem_sbrk`. -/
def grow_request (size : Nat) : Nat :=
  let new_size := adjust size
  let extend_size := if slt CHUNKSIZE new_size = true then new_size else CHUNKSIZE
  let words := sdiv32 extend_size WSIZE
  if words % 2 ≠ 0 then mul32 (add32 words 1) WSIZE else mul32 words WSIZE

/-! ## Concrete regions and runs -/

/-- A memory of zero bytes. -/
def zeros : Mem := ⟨fun _ => 0⟩

/-- A memory whose bytes are all `0xFF`. -/
def ones : Mem := ⟨fun _ => 255⟩

/-- The base of the example regions, the address `ref`. -/
def LO : Nat := 0x800000000

/-- The state of a call that returned a state, the state before it otherwise. -/
def stateOf (s : State) (r : Option (State × Nat)) : State :=
  match r with
  | some x => x.1
  | none => s

/-- The value a call returned, `1` when it returned nothing. -/
def valueOf (r : Option (State × Nat)) : Nat :=
  match r with
  | some x => x.2
  | none => 1

/-- The heap after `mm_init` on a zeroed region that may grow to 4096 bytes. -/
def run0 : State := (mm_init (fresh LO (LO + 4096) zeros)).1

/-- The heap after `mm_init` on a region of `0xFF` bytes that cannot grow
beyond the 672 bytes `mm_init` takes. -/
def full0 : State := (mm_init (fresh LO (LO + 672) ones)).1

/-- The heap after `mm_init` on a region of `0xFF` bytes too small for the
bucket array. -/
def tiny0 : State × Nat := mm_init (fresh LO (LO + 100) ones)

/-- A request whose adjusted size leaves the range of `int`: `BIG + 4` is `2^31`. -/
def BIG : Nat := 2147483644

/-- The program stores the byte `v` at the address `a`. -/
def poke (s : State) (a v : Nat) : State :=
  { s with mem := ⟨fun x => if x = a then v else s.mem.rd x⟩ }

/-- The program stores the listed bytes, one after the other. -/
def pokes (s : State) : List (Nat × Nat) → State
  | [] => s
  | (a, v) :: t => pokes (poke s a v) t

/-- What the address-ordered walk sees: for every block its handle, size,
allocated bit and prev_allocated bit, then the handle at which the walk ends
and the tag word found there. -/
def view (s : State) : Option (List (Nat × Nat × Nat × Nat) × Nat × Nat) :=
  match heap_walk s with
  | none => none
  | some r => some (r.1.map (fun p =>
      (p, GET_SIZE s.mem (HDRP p), GET_ALLOC s.mem (HDRP p), GET_PREV_ALLOC s.mem p)),
      r.2, GET s.mem (HDRP r.2))

/-- Run B: `malloc(16)` returns the handle `LO + 144` of a 24-byte block. -/
def runB1 : State := stateOf run0 (malloc run0 16)

/-- Run B: then `realloc(LO + 144, BIG)`. -/
def runB2 : State := stateOf runB1 (realloc runB1 (LO + 144) BIG)

/-- Run B: then `free(LO + 168)`, the handle `realloc` returned. -/
def runB3 : State := free runB2 (LO + 168)

/-- Run A: `malloc(8)` returns the handle `LO + 144` of a 16-byte block. -/
def runA1 : State := stateOf run0 (malloc run0 8)

/-- Run A: the second `malloc(8)` returns `LO + 160`. -/
def runA2 : State := stateOf runA1 (malloc runA1 8)

/-- Run A: the third `malloc(8)` returns `LO + 176`. -/
def runA3 : State := stateOf runA2 (malloc runA2 8)

/-- Run A: then `free(LO + 160)`. -/
def runA4 : State := free runA3 (LO + 160)

/-- Run A: then `free(LO + 144)`. -/
def runA5 : State := free runA4 (LO + 144)

/-- Run A: then `free(LO + 176)`; the heap is one free block again. -/
def runA6 : State := free runA5 (LO + 176)

/-- Run A: then `malloc(40)`, which returns the handle `LO + 144` of a 48-byte block. -/
def runA7 : State := stateOf runA6 (malloc runA6 40)

/-- Run A: then `realloc(LO + 144, BIG)`. -/
def runA8 : State := stateOf runA7 (realloc runA7 (LO + 144) BIG)

/-- Run A: then `malloc(44)`, which returns `LO + 144`. -/
def runA9 : State := stateOf runA8 (malloc runA8 44)

/-- Run A: then `malloc(8)`, which returns `LO + 208`. -/
def runA10 : State := stateOf runA9 (malloc runA9 8)

/-- Run A: then `free(LO + 208)`. -/
def runA11 : State := free runA10 (LO + 208)

/-- Run E: `malloc(36)` returns the handle `LO + 144` of a 40-byte block. -/
def runE1 : State := stateOf run0 (malloc run0 36)

/-- Run E: the program stores two bytes into the payload of its block. -/
def runE2 : State := pokes runE1 [(LO + 156, 50), (LO + 164, 188)]

/-- Run E: then `realloc(LO + 144, BIG)`, which returns `LO + 184`. -/
def runE3 : State := stateOf runE2 (realloc runE2 (LO + 144) BIG)

/-- Run E: then `malloc(44)`. -/
def runE4 : State := stateOf runE3 (malloc runE3 44)

/-- Run G: `malloc(24)` returns the handle `LO + 144` of a 32-byte block. -/
def runG1 : State := stateOf run0 (malloc run0 24)

/-- Run G: `malloc(260)` returns `LO + 176`. -/
def runG2 : State := stateOf runG1 (malloc runG1 260)

/-- Run G: `malloc(228)` returns `LO + 440` and uses up the heap. -/
def runG3 : State := stateOf runG2 (malloc runG2 228)

/-- Run G: then `free(LO + 176)`. -/
def runG4 : State := free runG3 (LO + 176)

/-- Run G: the program stores nine bytes into the payload of its block `LO + 144`. -/
def runG5 : State :=
  pokes runG4
    [(LO + 149, 0), (LO + 150, 1), (LO + 151, 0), (LO + 156, 250), (LO + 160, 255),
     (LO + 161, 255), (LO + 162, 255), (LO + 163, 255), (LO + 164, 185)]

/-- Run G: then `realloc(LO + 144, BIG)`, which returns `LO + 176`. -/
def runG6 : State := stateOf runG5 (realloc runG5 (LO + 144) BIG)

/-- Run G: then `malloc(244)`, which returns `LO + 192`. -/
def runG7 : State := stateOf runG6 (malloc runG6 244)

/-- Run G: then `free(LO + 192)`. -/
def runG8 : State := free runG7 (LO + 192)

/-- A memory of zero bytes except for the word `0xFFFFFFF0` at `LO + 156`. -/
def dirty : Mem :=
  ⟨fun a => if a = LO + 156 then 240 else if LO + 157 ≤ a ∧ a ≤ LO + 159 then 255 else 0⟩

/-- Run K: the heap after `mm_init` on a region over the memory `dirty`. -/
def runK0 : State := (mm_init (fresh LO (LO + 4096) dirty)).1

/-- Run K: `malloc(20)` returns `LO + 144`, a block of 24 bytes whose payload
holds the word at `LO + 156`. -/
def runK1 : State := stateOf runK0 (malloc runK0 20)

/-- Run K: `realloc(LO + 144, BIG)` returns `LO + 168`, a block of 16 bytes,
after copying 24 bytes to it. -/
def runK2 : State := stateOf runK1 (realloc runK1 (LO + 144) BIG)

/-- Run K: `malloc(20)` returns `LO + 144` again. -/
def runK3 : State := stateOf runK2 (malloc runK2 20)

/-! ## Definitions for the statements -/

/-- The handle reached from `bp` by `n` steps of `NEXT_BLKP`. -/
def nth_block (m : Mem) : Nat → Nat → Nat
  | 0, bp => bp
  | n + 1, bp => nth_block m n (NEXT_BLKP m bp)

/-- The list in memory that starts at the head `h` and follows the
`next_free` links is `l`: its elements are not null and the link of the last
one is null. -/
def list_at (m : Mem) : Nat → List Nat → Bool
  | h, [] => h == 0
  | h, x :: t => h == x && x != 0 && list_at m (GET_NEXT_FREE m x) t

/-- The block `x` fits the request `size`: it is free and its size is not
below `size` (the test of `find_fit`). -/
def fits (m : Mem) (size x : Nat) : Bool :=
  sle size (GET_SIZE m (HDRP x)) && decide (GET_ALLOC m (HDRP x) = 0)

/-- Follows the words of the claim on `find_fit`: the first handle of `l`,
from head to tail, whose block fits `size`; null when there is none. -/
def spec_first_fit (m : Mem) (size : Nat) : List Nat → Nat
  | [] => 0
  | x :: t => if fits m size x = true then x else spec_first_fit m size t

/-- The lists of the `n` buckets from `i` on, one after the other. -/
def scan (F : Nat → List Nat) : Nat → Nat → List Nat
  | _, 0 => []
  | i, n + 1 => F i ++ scan F (i + 1) n

/-- The link or bucket head `x` is null or the handle of a block that lies
above the bucket array and apart from the block `bp` of size `S`. -/
def Apart (s : State) (bp S x : Nat) : Prop :=
  x = 0 ∨ (x % 8 = 0 ∧ s.seg_list + 128 ≤ x ∧ (x + 16 ≤ bp ∨ bp + S ≤ x) ∧
    x + 8 < 18446744073709551616)

/-! ## Auxiliary definitions -/

/-- The 32-bit offset stored for the link `a` (`PUT_PREV_FREE`, `PUT_NEXT_FREE`). -/
def encL (a : Nat) : Nat :=
  if a = 0 then 4294967295 else (a + 18446744073709551616 - ref) % 4294967296

/-- The link read from the stored offset `v` (`GET_PREV_FREE`, `GET_NEXT_FREE`). -/
def decL (v : Nat) : Nat :=
  if v = 4294967295 then 0 else (ref + v) % 18446744073709551616

/-- The tag word `w` with its prev_allocated bit set (`f ≠ 0`) or cleared. -/
def setPA (w f : Nat) : Nat :=
  if f ≠ 0 then w + 2 - 2 * (w / 2 % 2) else w - 2 * (w / 2 % 2)

/-- The stores of `pop_free` on the block `bp` of size `sz` whose links are
`prv` and `nxt` and whose bucket head is stored at `sl`. -/
def popMem (m : Mem) (sl bp sz prv nxt : Nat) : Mem :=
  let m1 := if prv = 0 then PUTP m sl nxt else PUT m (prv + 4) (encL nxt)
  let m2 := if nxt ≠ 0 then PUT m1 nxt (encL prv) else m1
  PUT m2 (bp + sz - 4) (setPA (GET m2 (bp + sz - 4)) 1)

/-- The stores of `insert_free` on the block `bp` of size `sz` when the
bucket head, stored at `sl`, is `head`. -/
def insMem (m : Mem) (sl bp sz head : Nat) : Mem :=
  let m1 := PUT m (bp + 4) (encL head)
  let m2 := PUT m1 bp (encL 0)
  let m3 := if head ≠ 0 then PUT m2 head (encL bp) else m2
  let m4 := PUTP m3 sl bp
  let m5 := PUT m4 (bp + sz - 4) (setPA (GET m4 (bp + sz - 4)) 0)
  PUT m5 (bp + sz - 8) (GET m5 (bp - 4))

end MM

/-! # The implicit-list variant `mm1.c`

The variant keeps no free lists: every block, allocated or free, has a header
and a footer holding `size | allocated`, and the heap is searched in address
order.  The macros `GET`, `PUT`, `PACK`, `GET_SIZE`, `GET_ALLOC`, `HDRP`,
`FTRP`, `NEXT_BLKP` and `PREV_BLKP` of `mm1.c` are those of `mm.c`; the
definitions of `MM` are used for them, and `mem_sbrk` is the one modelled
there. -/

namespace MM1

open MM

def CHUNKSIZE : Nat := 4096

/-- The store `PUT(p, val)` of `mm1.c` on a state.  The arena of `memlib` is
the byte range from `mem_start` up to `mem_max`; a store that does not lie in
it has no defined effect, and the call that makes it has no result (`none`).
Loads are not restricted. -/
def put (s : State) (p v : Nat) : Option State :=
  if s.mem_start ≤ p ∧ p + 4 ≤ s.mem_max then some { s with mem := PUT s.mem p v } else none

def coalesce (s : State) (bp : Nat) : Option (State × Nat) :=
  let next := GET_ALLOC s.mem (HDRP (NEXT_BLKP s.mem bp))
  let prev := GET_ALLOC s.mem (FTRP s.mem (PREV_BLKP s.mem bp))
  if prev ≠ 0 ∧ next ≠ 0 then some (s, bp)
  else if prev = 0 ∧ next ≠ 0 then
    let size := add32 (GET_SIZE s.mem (HDRP bp)) (GET_SIZE s.mem (HDRP (PREV_BLKP s.mem bp)))
    (put s (HDRP (PREV_BLKP s.mem bp)) (PACK size 0)).bind fun s1 =>
    (put s1 (FTRP s1.mem bp) (PACK size 0)).bind fun s2 =>
    some (s2, PREV_BLKP s2.mem bp)
  else if prev ≠ 0 ∧ next = 0 then
    let size := add32 (GET_SIZE s.mem (HDRP bp)) (GET_SIZE s.mem (HDRP (NEXT_BLKP s.mem bp)))
    (put s (HDRP bp) (PACK size 0)).bind fun s1 =>
    (put s1 (FTRP s1.mem bp) (PACK size 0)).bind fun s2 =>
    some (s2, bp)
  else
    let size := add32 (GET_SIZE s.mem (HDRP bp)) (GET_SIZE s.mem (HDRP (PREV_BLKP s.mem bp)))
    let size := add32 size (GET_SIZE s.mem (HDRP (NEXT_BLKP s.mem bp)))
    (put s (HDRP (PREV_BLKP s.mem bp)) (PACK size 0)).bind fun s1 =>
    (put s1 (FTRP s1.mem (NEXT_BLKP s1.mem bp)) (PACK size 0)).bind fun s2 =>
    some (s2, PREV_BLKP s2.mem bp)

/-- The result handle is 0 (NULL) when `mem_sbrk` fails. -/
def extend_heap (s : State) (words : Nat) : Option (State × Nat) :=
  let size := if words % 2 ≠ 0 then mul32 (add32 words 1) WSIZE else mul32 words WSIZE
  let r := mem_sbrk s size
  let bp := r.2
  if bp = SBRK_FAIL then some (r.1, 0)
  else
    (put r.1 (HDRP bp) (PACK size 0)).bind fun s1 =>
    (put s1 (FTRP s1.mem bp) (PACK size 0)).bind fun s2 =>
    (put s2 (HDRP (NEXT_BLKP s2.mem bp)) (PACK 0 1)).bind fun s3 =>
    coalesce s3 bp

/-- The `while` loop of `find_fit`: `none` when the fuel runs out, `some 0`
when the walk meets a header whose size is not positive. -/
def find_fit_loop (m : Mem) (size : Nat) : Nat → Nat → Option Nat
  | 0, _ => none
  | fuel + 1, ptr =>
    if slt 0 (GET_SIZE m (HDRP ptr)) = true then
      if sle size (GET_SIZE m (HDRP ptr)) = true ∧ GET_ALLOC m (HDRP ptr) = 0 then some ptr
      else find_fit_loop m size fuel (NEXT_BLKP m ptr)
    else some 0

/-- The search `find_fit`.  The region holds fewer blocks than it has bytes,
which bounds the walk. -/
def find_fit (s : State) (size : Nat) : Option Nat :=
  find_fit_loop s.mem size (s.brk - s.mem_start + 1) s.heap_start

def place (s : State) (bp size : Nat) : Option State :=
  if GET_ALLOC s.mem (HDRP bp) ≠ 0 ∨ slt (GET_SIZE s.mem (HDRP bp)) size = true then some s
  else
    let extra := sub32 (GET_SIZE s.mem (HDRP bp)) size
    (put s (HDRP bp) (PACK size 1)).bind fun s1 =>
    (put s1 (FTRP s1.mem bp) (PACK size 1)).bind fun s2 =>
    if slt 0 extra = true then
      (put s2 (HDRP (NEXT_BLKP s2.mem bp)) (PACK extra 0)).bind fun s3 =>
      put s3 (FTRP s3.mem (NEXT_BLKP s3.mem bp)) (PACK extra 0)
    else some s2

/-- The result is the state after the call and the returned `int`
(`0`, or the bit pattern of `-1`). -/
def mm_init (s : State) : Option (State × Nat) :=
  let r := mem_sbrk s (mul32 4 WSIZE)
  let s0 : State := { r.1 with heap_start := r.2 }
  if r.2 = 0 then some (s0, 4294967295)
  else
    (put s0 s0.heap_start 0).bind fun s1 =>
    (put s1 (padd s1.heap_start WSIZE) (PACK DSIZE 1)).bind fun s2 =>
    (put s2 (padd s2.heap_start DSIZE) (PACK DSIZE 1)).bind fun s3 =>
    (put s3 (padd (padd s3.heap_start WSIZE) DSIZE) (PACK 0 1)).bind fun s4 =>
    (extend_heap { s4 with heap_start := padd s4.heap_start DSIZE }
      (sdiv32 CHUNKSIZE WSIZE)).bind fun r1 =>
    if r1.2 = 0 then some (r1.1, 4294967295) else some (r1.1, 0)

/-- The adjusted block size `new_size` that `malloc` computes from the request
`size`, a `size_t`: the arithmetic is that of `size_t`, the result is
converted to `int`. -/
def adjust (size : Nat) : Nat :=
  if size ≤ DSIZE then mul32 2 DSIZE
  else toInt32 (((size + 2 * DSIZE) % 18446744073709551616 + 18446744073709551616 - 1)
    % 18446744073709551616 / DSIZE * DSIZE % 18446744073709551616)

/-- The allocation `malloc`; `mm_checkheap` of `mm1.c` returns 0 and has no
effect, its call is left out. -/
def malloc (s : State) (size : Nat) : Option (State × Nat) :=
  if isNeg (toInt32 size) = true then some (s, 0)
  else
    let new_size := adjust size
    (find_fit s new_size).bind fun bp =>
    if bp ≠ 0 then (place s bp new_size).bind fun s1 => some (s1, bp)
    else
      let extend_size := if slt CHUNKSIZE new_size = true then new_size else CHUNKSIZE
      (extend_heap s (sdiv32 extend_size WSIZE)).bind fun r =>
      if r.2 = 0 then some (r.1, 0)
      else (place r.1 r.2 new_size).bind fun s2 => some (s2, r.2)

def free (s : State) (ptr : Nat) : Option State :=
  if ptr = 0 then some s
  else
    let size := GET_SIZE s.mem (HDRP ptr)
    (put s (HDRP ptr) (PACK size 0)).bind fun s1 =>
    (put s1 (FTRP s1.mem ptr) (PACK size 0)).bind fun s2 =>
    (coalesce s2 ptr).bind fun r => some r.1

/-- The library `memcpy` on a state: as for `put`, a copy of `n > 0` bytes
whose destination does not lie in the arena has no result. -/
def memcpy (s : State) (dst src n : Nat) : Option State :=
  if n = 0 ∨ (s.mem_start ≤ dst ∧ dst + n ≤ s.mem_max) then
    some { s with mem := MM.memcpy s.mem dst src n }
  else none

def realloc (s : State) (oldptr size : Nat) : Option (State × Nat) :=
  if oldptr = 0 then malloc s size
  else if size = 0 then (free s oldptr).bind fun s1 => some (s1, 0)
  else
    (malloc s size).bind fun r =>
    if r.2 = 0 then some (r.1, 0)
    else
      let oldsize := GET_SIZE r.1.mem (HDRP oldptr)
      let oldsize := if slt (toInt32 size) oldsize = true then toInt32 size else oldsize
      (memcpy r.1 r.2 oldptr (sext oldsize)).bind fun s2 =>
      (free s2 oldptr).bind fun s3 => some (s3, r.2)

/-! ## Reachable states and what the claim says of them -/

/-- The states reachable from a successful `mm_init` on `s0` by calls of
`malloc`, `free` and `realloc`; the handle passed to `free` and `realloc` is
NULL or the handle of a block of the heap whose allocated bit is set, and
every call has a result. -/
inductive Reach (s0 : State) : State → Prop
  | init (s : State) : mm_init s0 = some (s, 0) → Reach s0 s
  | malloc (s s1 : State) (n p : Nat) : Reach s0 s → n < 18446744073709551616 →
      malloc s n = some (s1, p) → Reach s0 s1
  | free (s s1 : State) (p : Nat) : Reach s0 s → (p = 0 ∨ allocated s p = true) →
      free s p = some s1 → Reach s0 s1
  | realloc (s s1 : State) (p n q : Nat) : Reach s0 s → (p = 0 ∨ allocated s p = true) →
      n < 18446744073709551616 → realloc s p n = some (s1, q) → Reach s0 s1

/-- Two handles that follow one another in the list both have the allocated
bit clear. -/
def adjacent_free (m : Mem) : List Nat → Bool
  | p :: q :: t =>
    (decide (GET_ALLOC m (HDRP p) = 0) && decide (GET_ALLOC m (HDRP q) = 0)) ||
      adjacent_free m (q :: t)
  | _ => false

/-! ## A concrete run -/

/-- An arena of 64 KiB of zero bytes at `LO`, before `mm_init`. -/
def arena : State := fresh LO (LO + 65536) zeros

/-- Run M: the heap after `mm_init`, one free block of 4096 bytes at `LO + 16`. -/
def runM1 : State := stateOf arena (mm_init arena)

/-- Run M: `malloc(24)` returns the handle `LO + 16` of a 32-byte block. -/
def runM2 : State := stateOf runM1 (malloc runM1 24)

/-- Run M: `malloc(5000)` extends the heap by 5008 bytes and returns `LO + 48`. -/
def runM3 : State := stateOf runM2 (malloc runM2 5000)

/-- Run M: then `free(LO + 16)`. -/
def runM4 : State := (free runM3 (LO + 16)).getD runM3

/-- Run M: then `realloc(LO + 48, 100)`, which returns `LO + 5056` and frees
the block `LO + 48` next to the free block `LO + 16`. -/
def runM5 : State := stateOf runM4 (realloc runM4 (LO + 48) 100)

/-- What the walk over the heap sees: the handle, size and allocated bit of
every block. -/
def view1 (s : State) : Option (List (Nat × Nat × Nat)) :=
  match heap_walk s with
  | none => none
  | some r => some (r.1.map (fun p => (p, GET_SIZE s.mem (HDRP p), GET_ALLOC s.mem (HDRP p))))

/-! ## Auxiliary definitions -/

/-- The bytes of a list of blocks, each given by its size and allocated bit. -/
def total : List (Nat × Nat) → Nat
  | [] => 0
  | b :: L => b.1 + total L

/-- The blocks `L` lie one after another from the handle `a` on, each with a
header and a footer that hold its size and allocated bit. -/
def Tiles (m : Mem) : Nat → List (Nat × Nat) → Prop
  | _, [] => True
  | a, b :: L => 8 ≤ b.1 ∧ b.1 % 8 = 0 ∧ b.2 < 2 ∧ GET m (a - 4) = b.1 + b.2 ∧
      GET m (a + b.1 - 8) = b.1 + b.2 ∧ Tiles m (a + b.1) L

/-- No two blocks that follow one another are both free. -/
def NoAdj (L : List (Nat × Nat)) : Prop := L.Chain' (fun x y => x.2 ≠ 0 ∨ y.2 ≠ 0)

/-- The handles of the blocks `L` laid out from `a` on. -/
def handles : Nat → List (Nat × Nat) → List Nat
  | _, [] => []
  | a, b :: L => a :: handles (a + b.1) L

/-- The heap of `s` is the prologue followed by the blocks `L` and the
epilogue, in an arena of at most `2^31` bytes. -/
structure Inv (s : State) (L : List (Nat × Nat)) : Prop where
  hs : s.heap_start = s.mem_start + 8
  top : s.brk = s.mem_start + 16 + total L
  room : s.brk ≤ s.mem_max
  small : s.mem_max ≤ s.mem_start + 2147483648
  addr : s.mem_max < 18446744073709551616
  tiles : Tiles s.mem (s.mem_start + 8) ((8, 1) :: L)
  epi : GET s.mem (s.brk - 4) = 1
  noadj : NoAdj L

/-- The facts `coalesce` reads around the free block `bp` of size `sz`: the
footer and header of the block before it (`psz`, `pal`) and the header of the
block after it (`nsz`, `nal`). -/
structure Around (s : State) (bp sz psz pal nsz nal : Nat) : Prop where
  b1 : s.mem_start + 8 + psz ≤ bp
  b2 : bp + sz + (if nal = 0 then nsz else 0) ≤ s.brk
  b3 : s.brk ≤ s.mem_max
  b4 : s.mem_max ≤ s.mem_start + 2147483648
  b5 : s.mem_max < 18446744073709551616
  sz8 : sz % 8 = 0
  sz0 : 8 ≤ sz
  p8 : psz % 8 = 0
  p0 : 8 ≤ psz
  pa : pal < 2
  n8 : nsz % 8 = 0
  na : nal < 2
  n0 : nal = 0 → 8 ≤ nsz
  hd : GET s.mem (bp - 4) = sz
  ft : GET s.mem (bp + sz - 8) = sz
  pf : GET s.mem (bp - 8) = psz + pal
  ph : GET s.mem (bp - psz - 4) = psz + pal
  nh : GET s.mem (bp + sz - 4) = nsz + nal

/-- The block before the block that follows the blocks `X`: the last of `X`,
or the prologue. -/
def prevOf (X : List (Nat × Nat)) : Nat × Nat := (X.getLast?).getD (8, 1)

/-- The block after a block that is followed by the blocks `Y`: the first of
`Y`, or the epilogue. -/
def nextOf (Y : List (Nat × Nat)) : Nat × Nat := (Y.head?).getD (0, 1)

/-- The blocks after a free block of size `sz` between `X` and `Y` has been
merged with its free neighbours. -/
def mergeL (X : List (Nat × Nat)) (sz : Nat) (Y : List (Nat × Nat)) : List (Nat × Nat) :=
  (if (prevOf X).2 = 0 then X.dropLast else X) ++
    ((if (prevOf X).2 = 0 then (prevOf X).1 else 0) + sz +
      (if (nextOf Y).2 = 0 then (nextOf Y).1 else 0), 0) ::
    (if (nextOf Y).2 = 0 then Y.tail else Y)

/-- What a successful `malloc(n)` leaves: the result `r` is a state and the
handle of an allocated block with room for `n` bytes (`n` taken modulo
`2^32`) and two tag words, and the allocated blocks of the heap `L` before the
call are allocated blocks of the heap after it, at their addresses. -/
def MallocOk (s : State) (L : List (Nat × Nat)) (n : Nat) (r : State × Nat) : Prop :=
  ∃ X N Y, r.2 = s.mem_start + 16 + total X ∧ Inv r.1 (X ++ (N, 1) :: Y) ∧
    r.1.mem_start = s.mem_start ∧ n % 4294967296 + 8 ≤ N ∧ N < 2147483648 ∧
    ∀ X0 sz0 Y0, L = X0 ++ (sz0, 1) :: Y0 →
      ∃ X1 Y1, X ++ (N, 1) :: Y = X1 ++ (sz0, 1) :: Y1 ∧ total X1 = total X0

end MM1

namespace MM

/-! ## Bit operations on words -/

theorem and_shifted_mask (w k n : Nat) (h : w < 2 ^ (n + k)) :
    w &&& ((2 ^ n - 1) <<< k) = (w >>> k) <<< k := by
  apply Nat.eq_of_testBit_eq
  intro i
  simp only [Nat.testBit_and, Nat.testBit_shiftLeft, Nat.testBit_two_pow_sub_one,
    Nat.testBit_shiftRight]
  by_cases h3 : i ≥ k
  · have e3 : k + (i - k) = i := by omega
    rw [e3]
    by_cases h4 : i - k < n
    · simp [h3, h4]
    · have : w.testBit i = false := by
        apply Nat.testBit_lt_two_pow
        calc w < 2 ^ (n + k) := h
          _ ≤ 2 ^ i := Nat.pow_le_pow_right (by decide) (by omega)
      simp [this]
  · simp [h3]

theorem and_mask8 (w : Nat) (h : w < 4294967296) : w &&& 0xFFFFFFF8 = w / 8 * 8 := by
  have e := and_shifted_mask w 3 29 (by simpa using h)
  rw [Nat.shiftRight_eq_div_pow, Nat.shiftLeft_eq (w / 2 ^ 3)] at e
  have e8 : ((2 ^ 29 - 1) <<< 3 : Nat) = 0xFFFFFFF8 := by decide
  rw [e8] at e
  exact e

theorem and_mask4 (w : Nat) (h : w < 4294967296) : w &&& 0xFFFFFFFC = w / 4 * 4 := by
  have e := and_shifted_mask w 2 30 (by simpa using h)
  rw [Nat.shiftRight_eq_div_pow, Nat.shiftLeft_eq (w / 2 ^ 2)] at e
  have e4 : ((2 ^ 30 - 1) <<< 2 : Nat) = 0xFFFFFFFC := by decide
  rw [e4] at e
  exact e

theorem and_two (w : Nat) : w &&& 2 = 2 * (w / 2 % 2) := by
  have e : w &&& 2 = (w % 4) &&& 2 := by
    have := Nat.and_pow_two_sub_one_eq_mod w 2
    rw [← this, Nat.and_assoc]
    rfl
  rw [e]
  have h4 : w % 4 < 4 := Nat.mod_lt _ (by decide)
  have h5 : w / 2 % 2 = w % 4 / 2 := by omega
  rw [h5]
  generalize w % 4 = r at h4
  interval_cases r <;> decide

theorem or_two (w : Nat) : w ||| 2 = w + 2 - 2 * (w / 2 % 2) := by
  have h4 : w % 4 < 2 ^ 2 := Nat.mod_lt _ (by decide)
  have e0 : w = 2 ^ 2 * (w / 4) + w % 4 := by omega
  have e1 : w = 2 ^ 2 * (w / 4) ||| w % 4 := by
    rw [← Nat.mul_add_lt_is_or h4]; exact e0
  have h6 : (w % 4 ||| 2) < 2 ^ 2 := Nat.or_lt_two_pow h4 (by decide)
  have e2 : w ||| 2 = 2 ^ 2 * (w / 4) + (w % 4 ||| 2) := by
    rw [Nat.mul_add_lt_is_or h6, ← Nat.or_assoc, ← e1]
  have e3 : (w % 4 ||| 2) = w % 4 + 2 - 2 * (w % 4 / 2) := by
    generalize w % 4 = r at h4
    have : r < 4 := h4
    interval_cases r <;> decide
  rw [e2, e3]
  omega

theorem and_maskFD (w : Nat) (h : w < 4294967296) :
    w &&& 0xFFFFFFFD = w - 2 * (w / 2 % 2) := by
  have e0 : (0xFFFFFFFD : Nat) = 0xFFFFFFFC ||| 1 := by decide
  have h2 : w % 2 < 2 ^ 2 := by omega
  have e1 := Nat.mul_add_lt_is_or h2 (w / 4)
  rw [e0, Nat.and_or_distrib_left, and_mask4 w h, Nat.and_one_is_mod, Nat.mul_comm, ← e1]
  omega

theorem or_small (s a : Nat) (hs : s % 8 = 0) (ha : a < 8) : s ||| a = s + a := by
  have e : s = 2 ^ 3 * (s / 8) := by omega
  have := Nat.mul_add_lt_is_or (i := 3) (b := a) (by simpa using ha) (s / 8)
  rw [e]; exact this.symm

/-! ## Loads and stores -/

theorem GET_lt (m : Mem) (p : Nat) : GET m p < 4294967296 := by
  unfold GET; omega

theorem rd_PUT_ne (m : Mem) (p v a : Nat) (h : a < p ∨ p + 4 ≤ a) :
    (PUT m p v).rd a = m.rd a := by
  simp only [PUT]
  rw [if_neg (by omega), if_neg (by omega), if_neg (by omega), if_neg (by omega)]

theorem GET_PUT_eq (m : Mem) (p v : Nat) : GET (PUT m p v) p = v % 4294967296 := by
  have e0 : (PUT m p v).rd p = v % 256 := by simp [PUT]
  have e1 : (PUT m p v).rd (p + 1) = v / 256 % 256 := by simp [PUT]
  have e2 : (PUT m p v).rd (p + 2) = v / 65536 % 256 := by simp [PUT]
  have e3 : (PUT m p v).rd (p + 3) = v / 16777216 % 256 := by simp [PUT]
  simp only [GET, e0, e1, e2, e3]
  omega

theorem GET_PUT_ne (m : Mem) (p v q : Nat) (h : q + 4 ≤ p ∨ p + 4 ≤ q) :
    GET (PUT m p v) q = GET m q := by
  simp only [GET]
  rw [rd_PUT_ne m p v q (by omega), rd_PUT_ne m p v (q + 1) (by omega),
    rd_PUT_ne m p v (q + 2) (by omega), rd_PUT_ne m p v (q + 3) (by omega)]

theorem GET_congr (m m' : Mem) (q : Nat)
    (h : ∀ a, q ≤ a → a < q + 4 → m'.rd a = m.rd a) : GET m' q = GET m q := by
  simp only [GET]
  rw [h q (by omega) (by omega), h (q + 1) (by omega) (by omega),
    h (q + 2) (by omega) (by omega), h (q + 3) (by omega) (by omega)]

end MM

namespace MM

/-! ## The accessors in plain arithmetic -/

theorem HDRP_eq (bp : Nat) (h : 4 ≤ bp) (h2 : bp < 18446744073709551616) :
    HDRP bp = bp - 4 := by
  unfold HDRP psub sext WSIZE
  split <;> omega

theorem padd_eq (p a : Nat) (ha : a < 2147483648) (h : p + a < 18446744073709551616) :
    padd p a = p + a := by
  unfold padd sext
  split <;> omega

theorem psub_eq (p a : Nat) (ha : a < 2147483648) (h : a ≤ p)
    (hp : p < 18446744073709551616) : psub p a = p - a := by
  unfold psub sext
  split <;> omega

theorem GET_SIZE_eq (m : Mem) (p : Nat) : GET_SIZE m p = GET m p / 8 * 8 := by
  unfold GET_SIZE
  exact and_mask8 _ (GET_lt m p)

theorem GET_ALLOC_eq (m : Mem) (p : Nat) : GET_ALLOC m p = GET m p % 2 := by
  unfold GET_ALLOC
  exact Nat.and_one_is_mod _

theorem GET_PREV_ALLOC_eq (m : Mem) (bp : Nat) (h : 4 ≤ bp)
    (h2 : bp < 18446744073709551616) : GET_PREV_ALLOC m bp = GET m (bp - 4) / 2 % 2 := by
  unfold GET_PREV_ALLOC
  rw [HDRP_eq bp h h2, and_two]
  split <;> omega

theorem PACK_PREV_ALLOC_eq (m : Mem) (bp f : Nat) (h : 4 ≤ bp)
    (h2 : bp < 18446744073709551616) :
    PACK_PREV_ALLOC m bp f = PUT m (bp - 4) (setPA (GET m (bp - 4)) f) := by
  unfold PACK_PREV_ALLOC setPA
  rw [HDRP_eq bp h h2, or_two, and_maskFD _ (GET_lt m _)]

theorem PACK_eq (s a : Nat) (hs : s % 8 = 0) (ha : a < 8) : PACK s a = s + a :=
  or_small s a hs ha

theorem GET_PREV_FREE_eq (m : Mem) (x : Nat) : GET_PREV_FREE m x = decL (GET m x) := rfl

theorem GET_NEXT_FREE_eq (m : Mem) (x : Nat) (h : x + 4 < 18446744073709551616) :
    GET_NEXT_FREE m x = decL (GET m (x + 4)) := by
  unfold GET_NEXT_FREE decL
  rw [padd_eq x WSIZE (by decide) (by simpa [WSIZE] using h)]
  rfl

theorem PUT_PREV_FREE_eq (m : Mem) (x a : Nat) : PUT_PREV_FREE m x a = PUT m x (encL a) := rfl

theorem PUT_NEXT_FREE_eq (m : Mem) (x a : Nat) (h : x + 4 < 18446744073709551616) :
    PUT_NEXT_FREE m x a = PUT m (x + 4) (encL a) := by
  unfold PUT_NEXT_FREE encL
  rw [padd_eq x WSIZE (by decide) (by simpa [WSIZE] using h)]
  rfl

theorem encL_lt (a : Nat) : encL a < 4294967296 := by
  unfold encL; split <;> omega

theorem decL_eq_zero (v : Nat) (hv : v < 4294967296) : decL v = 0 ↔ v = 4294967295 := by
  unfold decL ref
  split <;> omega

theorem slot_eq (s : State) (i : Nat) (h : s.seg_list + 8 * i < 18446744073709551616) :
    slot s i = s.seg_list + 8 * i := by
  unfold slot; omega

theorem GETP_PUTP_eq (m : Mem) (p v : Nat) (hv : v < 18446744073709551616) :
    GETP (PUTP m p v) p = v := by
  unfold GETP PUTP
  rw [GET_PUT_ne _ _ _ _ (by omega), GET_PUT_eq, GET_PUT_eq]
  omega

theorem GETP_PUT_ne (m : Mem) (p q v : Nat) (h : p + 8 ≤ q ∨ q + 4 ≤ p) :
    GETP (PUT m q v) p = GETP m p := by
  unfold GETP
  rw [GET_PUT_ne _ _ _ _ (by omega), GET_PUT_ne _ _ _ _ (by omega)]

theorem GETP_PUTP_ne (m : Mem) (p q v : Nat) (h : p + 8 ≤ q ∨ q + 8 ≤ p) :
    GETP (PUTP m q v) p = GETP m p := by
  unfold PUTP
  rw [GETP_PUT_ne _ _ _ _ (by omega), GETP_PUT_ne _ _ _ _ (by omega)]

theorem GET_PUTP_ne (m : Mem) (p q v : Nat) (h : p + 4 ≤ q ∨ q + 8 ≤ p) :
    GET (PUTP m q v) p = GET m p := by
  unfold PUTP
  rw [GET_PUT_ne _ _ _ _ (by omega), GET_PUT_ne _ _ _ _ (by omega)]

theorem rd_PUTP_ne (m : Mem) (p v a : Nat) (h : a < p ∨ p + 8 ≤ a) :
    (PUTP m p v).rd a = m.rd a := by
  unfold PUTP
  rw [rd_PUT_ne _ _ _ _ (by omega), rd_PUT_ne _ _ _ _ (by omega)]

/-! ## Signed comparisons on values in range -/

theorem slt_iff (a b : Nat) (ha : a < 2147483648) (hb : b < 2147483648) :
    slt a b = true ↔ a < b := by
  unfold slt; simp; omega

theorem sle_iff (a b : Nat) (ha : a < 2147483648) (hb : b < 2147483648) :
    sle a b = true ↔ a ≤ b := by
  unfold sle slt; simp; omega

theorem sub32_eq (a b : Nat) (ha : a < 4294967296) (hb : b ≤ a) : sub32 a b = a - b := by
  unfold sub32; omega

theorem add32_eq (a b : Nat) (h : a + b < 4294967296) : add32 a b = a + b := by
  unfold add32; omega

end MM

namespace MM

/-! ## The bucket index, growth, and the stores of `insert_free` -/

theorem find_index_loop_le (size : Nat) (n i : Nat) (h : i + n ≤ 16) :
    find_index_loop size n i ≤ 15 := by
  induction n generalizing i with
  | zero => simp [find_index_loop, BUCKETS]
  | succ n ih =>
    rw [find_index_loop]
    split
    · omega
    · exact ih (i + 1) (by omega)

theorem find_index_lt (size : Nat) : find_index size < 16 := by
  have := find_index_loop_le size 16 0 (by omega)
  unfold find_index BUCKETS
  omega

theorem GETP_congr (m m' : Mem) (p : Nat)
    (h : ∀ a, p ≤ a → a < p + 8 → m'.rd a = m.rd a) : GETP m' p = GETP m p := by
  unfold GETP
  rw [GET_congr m m' p (fun a h1 h2 => h a h1 (by omega)),
    GET_congr m m' (p + 4) (fun a h1 h2 => h a (by omega) (by omega))]

theorem mem_sbrk_fail (s : State) (size : Nat) (hs : size < 2147483648)
    (hfull : s.mem_max < s.brk + size) : mem_sbrk s size = (s, SBRK_FAIL) := by
  unfold mem_sbrk isNeg
  have e1 : size % 4294967296 = size := by omega
  rw [e1]
  have e2 : (decide (2147483648 ≤ size) || decide (s.mem_max < s.brk + size)) = true := by
    simp; right; exact hfull
  rw [e2]
  simp

theorem mem_sbrk_ok (s : State) (size : Nat) (hs : size < 2147483648)
    (hroom : s.brk + size ≤ s.mem_max) :
    mem_sbrk s size = ({ s with brk := s.brk + size }, s.brk) := by
  unfold mem_sbrk isNeg
  have e1 : size % 4294967296 = size := by omega
  rw [e1]
  have e2 : (decide (2147483648 ≤ size) || decide (s.mem_max < s.brk + size)) = false := by
    simp; omega
  rw [e2]
  simp

theorem ext_size (words : Nat) (hw : words % 2 = 0) (hwb : words * 4 < 2147483648) :
    (if words % 2 ≠ 0 then mul32 (add32 words 1) WSIZE else mul32 words WSIZE) = words * 4 := by
  rw [if_neg (by omega)]
  unfold mul32 WSIZE
  omega

/-- A failed growth makes `extend_heap` return null in the unchanged state. -/
theorem extend_heap_of_fail (s : State) (words : Nat)
    (h : mem_sbrk s (if words % 2 ≠ 0 then mul32 (add32 words 1) WSIZE else mul32 words WSIZE)
      = (s, SBRK_FAIL)) : extend_heap s words = (s, 0) := by
  unfold extend_heap
  simp only [h, if_true]


/-- The memory after `insert_free`, in plain arithmetic. -/
theorem insert_free_mem (s : State) (bp i sz head : Nat)
    (hseg : s.seg_list + 128 < 18446744073709551616)
    (hbp : 8 ≤ bp ∧ bp + sz < 18446744073709551616)
    (hsz : GET s.mem (bp - 4) / 8 * 8 = sz ∧ sz < 2147483648 ∧ 16 ≤ sz ∧ sz % 8 = 0)
    (hi : find_index sz = i)
    (hhead : bucket s i = head)
    (hh : head = 0 ∨ (head % 8 = 0 ∧ (head + 16 ≤ bp ∨ bp + sz ≤ head) ∧
      s.seg_list + 128 ≤ head))
    (hsl : s.seg_list + 128 ≤ bp - 4) :
    insert_free s bp = { s with mem := insMem s.mem (s.seg_list + 8 * i) bp sz head } := by
  have hi16 : i < 16 := by rw [← hi]; exact find_index_lt _
  have e1 : HDRP bp = bp - 4 := HDRP_eq bp (by omega) (by omega)
  have e2 : GET_SIZE s.mem (bp - 4) = sz := by rw [GET_SIZE_eq]; exact hsz.1
  have e4 : slot s i = s.seg_list + 8 * i := slot_eq s i (by omega)
  have e5 : bucketIn s s.mem i = head := hhead
  unfold insert_free insMem
  simp only [e1, e2, hi, e5, PUT_PREV_FREE_eq]
  rw [PUT_NEXT_FREE_eq _ _ _ (by omega)]
  have e6 : bucketIn s (PUT (PUT s.mem (bp + 4) (encL head)) bp (encL 0)) i = head := by
    unfold bucketIn
    rw [e4, GETP_PUT_ne _ _ _ _ (by omega), GETP_PUT_ne _ _ _ _ (by omega), ← e4]
    exact hhead
  rw [e6, e4]
  generalize hm4 : PUTP (if head ≠ 0 then PUT (PUT (PUT s.mem (bp + 4) (encL head)) bp (encL 0))
      head (encL bp) else PUT (PUT s.mem (bp + 4) (encL head)) bp (encL 0))
      (s.seg_list + 8 * i) bp = m4
  have g4 : GET m4 (bp - 4) = GET s.mem (bp - 4) := by
    rw [← hm4, GET_PUTP_ne _ _ _ _ (by omega)]
    split
    · rw [GET_PUT_ne _ _ _ _ (by omega), GET_PUT_ne _ _ _ _ (by omega),
        GET_PUT_ne _ _ _ _ (by omega)]
    · rw [GET_PUT_ne _ _ _ _ (by omega), GET_PUT_ne _ _ _ _ (by omega)]
  have e8 : NEXT_BLKP m4 bp = bp + sz := by
    unfold NEXT_BLKP
    rw [e1, GET_SIZE_eq, g4, hsz.1, padd_eq _ _ hsz.2.1 (by omega)]
  rw [e8, PACK_PREV_ALLOC_eq _ _ _ (by omega) (by omega)]
  generalize hm5 : PUT m4 (bp + sz - 4) (setPA (GET m4 (bp + sz - 4)) 0) = m5
  have g5 : GET m5 (bp - 4) = GET s.mem (bp - 4) := by
    rw [← hm5, GET_PUT_ne _ _ _ _ (by omega), g4]
  have e9 : FTRP m5 bp = bp + sz - 8 := by
    unfold FTRP
    rw [e1, GET_SIZE_eq, g5, hsz.1, padd_eq _ _ hsz.2.1 (by omega),
      psub_eq _ _ (by decide) (by simp only [DSIZE]; omega) (by omega)]
    rfl
  rw [e9]

theorem insMem_rd (m : Mem) (sl bp sz head a : Nat) (h0 : 8 ≤ bp + sz)
    (h1 : a < sl ∨ sl + 8 ≤ a) (h2 : a < bp ∨ bp + 8 ≤ a)
    (h3 : head ≠ 0 → a < head ∨ head + 4 ≤ a) (h4 : a < bp + sz - 8 ∨ bp + sz ≤ a) :
    (insMem m sl bp sz head).rd a = m.rd a := by
  unfold insMem
  simp only []
  rw [rd_PUT_ne _ _ _ _ (by omega), rd_PUT_ne _ _ _ _ (by omega), rd_PUTP_ne _ _ _ _ h1]
  by_cases hn : head = 0
  · rw [if_neg (by simpa using hn), rd_PUT_ne _ _ _ _ (by omega), rd_PUT_ne _ _ _ _ (by omega)]
  · rw [if_pos hn, rd_PUT_ne _ _ _ _ (by have := h3 hn; omega), rd_PUT_ne _ _ _ _ (by omega),
      rd_PUT_ne _ _ _ _ (by omega)]

theorem insMem_GET (m : Mem) (sl bp sz head q : Nat) (h0 : 8 ≤ bp + sz)
    (h1 : q + 4 ≤ sl ∨ sl + 8 ≤ q) (h2 : q + 4 ≤ bp ∨ bp + 8 ≤ q)
    (h3 : head ≠ 0 → q + 4 ≤ head ∨ head + 4 ≤ q) (h4 : q + 12 ≤ bp + sz ∨ bp + sz ≤ q) :
    GET (insMem m sl bp sz head) q = GET m q := by
  apply GET_congr
  intro a ha1 ha2
  apply insMem_rd _ _ _ _ _ _ h0
  · omega
  · omega
  · intro h; have := h3 h; omega
  · omega

theorem insMem_GETP (m : Mem) (sl bp sz head p : Nat) (h0 : 8 ≤ bp + sz)
    (h1 : p + 8 ≤ sl ∨ sl + 8 ≤ p) (h2 : p + 8 ≤ bp)
    (h3 : head ≠ 0 → p + 8 ≤ head) (h4 : p + 16 ≤ bp + sz) :
    GETP (insMem m sl bp sz head) p = GETP m p := by
  apply GETP_congr
  intro a ha1 ha2
  apply insMem_rd _ _ _ _ _ _ h0
  · omega
  · omega
  · intro h; have := h3 h; omega
  · omega

theorem insMem_next (m : Mem) (sl bp sz head : Nat) (hsz : 16 ≤ sz)
    (h1 : sl + 8 ≤ bp) (h3 : head ≠ 0 → head + 4 ≤ bp ∨ bp + 8 ≤ head) :
    GET (insMem m sl bp sz head) (bp + 4) = encL head := by
  unfold insMem
  simp only []
  rw [GET_PUT_ne _ _ _ _ (by omega), GET_PUT_ne _ _ _ _ (by omega), GET_PUTP_ne _ _ _ _ (by omega)]
  by_cases hn : head = 0
  · rw [if_neg (by simpa using hn), GET_PUT_ne _ _ _ _ (by omega), GET_PUT_eq]
    exact Nat.mod_eq_of_lt (encL_lt _)
  · rw [if_pos hn, GET_PUT_ne _ _ _ _ (by have := h3 hn; omega), GET_PUT_ne _ _ _ _ (by omega),
      GET_PUT_eq]
    exact Nat.mod_eq_of_lt (encL_lt _)

theorem insMem_prev (m : Mem) (sl bp sz head : Nat) (hsz : 16 ≤ sz)
    (h1 : sl + 8 ≤ bp) (h3 : head ≠ 0 → head + 4 ≤ bp ∨ bp + 4 ≤ head) :
    GET (insMem m sl bp sz head) bp = encL 0 := by
  unfold insMem
  simp only []
  rw [GET_PUT_ne _ _ _ _ (by omega), GET_PUT_ne _ _ _ _ (by omega), GET_PUTP_ne _ _ _ _ (by omega)]
  by_cases hn : head = 0
  · rw [if_neg (by simpa using hn), GET_PUT_eq]
    exact Nat.mod_eq_of_lt (encL_lt _)
  · rw [if_pos hn, GET_PUT_ne _ _ _ _ (by have := h3 hn; omega), GET_PUT_eq]
    exact Nat.mod_eq_of_lt (encL_lt _)

theorem insMem_slot (m : Mem) (sl bp sz head : Nat) (hsz : 16 ≤ sz)
    (hb : bp < 18446744073709551616) (h1 : sl + 8 ≤ bp) :
    GETP (insMem m sl bp sz head) sl = bp := by
  unfold insMem
  simp only []
  rw [GETP_PUT_ne _ _ _ _ (by omega), GETP_PUT_ne _ _ _ _ (by omega), GETP_PUTP_eq _ _ _ hb]

theorem insMem_hdrN (m : Mem) (sl bp sz head : Nat) (hsz : 16 ≤ sz)
    (h1 : sl + 8 ≤ bp) (h3 : head ≠ 0 → head + 8 ≤ bp + sz ∨ bp + sz ≤ head) :
    GET (insMem m sl bp sz head) (bp + sz - 4) =
      setPA (GET m (bp + sz - 4)) 0 % 4294967296 := by
  unfold insMem
  simp only []
  rw [GET_PUT_ne _ _ _ _ (by omega), GET_PUT_eq, GET_PUTP_ne _ _ _ _ (by omega)]
  by_cases hn : head = 0
  · rw [if_neg (by simpa using hn), GET_PUT_ne _ _ _ _ (by omega), GET_PUT_ne _ _ _ _ (by omega)]
  · rw [if_pos hn, GET_PUT_ne _ _ _ _ (by have := h3 hn; omega), GET_PUT_ne _ _ _ _ (by omega),
      GET_PUT_ne _ _ _ _ (by omega)]

theorem insMem_ftr (m : Mem) (sl bp sz head : Nat) (hsz : 16 ≤ sz) (hb : 8 ≤ bp)
    (h1 : sl + 8 ≤ bp - 4) (h3 : head ≠ 0 → head + 8 ≤ bp ∨ bp ≤ head) :
    GET (insMem m sl bp sz head) (bp + sz - 8) = GET m (bp - 4) := by
  unfold insMem
  simp only []
  rw [GET_PUT_eq, GET_PUT_ne _ _ _ _ (by omega), GET_PUTP_ne _ _ _ _ (by omega)]
  by_cases hn : head = 0
  · rw [if_neg (by simpa using hn), GET_PUT_ne _ _ _ _ (by omega), GET_PUT_ne _ _ _ _ (by omega)]
    exact Nat.mod_eq_of_lt (GET_lt _ _)
  · rw [if_pos hn, GET_PUT_ne _ _ _ _ (by have := h3 hn; omega), GET_PUT_ne _ _ _ _ (by omega),
      GET_PUT_ne _ _ _ _ (by omega)]
    exact Nat.mod_eq_of_lt (GET_lt _ _)

end MM

namespace MM

/-! ## The heap that `mm_init` builds -/
theorem clear_buckets_GETP (s : State) (m : Mem) (hseg : s.seg_list + 128 < 18446744073709551616)
    (n : Nat) (hn : n ≤ 16) (i : Nat) (hi : i < n) :
    GETP (clear_buckets s n m) (s.seg_list + 8 * i) = 0 := by
  induction n with
  | zero => omega
  | succ n ih =>
    rw [clear_buckets, slot_eq s n (by omega)]
    by_cases h : i = n
    · subst h
      exact GETP_PUTP_eq _ _ _ (by omega)
    · rw [GETP_PUTP_ne _ _ _ _ (by omega)]
      exact ih (by omega) (by omega)

/-- The state in which `mm_init` calls `extend_heap`. -/
theorem mm_init_run (lo hi : Nat) (m0 : Mem) (h0 : 0 < lo) (hroom : lo + 144 ≤ hi)
    (hhi : hi < 18446744073709551616) :
    ∃ m8 : Mem, (∀ i, i < 16 → GETP m8 (lo + 8 * i) = 0) ∧ GET m8 (lo + 132) = 9 ∧
      GET m8 (lo + 140) = 3 ∧
      mm_init (fresh lo hi m0) =
        (if (extend_heap (⟨m8, lo + 144, lo, hi, lo + 136, lo⟩ : State) 132).2 = 0
         then ((extend_heap (⟨m8, lo + 144, lo, hi, lo + 136, lo⟩ : State) 132).1, 4294967295)
         else ((extend_heap (⟨m8, lo + 144, lo, hi, lo + 136, lo⟩ : State) 132).1, 0)) := by
  have e1 : mem_sbrk { fresh lo hi m0 with seg_list := 0 } (mul32 32 WSIZE) =
      ({ mem := m0, brk := lo + 128, mem_start := lo, mem_max := hi, heap_start := 0,
         seg_list := 0 }, lo) :=
    mem_sbrk_ok _ 128 (by omega) (by show lo + 128 ≤ hi; omega)
  have e3 : ∀ m : Mem, mem_sbrk (⟨m, lo + 128, lo, hi, 0, lo⟩ : State) (mul32 4 WSIZE) =
      ((⟨m, lo + 144, lo, hi, 0, lo⟩ : State), lo + 128) := fun m =>
    mem_sbrk_ok _ 16 (by omega) (by show lo + 128 + 16 ≤ hi; omega)
  have p1 : padd (lo + 128) WSIZE = lo + 132 := padd_eq _ 4 (by omega) (by omega)
  have p2 : padd (lo + 128) DSIZE = lo + 136 := padd_eq _ 8 (by omega) (by omega)
  have p3 : padd (lo + 132) DSIZE = lo + 140 := padd_eq _ 8 (by omega) (by omega)
  have p4 : padd (lo + 136) DSIZE = lo + 144 := padd_eq _ 8 (by omega) (by omega)
  have k1 : PACK DSIZE 1 = 9 := by decide
  have k2 : PACK 0 1 = 1 := by decide
  have k3 : sdiv32 CHUNKSIZE WSIZE = 132 := by decide
  have n1 : ¬ lo = 0 := by omega
  have n2 : ¬ lo + 128 = 0 := by omega
  simp only [mm_init, e1, e3, p1, p2, p3, p4, k1, k2, k3, if_neg n1, if_neg n2]
  rw [PACK_PREV_ALLOC_eq _ _ _ (by omega) (by omega), show lo + 144 - 4 = lo + 140 by omega,
    GET_PUT_eq]
  refine ⟨_, ?_, ?_, ?_, rfl⟩
  · intro i hi
    rw [GETP_PUT_ne _ _ _ _ (by omega), GETP_PUT_ne _ _ _ _ (by omega),
      GETP_PUT_ne _ _ _ _ (by omega), GETP_PUT_ne _ _ _ _ (by omega),
      GETP_PUT_ne _ _ _ _ (by omega)]
    exact clear_buckets_GETP _ _ (by show lo + 128 < _; omega) 16 (by omega) i hi
  · rw [GET_PUT_ne _ _ _ _ (by omega), GET_PUT_ne _ _ _ _ (by omega),
      GET_PUT_ne _ _ _ _ (by omega), GET_PUT_eq]
  · rw [GET_PUT_eq]
    decide


/-- The first growth of the heap: `extend_heap` appends one free block of 528
bytes after the prologue and puts it on the list of bucket 10. -/
theorem extend_heap_first (lo hi : Nat) (m8 : Mem) (h0 : 0 < lo) (hroom : lo + 672 ≤ hi)
    (hhi : hi < 18446744073709551616) (hb : ∀ i, i < 16 → GETP m8 (lo + 8 * i) = 0)
    (he : GET m8 (lo + 140) = 3) :
    extend_heap (⟨m8, lo + 144, lo, hi, lo + 136, lo⟩ : State) 132 =
      ((⟨insMem (PUT (PUT (PUT m8 (lo + 140) 528) (lo + 668) 1) (lo + 140) 530) (lo + 80)
          (lo + 144) 528 0,
        lo + 672, lo, hi, lo + 136, lo⟩ : State), lo + 144) := by
  have e1 : mem_sbrk (⟨m8, lo + 144, lo, hi, lo + 136, lo⟩ : State) 528 =
      ((⟨m8, lo + 672, lo, hi, lo + 136, lo⟩ : State), lo + 144) :=
    mem_sbrk_ok _ 528 (by omega) (by show lo + 144 + 528 ≤ hi; omega)
  have n1 : ¬ lo + 144 = SBRK_FAIL := by unfold SBRK_FAIL; omega
  unfold extend_heap
  simp only [ext_size 132 (by decide) (by decide), e1, if_neg n1]
  have h1 : HDRP (lo + 144) = lo + 140 := HDRP_eq _ (by omega) (by omega)
  have h2 : HDRP (lo + 672) = lo + 668 := HDRP_eq _ (by omega) (by omega)
  have k1 : PACK (132 * 4) 0 = 528 := by decide
  have k2 : PACK 0 1 = 1 := by decide
  have h3 : NEXT_BLKP (PUT m8 (lo + 140) 528) (lo + 144) = lo + 672 := by
    unfold NEXT_BLKP
    rw [h1, GET_SIZE_eq, GET_PUT_eq, padd_eq _ _ (by decide) (by omega)]
  have h4 : GET_PREV_ALLOC m8 (lo + 144) = 1 := by
    rw [GET_PREV_ALLOC_eq _ _ (by omega) (by omega), show lo + 144 - 4 = lo + 140 by omega, he]
  rw [h1, k1, k2, h3, h2, h4, PACK_PREV_ALLOC_eq _ _ _ (by omega) (by omega),
    show lo + 144 - 4 = lo + 140 by omega, GET_PUT_ne _ _ _ _ (by omega), GET_PUT_eq,
    show setPA (528 % 4294967296) 1 = 530 by decide]
  rw [insert_free_mem _ (lo + 144) 10 528 0 (by show lo + 128 < _; omega) (by omega)
    (by
      show GET (PUT _ _ _) (lo + 144 - 4) / 8 * 8 = 528 ∧ _
      rw [show lo + 144 - 4 = lo + 140 by omega, GET_PUT_eq]
      decide)
    (by decide)
    (by
      show GETP (PUT _ _ _) (slot _ 10) = 0
      rw [slot_eq _ _ (by show lo + 8 * 10 < _; omega)]
      show GETP (PUT _ _ _) (lo + 8 * 10) = 0
      rw [GETP_PUT_ne _ _ _ _ (by omega), GETP_PUT_ne _ _ _ _ (by omega),
        GETP_PUT_ne _ _ _ _ (by omega)]
      exact hb 10 (by omega))
    (Or.inl rfl) (by show lo + 128 ≤ lo + 144 - 4; omega)]

/-- The words of the heap that `mm_init` leaves. -/
theorem init_words (lo : Nat) (m8 : Mem) (hhi : lo + 672 < 18446744073709551616)
    (hb : ∀ i, i < 16 → GETP m8 (lo + 8 * i) = 0) (hp : GET m8 (lo + 132) = 9) (M : Mem)
    (hM : M = insMem (PUT (PUT (PUT m8 (lo + 140) 528) (lo + 668) 1) (lo + 140) 530) (lo + 80)
      (lo + 144) 528 0) :
    (∀ i, i < 16 → GETP M (lo + 8 * i) = if i = 10 then lo + 144 else 0) ∧
    GET M (lo + 132) = 9 ∧ GET M (lo + 140) = 530 ∧ GET M (lo + 664) = 530 ∧
    GET M (lo + 144) = 4294967295 ∧ GET M (lo + 148) = 4294967295 ∧ GET M (lo + 668) = 1 := by
  subst hM
  refine ⟨?_, ?_, ?_, ?_, ?_, ?_, ?_⟩
  · intro i hi
    by_cases h : i = 10
    · subst h
      rw [if_pos rfl]
      exact insMem_slot _ _ _ _ _ (by omega) (by omega) (by omega)
    · rw [if_neg h, insMem_GETP _ _ _ _ _ _ (by omega) (by omega) (by omega)
        (fun h => absurd rfl h) (by omega), GETP_PUT_ne _ _ _ _ (by omega),
        GETP_PUT_ne _ _ _ _ (by omega), GETP_PUT_ne _ _ _ _ (by omega)]
      exact hb i hi
  · rw [insMem_GET _ _ _ _ _ _ (by omega) (by omega) (by omega) (fun h => absurd rfl h)
      (by omega), GET_PUT_ne _ _ _ _ (by omega), GET_PUT_ne _ _ _ _ (by omega),
      GET_PUT_ne _ _ _ _ (by omega)]
    exact hp
  · rw [insMem_GET _ _ _ _ _ _ (by omega) (by omega) (by omega) (fun h => absurd rfl h)
      (by omega), GET_PUT_eq]
  · rw [show lo + 664 = lo + 144 + 528 - 8 by omega,
      insMem_ftr _ _ _ _ _ (by omega) (by omega) (by omega) (fun h => absurd rfl h),
      show lo + 144 - 4 = lo + 140 by omega, GET_PUT_eq]
  · rw [insMem_prev _ _ _ _ _ (by omega) (by omega) (fun h => absurd rfl h)]
    decide
  · rw [show lo + 148 = lo + 144 + 4 by omega,
      insMem_next _ _ _ _ _ (by omega) (by omega) (fun h => absurd rfl h)]
    decide
  · rw [show lo + 668 = lo + 144 + 528 - 4 by omega,
      insMem_hdrN _ _ _ _ _ (by omega) (by omega) (fun h => absurd rfl h),
      show lo + 144 + 528 - 4 = lo + 668 by omega, GET_PUT_ne _ _ _ _ (by omega), GET_PUT_eq]
    decide

/-- The result of `mm_init` on a fresh region with room for 672 bytes. -/
theorem mm_init_result (lo hi : Nat) (m0 : Mem) (h0 : 0 < lo) (hroom : lo + 672 ≤ hi)
    (hhi : hi < 18446744073709551616) :
    ∃ M : Mem, mm_init (fresh lo hi m0) = ((⟨M, lo + 672, lo, hi, lo + 136, lo⟩ : State), 0) ∧
    (∀ i, i < 16 → GETP M (lo + 8 * i) = if i = 10 then lo + 144 else 0) ∧
    GET M (lo + 132) = 9 ∧ GET M (lo + 140) = 530 ∧ GET M (lo + 664) = 530 ∧
    GET M (lo + 144) = 4294967295 ∧ GET M (lo + 148) = 4294967295 ∧ GET M (lo + 668) = 1 := by
  obtain ⟨m8, hb, hp, he, hinit⟩ := mm_init_run lo hi m0 h0 (by omega) hhi
  rw [extend_heap_first lo hi m8 h0 hroom hhi hb he] at hinit
  have n : ¬ lo + 144 = 0 := by omega
  simp only [if_neg n] at hinit
  exact ⟨_, hinit, init_words lo m8 (by omega) hb hp _ rfl⟩

end MM

namespace MM

/-! ## The claims -/

/-- C1, at a failing input: right after a successful `mm_init`, `malloc(2147483644)`
returns the non-null handle `LO + 144` of an allocated block whose size is 16,
far less than the request plus the 4-byte header. -/
theorem malloc_big_request_small_block :
    (mm_init (fresh LO (LO + 4096) zeros)).2 = 0 ∧
    valueOf (malloc run0 BIG) = LO + 144 ∧
    GET_ALLOC (stateOf run0 (malloc run0 BIG)).mem (HDRP (LO + 144)) = 1 ∧
    GET_SIZE (stateOf run0 (malloc run0 BIG)).mem (HDRP (LO + 144)) = 16 := by
  decide!

/-- C2, at a failing input: after `malloc(36)`, two bytes stored into that
block and `realloc(LO + 144, 2147483644)`, the block `LO + 184` that `realloc`
returned is allocated and has 16 bytes; the following `malloc(44)` returns
`LO + 200` and changes the payload byte at `LO + 188` of the block `LO + 184`. -/
theorem malloc_changes_allocated_payload :
    valueOf (malloc run0 36) = LO + 144 ∧
    allocated runE1 (LO + 144) = true ∧ GET_SIZE runE1.mem (HDRP (LO + 144)) = 40 ∧
    allocated runE2 (LO + 144) = true ∧
    valueOf (realloc runE2 (LO + 144) BIG) = LO + 184 ∧
    allocated runE3 (LO + 184) = true ∧
    GET_SIZE runE3.mem (HDRP (LO + 184)) = 16 ∧
    valueOf (malloc runE3 44) = LO + 200 ∧
    runE3.mem.rd (LO + 188) = 255 ∧ runE4.mem.rd (LO + 188) = 0 := by
  decide!

/-- C3: when no free block fits the adjusted size and the growth call fails
(`mem_sbrk` returns `(void * ) -1`; the top of the region is not that address),
`malloc(n)` returns null and the state after the call (every byte of memory,
the bucket heads among them, and the bounds of the region) is the state
before it. -/
theorem malloc_exhausted (s : State) (n : Nat) (hfit : find_fit s (adjust n) = some 0)
    (hgrow : (mem_sbrk s (grow_request n)).2 = SBRK_FAIL) (htop : s.brk ≠ SBRK_FAIL) :
    malloc s n = some (s, 0) := by
  have hg : mem_sbrk s (grow_request n) = (s, SBRK_FAIL) := by
    unfold mem_sbrk at hgrow ⊢
    split
    · rfl
    · rw [if_neg (by assumption)] at hgrow
      exact absurd hgrow htop
  have e : extend_heap s (sdiv32 (if slt CHUNKSIZE (adjust n) = true then adjust n
      else CHUNKSIZE) WSIZE) = (s, 0) := extend_heap_of_fail s _ hg
  unfold malloc
  split
  · rfl
  · simp only [hfit, e]
    simp

/-- C3, witness: on a heap that cannot grow, `malloc(1000)` finds no fit, the
growth call fails, and the call returns null in the unchanged state. -/
theorem malloc_exhausted_witness : malloc full0 1000 = some (full0, 0) :=
  malloc_exhausted full0 1000 (by decide!) (by decide!) (by decide!)

/-- C4, at a failing input: right after `mm_init`, `malloc(4294967296)`, a
request beyond the range of a 32-bit `int`, returns the non-null handle
`LO + 144`; it has rewritten the tag word at `LO + 140` and the head of bucket 10. -/
theorem malloc_accepts_invalid_size :
    valueOf (malloc run0 4294967296) = LO + 144 ∧
    GET run0.mem (LO + 140) = 530 ∧
    GET (stateOf run0 (malloc run0 4294967296)).mem (LO + 140) = 19 ∧
    bucket run0 10 = LO + 144 ∧
    bucket (stateOf run0 (malloc run0 4294967296)) 10 = 0 := by
  decide!

/-- C5, at a failing input: run A is three calls `malloc(8)`, which return
`LO + 144`, `LO + 160` and `LO + 176`, then `free` of the three handles,
`malloc(40)`, which returns `LO + 144`, and `realloc(LO + 144, 2147483644)`,
which returns `LO + 192`.  The walk over the heap then meets the blocks
`LO + 208` and `LO + 224` one after the other, both free. -/
theorem adjacent_free_blocks_after_realloc :
    valueOf (malloc run0 8) = LO + 144 ∧ valueOf (malloc runA1 8) = LO + 160 ∧
    valueOf (malloc runA2 8) = LO + 176 ∧
    allocated runA3 (LO + 160) = true ∧ allocated runA4 (LO + 144) = true ∧
    allocated runA5 (LO + 176) = true ∧
    valueOf (malloc runA6 40) = LO + 144 ∧ allocated runA7 (LO + 144) = true ∧
    valueOf (realloc runA7 (LO + 144) BIG) = LO + 192 ∧
    view runA8 = some ([(LO + 144, 48, 0, 1), (LO + 192, 16, 1, 0), (LO + 208, 16, 0, 1),
      (LO + 224, 16, 0, 1), (LO + 240, 16, 1, 1)], LO + 256, 0) := by
  decide!

/-- C6, at a failing input: after `malloc(16)` and `realloc(LO + 144, 2147483644)`
the head of bucket 9 is `LO + 184`, which is not a block of the heap: the
walk over the heap visits `LO + 144` and `LO + 168` only. -/
theorem bucket_entry_not_a_heap_block :
    valueOf (malloc run0 16) = LO + 144 ∧
    allocated runB1 (LO + 144) = true ∧
    valueOf (realloc runB1 (LO + 144) BIG) = LO + 168 ∧
    bucket runB2 9 = LO + 184 ∧
    heap_walk runB2 = some ([LO + 144, LO + 168], LO + 184) := by
  decide!

/-- C7, at a failing input: after `malloc(16)` and `realloc(LO + 144, 2147483644)`
the block `LO + 184` at the head of bucket 9 has size 0, and `find_index(0)`
is 0, not 9. -/
theorem bucket_entry_wrong_size_class :
    allocated runB1 (LO + 144) = true ∧
    valueOf (realloc runB1 (LO + 144) BIG) = LO + 168 ∧
    bucket runB2 9 = LO + 184 ∧ GET_SIZE runB2.mem (HDRP (LO + 184)) = 0 ∧
    find_index 0 = 0 := by
  decide!

/-- C8, at a failing input: after run A (three `malloc(8)`, `free` of the
three handles, `malloc(40)`, `realloc(LO + 144, 2147483644)`) the walk over the
heap visits the block `LO + 224` right after the free block `LO + 208`, and
the prev_allocated bit of `LO + 224` is 1. -/
theorem prev_alloc_bit_wrong_after_realloc :
    (heap_walk runA8).map Prod.fst =
      some [LO + 144, LO + 192, LO + 208, LO + 224, LO + 240] ∧
    NEXT_BLKP runA8.mem (LO + 208) = LO + 224 ∧
    GET_ALLOC runA8.mem (HDRP (LO + 208)) = 0 ∧
    GET_PREV_ALLOC runA8.mem (LO + 224) = 1 := by
  decide!

/-- C9, at a failing input: after run A (three `malloc(8)`, `free` of the
three handles, `malloc(40)`, `realloc(LO + 144, 2147483644)`) the free block
`LO + 208` of the heap has the header word 18 and the footer word 34. -/
theorem footer_differs_from_header_after_realloc :
    (heap_walk runA8).map (fun r => decide (LO + 208 ∈ r.1)) = some true ∧
    GET_ALLOC runA8.mem (HDRP (LO + 208)) = 0 ∧
    GET runA8.mem (HDRP (LO + 208)) = 18 ∧
    FTRP runA8.mem (LO + 208) = LO + 216 ∧
    GET runA8.mem (FTRP runA8.mem (LO + 208)) = 34 := by
  decide!

/-- C10, at a failing input: after `malloc(16)` and `realloc(LO + 144, 2147483644)`
the walk over the heap ends at `LO + 184`, where the tag word is 0 (not
allocated), 488 bytes below the top `LO + 672` of the region; the sizes of the
blocks it visits sum to 40, not to the 528 bytes obtained through `extend_heap`. -/
theorem walk_ends_before_epilogue :
    valueOf (realloc runB1 (LO + 144) BIG) = LO + 168 ∧
    view runB2 = some ([(LO + 144, 24, 0, 1), (LO + 168, 16, 1, 0)], LO + 184, 0) ∧
    runB2.brk = LO + 672 := by
  decide!

/-- C11, at a failing input: right after a successful `mm_init`, and again
after a following `malloc(100)`, `mm_checkheap` returns 1. -/
theorem checkheap_fails_after_init :
    (mm_init (fresh LO (LO + 4096) zeros)).2 = 0 ∧
    mm_checkheap run0 = some 1 ∧
    valueOf (malloc run0 100) = LO + 144 ∧
    mm_checkheap (stateOf run0 (malloc run0 100)) = some 1 := by
  decide!

/-- C12, at a failing input: after `malloc(16)` and `realloc(LO + 144, 2147483644)`,
which returns `LO + 168`, the block after `LO + 168` is `LO + 184`, marked
free and at the head of bucket 9; `free(LO + 168)` merges the neighbours into
one block of 40 bytes at `LO + 144`, and `LO + 184` is still the head of
bucket 9. -/
theorem free_leaves_merged_neighbour_listed :
    valueOf (realloc runB1 (LO + 144) BIG) = LO + 168 ∧
    allocated runB2 (LO + 168) = true ∧
    NEXT_BLKP runB2.mem (LO + 168) = LO + 184 ∧
    GET_ALLOC runB2.mem (HDRP (LO + 184)) = 0 ∧
    bucket runB2 9 = LO + 184 ∧
    view runB3 = some ([(LO + 144, 40, 0, 1)], LO + 184, 0) ∧
    bucket runB3 9 = LO + 184 := by
  decide!

end MM

namespace MM

/-- C13, at a failing input: run G is `malloc(24)`, `malloc(260)` and
`malloc(228)`, which return `LO + 144`, `LO + 176` and `LO + 440`,
`free(LO + 176)`, nine bytes stored into the payload of `LO + 144`,
`realloc(LO + 144, 2147483644)`, which returns `LO + 176`, and `malloc(244)`,
which returns `LO + 192`.  The block `LO + 192` is then allocated with 248
bytes between the allocated blocks `LO + 176` and `LO + 440`.  After
`free(LO + 192)` it is the head of bucket 8, and for the request 244, whose
adjusted size 248 has the same bucket, `find_fit` returns `LO + 185`, which
`malloc(244)` returns, not `LO + 192`. -/
theorem freed_block_not_reused :
    valueOf (malloc run0 24) = LO + 144 ∧ valueOf (malloc runG1 260) = LO + 176 ∧
    valueOf (malloc runG2 228) = LO + 440 ∧ allocated runG3 (LO + 176) = true ∧
    allocated runG4 (LO + 144) = true ∧ GET_SIZE runG4.mem (HDRP (LO + 144)) = 32 ∧
    valueOf (realloc runG5 (LO + 144) BIG) = LO + 176 ∧
    valueOf (malloc runG6 244) = LO + 192 ∧
    allocated runG7 (LO + 192) = true ∧
    view runG7 = some ([(LO + 144, 32, 0, 1), (LO + 176, 16, 1, 0), (LO + 192, 248, 1, 1),
      (LO + 440, 232, 1, 1)], LO + 672, 3) ∧
    find_index 248 = 8 ∧ bucket runG8 8 = LO + 192 ∧ adjust 244 = 248 ∧
    find_fit runG8 248 = some (LO + 185) ∧
    valueOf (malloc runG8 244) = LO + 185 := by
  decide!

/-- C14, at a failing input: after `malloc(16)`, `realloc(LO + 144, 2147483644)`
on the allocated handle `LO + 144` returns the non-null handle `LO + 168` of
a block of 16 bytes, whose payload is far smaller than the request. -/
theorem realloc_big_request_small_block :
    allocated runB1 (LO + 144) = true ∧
    valueOf (realloc runB1 (LO + 144) BIG) = LO + 168 ∧
    GET_ALLOC runB2.mem (HDRP (LO + 168)) = 1 ∧
    GET_SIZE runB2.mem (HDRP (LO + 168)) = 16 := by
  decide!

/-- C15, at a failing input: the block `LO + 144` has 24 bytes, 20 of them
payload; in `realloc(LO + 144, 24)` the fresh allocation returns `LO + 168`
and 24 bytes are copied, so that byte 20 of the new block is the low byte 35
of the tag word that followed the old block. -/
theorem realloc_copies_block_size :
    allocated runB1 (LO + 144) = true ∧
    GET_SIZE runB1.mem (HDRP (LO + 144)) = 24 ∧
    valueOf (malloc runB1 24) = LO + 168 ∧
    realloc_copy_len (stateOf runB1 (malloc runB1 24)).mem (LO + 144) 24 = 24 ∧
    valueOf (realloc runB1 (LO + 144) 24) = LO + 168 ∧
    (stateOf runB1 (realloc runB1 (LO + 144) 24)).mem.rd (LO + 188) = 35 := by
  decide!

/-- C16: for a non-null handle `h`, `realloc(h, 0)` returns null and leaves
the state that `free(h)` leaves. -/
theorem realloc_zero_is_free (s : State) (h : Nat) (hh : h ≠ 0) :
    realloc s h 0 = some (free s h, 0) := by
  unfold realloc
  rw [if_neg hh, if_pos rfl]

/-- C16, witness: `realloc(LO + 144, 0)` on the heap after `malloc(16)`. -/
theorem realloc_zero_is_free_witness :
    realloc runB1 (LO + 144) 0 = some (free runB1 (LO + 144), 0) :=
  realloc_zero_is_free runB1 (LO + 144) (by decide)

/-- C17, at a failing input: right after `mm_init`, `calloc(1, 2147483644)`
returns the handle `LO + 144` of a block of 16 bytes. -/
theorem calloc_big_request_small_block :
    valueOf (calloc run0 1 BIG) = LO + 144 ∧
    GET_SIZE (stateOf run0 (calloc run0 1 BIG)).mem (HDRP (LO + 144)) = 16 := by
  decide!

/-- C18, at a failing input: on a heap that cannot grow the allocation
underlying `calloc(1, 1000)` fails; `calloc` returns null, and the byte at
address 0, which was 255, is 0 afterwards. -/
theorem calloc_writes_through_null :
    (mm_init (fresh LO (LO + 672) ones)).2 = 0 ∧
    valueOf (malloc full0 1000) = 0 ∧
    valueOf (calloc full0 1 1000) = 0 ∧
    full0.mem.rd 0 = 255 ∧
    (stateOf full0 (calloc full0 1 1000)).mem.rd 0 = 0 := by
  decide!

/-- C19: on a fresh region with room for the 672 bytes that `mm_init`
requests, `mm_init` returns 0; the bucket array is at the base of the region
and every head is null except that of bucket 10; the prologue has size 8 and
is allocated; the heap holds one block, `lo + 144`, free, of size 528, with
prev_allocated 1, footer equal to header and both links null, which is the
head of bucket 10; and the walk ends at the top of the region, where the tag
word is 1 (size 0, allocated, prev_allocated 0) in the last word. -/
theorem mm_init_fresh (lo hi : Nat) (m0 : Mem) (h0 : 0 < lo) (hroom : lo + 672 ≤ hi)
    (hhi : hi < 18446744073709551616) :
    ∃ s : State, mm_init (fresh lo hi m0) = (s, 0) ∧
      s.seg_list = lo ∧ s.heap_start = lo + 136 ∧ s.brk = lo + 672 ∧
      (∀ i, i < 16 → bucket s i = if i = 10 then lo + 144 else 0) ∧
      GET_SIZE s.mem (HDRP s.heap_start) = 8 ∧ GET_ALLOC s.mem (HDRP s.heap_start) = 1 ∧
      first_block s = lo + 144 ∧
      view s = some ([(lo + 144, 528, 0, 1)], lo + 672, 1) ∧
      GET s.mem (FTRP s.mem (lo + 144)) = GET s.mem (HDRP (lo + 144)) ∧
      GET_PREV_FREE s.mem (lo + 144) = 0 ∧ GET_NEXT_FREE s.mem (lo + 144) = 0 ∧
      HDRP (lo + 672) = s.brk - 4 := by
  obtain ⟨M, hinit, hb, hp, hh, hf, hpv, hnx, hep⟩ := mm_init_result lo hi m0 h0 hroom hhi
  have a1 : HDRP (lo + 136) = lo + 132 := HDRP_eq _ (by omega) (by omega)
  have a2 : HDRP (lo + 144) = lo + 140 := HDRP_eq _ (by omega) (by omega)
  have a3 : HDRP (lo + 672) = lo + 668 := HDRP_eq _ (by omega) (by omega)
  have s1 : GET_SIZE M (lo + 132) = 8 := by rw [GET_SIZE_eq, hp]
  have s2 : GET_SIZE M (lo + 140) = 528 := by rw [GET_SIZE_eq, hh]
  have s3 : GET_SIZE M (lo + 668) = 0 := by rw [GET_SIZE_eq, hep]
  have f1 : first_block (⟨M, lo + 672, lo, hi, lo + 136, lo⟩ : State) = lo + 144 := by
    show NEXT_BLKP M (lo + 136) = _
    unfold NEXT_BLKP
    rw [a1, s1, padd_eq _ _ (by decide) (by omega)]
  have n1 : NEXT_BLKP M (lo + 144) = lo + 672 := by
    unfold NEXT_BLKP
    rw [a2, s2, padd_eq _ _ (by decide) (by omega)]
  refine ⟨_, hinit, rfl, rfl, rfl, ?_, ?_, ?_, f1, ?_, ?_, ?_, ?_, ?_⟩
  · intro i hi
    show GETP M (slot _ i) = _
    rw [slot_eq _ _ (by show lo + 8 * i < _; omega)]
    exact hb i hi
  · show GET_SIZE M (HDRP (lo + 136)) = 8
    rw [a1, s1]
  · show GET_ALLOC M (HDRP (lo + 136)) = 1
    rw [a1, GET_ALLOC_eq, hp]
  · unfold view heap_walk
    rw [f1]
    show (match walk M (lo + 672 - lo + 1) (lo + 144) with | none => none | some r => _) = _
    rw [show lo + 672 - lo + 1 = 671 + 1 + 1 by omega, walk, a2, s2, if_neg (by decide), n1, walk,
      a3, s3, if_pos rfl]
    simp only [List.map, a2, a3, s2, hep, GET_ALLOC_eq, hh,
      GET_PREV_ALLOC_eq _ _ (show 4 ≤ lo + 144 by omega)
        (show lo + 144 < 18446744073709551616 by omega),
      show lo + 144 - 4 = lo + 140 by omega]
  · show GET M (FTRP M (lo + 144)) = GET M (HDRP (lo + 144))
    unfold FTRP
    rw [a2, s2, padd_eq _ _ (by decide) (by omega), psub_eq _ _ (by decide)
      (by simp only [DSIZE]; omega) (by omega), show lo + 144 + 528 - DSIZE = lo + 664 from rfl,
      hf, hh]
  · show GET_PREV_FREE M (lo + 144) = 0
    rw [GET_PREV_FREE_eq, hpv]; rfl
  · show GET_NEXT_FREE M (lo + 144) = 0
    rw [GET_NEXT_FREE_eq _ _ (by omega), show lo + 144 + 4 = lo + 148 by omega, hnx]; rfl
  · rw [a3]
    show lo + 668 = lo + 672 - 4
    omega

/-- C19, witness: the region at `LO` with room for 4096 bytes, over zeroed memory. -/
theorem mm_init_fresh_witness :
    ∃ s : State, mm_init (fresh LO (LO + 4096) zeros) = (s, 0) ∧
      s.seg_list = LO ∧ s.heap_start = LO + 136 ∧ s.brk = LO + 672 ∧
      (∀ i, i < 16 → bucket s i = if i = 10 then LO + 144 else 0) ∧
      GET_SIZE s.mem (HDRP s.heap_start) = 8 ∧ GET_ALLOC s.mem (HDRP s.heap_start) = 1 ∧
      first_block s = LO + 144 ∧
      view s = some ([(LO + 144, 528, 0, 1)], LO + 672, 1) ∧
      GET s.mem (FTRP s.mem (LO + 144)) = GET s.mem (HDRP (LO + 144)) ∧
      GET_PREV_FREE s.mem (LO + 144) = 0 ∧ GET_NEXT_FREE s.mem (LO + 144) = 0 ∧
      HDRP (LO + 672) = s.brk - 4 :=
  mm_init_fresh LO (LO + 4096) zeros (by decide) (by decide) (by decide)

/-- C20, at a failing input: on a region with room for 100 bytes only, the
first growth request of `mm_init` fails with the sentinel; `mm_init` returns
-1 after it has kept the sentinel as `seg_list` and stored through it: the
byte at address `2^64 - 1`, which was 255, is 0 afterwards. -/
theorem mm_init_writes_through_failed_sbrk :
    (mem_sbrk (fresh LO (LO + 100) ones) (mul32 32 WSIZE)).2 = SBRK_FAIL ∧
    tiny0.2 = 4294967295 ∧
    tiny0.1.seg_list = SBRK_FAIL ∧
    ones.rd 18446744073709551615 = 255 ∧
    tiny0.1.mem.rd 18446744073709551615 = 0 := by
  decide!

end MM

namespace MM

/-! ## The index, the tag word and the link encoding -/

theorem sle_trans (a b c : Nat) (h1 : sle a b = true) (h2 : sle b c = true) : sle a c = true := by
  unfold sle slt at *
  simp at *
  omega

theorem pow_mod_small (i : Nat) (hi : i < 16) : 2 ^ i % 4294967296 = 2 ^ i := by
  apply Nat.mod_eq_of_lt
  calc 2 ^ i ≤ 2 ^ 15 := Nat.pow_le_pow_right (by decide) (by omega)
    _ < 4294967296 := by decide

/-- The loop of `find_index` returns the first index from `i` on whose power
of two is not below `size`, or 15 when there is none. -/
theorem find_index_loop_spec (size : Nat) (n i : Nat) (h : i + n = 16) :
    (∀ j, i ≤ j → j < 16 → sle size (2 ^ j) = true →
      sle size (2 ^ find_index_loop size n i) = true ∧ find_index_loop size n i ≤ j) ∧
    ((∀ j, i ≤ j → j < 16 → sle size (2 ^ j) = false) → find_index_loop size n i = 15) := by
  induction n generalizing i with
  | zero =>
    constructor
    · intro j h1 h2; omega
    · intro _; rfl
  | succ n ih =>
    rw [find_index_loop, pow_mod_small i (by omega)]
    by_cases hc : sle size (2 ^ i) = true
    · rw [if_pos hc]
      constructor
      · intro j h1 _ _; exact ⟨hc, h1⟩
      · intro hall
        have := hall i (Nat.le_refl i) (by omega)
        rw [hc] at this
        exact absurd this (by decide)
    · rw [if_neg hc]
      obtain ⟨ihA, ihB⟩ := ih (i + 1) (by omega)
      constructor
      · intro j h1 h2 h3
        by_cases hj : j = i
        · subst hj; exact absurd h3 hc
        · exact ihA j (by omega) h2 h3
      · intro hall
        exact ihB (fun j h1 h2 => hall j (by omega) h2)

/-- C21: for every `int` size (a 32-bit pattern `a`, compared as a signed
value), `find_index(a)` lies in 0..15; when some `i` in 0..15 has `a <= 2^i`,
`find_index(a)` is such an index and no such index is smaller; when there is
none, `find_index(a)` is 15; and `find_index` is monotone for the signed
order. -/
theorem find_index_spec (a b : Nat) :
    find_index a < 16 ∧
    (∀ i, i < 16 → sle a (2 ^ i) = true →
      sle a (2 ^ find_index a) = true ∧ find_index a ≤ i) ∧
    ((∀ i, i < 16 → sle a (2 ^ i) = false) → find_index a = 15) ∧
    (sle a b = true → find_index a ≤ find_index b) := by
  obtain ⟨hA, hB⟩ := find_index_loop_spec a 16 0 (by omega)
  obtain ⟨hA', hB'⟩ := find_index_loop_spec b 16 0 (by omega)
  have ha := find_index_lt a
  have hb := find_index_lt b
  refine ⟨ha, fun i hi h => hA i (Nat.zero_le i) hi h, fun h => hB (fun j _ hj => h j hj), ?_⟩
  intro hab
  by_cases hex : ∃ j, j < 16 ∧ sle b (2 ^ j) = true
  · obtain ⟨j, hj, hbj⟩ := hex
    obtain ⟨h1, _⟩ := hA' j (Nat.zero_le j) hj hbj
    exact (hA (find_index b) (Nat.zero_le _) hb (sle_trans a b _ hab h1)).2
  · have : find_index b = 15 := by
      apply hB'
      intro j _ hj
      by_contra hne
      exact hex ⟨j, hj, by simpa using hne⟩
    have h15 : find_index b = 15 := this
    omega

/-- C21, witness: the sizes 24 and 528. -/
theorem find_index_spec_witness :
    find_index 24 < 16 ∧ sle 24 (2 ^ find_index 24) = true ∧ find_index 24 ≤ 5 ∧
    find_index 24 ≤ find_index 528 :=
  ⟨(find_index_spec 24 528).1,
   ((find_index_spec 24 528).2.1 5 (by decide) (by decide)).1,
   ((find_index_spec 24 528).2.1 5 (by decide) (by decide)).2,
   (find_index_spec 24 528).2.2.2 (by decide)⟩

theorem PACK_PREV_ALLOC_put (m : Mem) (bp f : Nat) :
    PACK_PREV_ALLOC m bp f = PUT m (HDRP bp) (setPA (GET m (HDRP bp)) f) := by
  unfold PACK_PREV_ALLOC setPA
  rw [or_two, and_maskFD _ (GET_lt m _)]

theorem GET_PREV_ALLOC_val (m : Mem) (bp : Nat) :
    GET_PREV_ALLOC m bp = GET m (HDRP bp) / 2 % 2 := by
  unfold GET_PREV_ALLOC
  rw [and_two]
  split <;> omega

theorem setPA_bits (w f : Nat) (hw : w < 4294967296) :
    setPA w f < 4294967296 ∧ setPA w f / 8 * 8 = w / 8 * 8 ∧ setPA w f % 2 = w % 2 ∧
    setPA w f / 2 % 2 = (if f ≠ 0 then 1 else 0) := by
  unfold setPA
  split <;> omega

/-- C22: for a size `s` that is a multiple of 8 with `16 <= s < 2^31` and bits
`a`, `p`: after `PUT(HDRP(bp), PACK(s, a))` and `PACK_PREV_ALLOC(bp, p)`,
`GET_SIZE` is `s`, `GET_ALLOC` is `a` and `GET_PREV_ALLOC` is `p`; and
`PACK_PREV_ALLOC` never changes the size or the allocated bit of a header. -/
theorem tag_roundtrip (m : Mem) (bp s a p : Nat) (hs : s % 8 = 0) (h16 : 16 ≤ s)
    (hlt : s < 2147483648) (ha : a < 2) (hp : p < 2) :
    GET_SIZE (PACK_PREV_ALLOC (PUT m (HDRP bp) (PACK s a)) bp p) (HDRP bp) = s ∧
    GET_ALLOC (PACK_PREV_ALLOC (PUT m (HDRP bp) (PACK s a)) bp p) (HDRP bp) = a ∧
    GET_PREV_ALLOC (PACK_PREV_ALLOC (PUT m (HDRP bp) (PACK s a)) bp p) bp = p ∧
    (∀ m1 : Mem, ∀ f : Nat,
      GET_SIZE (PACK_PREV_ALLOC m1 bp f) (HDRP bp) = GET_SIZE m1 (HDRP bp) ∧
      GET_ALLOC (PACK_PREV_ALLOC m1 bp f) (HDRP bp) = GET_ALLOC m1 (HDRP bp)) := by
  have hgen : ∀ m1 : Mem, ∀ f : Nat,
      GET_SIZE (PACK_PREV_ALLOC m1 bp f) (HDRP bp) = GET_SIZE m1 (HDRP bp) ∧
      GET_ALLOC (PACK_PREV_ALLOC m1 bp f) (HDRP bp) = GET_ALLOC m1 (HDRP bp) ∧
      GET_PREV_ALLOC (PACK_PREV_ALLOC m1 bp f) bp = (if f ≠ 0 then 1 else 0) := by
    intro m1 f
    obtain ⟨b1, b2, b3, b4⟩ := setPA_bits (GET m1 (HDRP bp)) f (GET_lt _ _)
    rw [PACK_PREV_ALLOC_put, GET_SIZE_eq, GET_SIZE_eq, GET_ALLOC_eq, GET_ALLOC_eq,
      GET_PREV_ALLOC_val, GET_PUT_eq, Nat.mod_eq_of_lt b1]
    exact ⟨b2, b3, b4⟩
  have hw : GET (PUT m (HDRP bp) (PACK s a)) (HDRP bp) = s + a := by
    rw [GET_PUT_eq, PACK_eq s a hs (by omega)]
    omega
  obtain ⟨g1, g2, g3⟩ := hgen (PUT m (HDRP bp) (PACK s a)) p
  refine ⟨?_, ?_, ?_, fun m1 f => ⟨(hgen m1 f).1, (hgen m1 f).2.1⟩⟩
  · rw [g1, GET_SIZE_eq, hw]; omega
  · rw [g2, GET_ALLOC_eq, hw]; omega
  · rw [g3]; split <;> omega

/-- C22, witness: the tag of the first block after `mm_init`. -/
theorem tag_roundtrip_witness :
    GET_SIZE (PACK_PREV_ALLOC (PUT zeros (HDRP (LO + 144)) (PACK 528 0)) (LO + 144) 1)
      (HDRP (LO + 144)) = 528 ∧
    GET_ALLOC (PACK_PREV_ALLOC (PUT zeros (HDRP (LO + 144)) (PACK 528 0)) (LO + 144) 1)
      (HDRP (LO + 144)) = 0 ∧
    GET_PREV_ALLOC (PACK_PREV_ALLOC (PUT zeros (HDRP (LO + 144)) (PACK 528 0)) (LO + 144) 1)
      (LO + 144) = 1 :=
  ⟨(tag_roundtrip zeros (LO + 144) 528 0 1 (by decide) (by decide) (by decide) (by decide)
      (by decide)).1,
   (tag_roundtrip zeros (LO + 144) 528 0 1 (by decide) (by decide) (by decide) (by decide)
      (by decide)).2.1,
   (tag_roundtrip zeros (LO + 144) 528 0 1 (by decide) (by decide) (by decide) (by decide)
      (by decide)).2.2.1⟩

/-- C26: for an address `a` with `ref <= a < ref + 2^32 - 1` the link fields
read back what was stored, null reads back as null, every 8-byte-aligned
address of the window `ref .. ref + 2^32` reads back as itself (so never as
null), and storing one link field does not change the other. -/
theorem link_roundtrip (m : Mem) (bp a : Nat)
    (ha : ref ≤ a) (ha2 : a < ref + 4294967295) :
    GET_PREV_FREE (PUT_PREV_FREE m bp a) bp = a ∧
    GET_NEXT_FREE (PUT_NEXT_FREE m bp a) bp = a ∧
    GET_PREV_FREE (PUT_PREV_FREE m bp 0) bp = 0 ∧
    GET_NEXT_FREE (PUT_NEXT_FREE m bp 0) bp = 0 ∧
    (∀ b, ref ≤ b → b < ref + 4294967296 → b % 8 = 0 →
      GET_PREV_FREE (PUT_PREV_FREE m bp b) bp = b ∧
      GET_NEXT_FREE (PUT_NEXT_FREE m bp b) bp = b) ∧
    (∀ x, GET_NEXT_FREE (PUT_PREV_FREE m bp x) bp = GET_NEXT_FREE m bp) ∧
    (∀ x, GET_PREV_FREE (PUT_NEXT_FREE m bp x) bp = GET_PREV_FREE m bp) := by
  have hrt : ∀ b, b = 0 ∨ (ref ≤ b ∧ b < ref + 4294967295) ∨
      (ref ≤ b ∧ b < ref + 4294967296 ∧ b % 8 = 0) → decL (encL b % 4294967296) = b := by
    intro b hb
    unfold decL encL ref at *
    by_cases h0 : b = 0
    · simp [h0]
    · rw [if_neg h0]
      split <;> omega
  have hp : ∀ b, GET_PREV_FREE (PUT_PREV_FREE m bp b) bp = decL (encL b % 4294967296) := by
    intro b
    rw [PUT_PREV_FREE_eq, GET_PREV_FREE_eq, GET_PUT_eq]
  have hn : ∀ b, GET_NEXT_FREE (PUT_NEXT_FREE m bp b) bp = decL (encL b % 4294967296) := by
    intro b
    show decL (GET (PUT m (padd bp WSIZE) (encL b)) (padd bp WSIZE)) = _
    rw [GET_PUT_eq]
  have hq : padd bp WSIZE + 4 ≤ bp ∨ bp + 4 ≤ padd bp WSIZE := by
    unfold padd sext WSIZE
    split <;> omega
  refine ⟨?_, ?_, ?_, ?_, ?_, ?_, ?_⟩
  · rw [hp]; exact hrt a (Or.inr (Or.inl ⟨ha, ha2⟩))
  · rw [hn]; exact hrt a (Or.inr (Or.inl ⟨ha, ha2⟩))
  · rw [hp]; exact hrt 0 (Or.inl rfl)
  · rw [hn]; exact hrt 0 (Or.inl rfl)
  · intro b h1 h2 h3
    rw [hp, hn]
    exact ⟨hrt b (Or.inr (Or.inr ⟨h1, h2, h3⟩)), hrt b (Or.inr (Or.inr ⟨h1, h2, h3⟩))⟩
  · intro x
    show decL (GET (PUT m bp (encL x)) (padd bp WSIZE)) = decL (GET m (padd bp WSIZE))
    rw [GET_PUT_ne _ _ _ _ (by omega)]
  · intro x
    show decL (GET (PUT m (padd bp WSIZE) (encL x)) bp) = decL (GET m bp)
    rw [GET_PUT_ne _ _ _ _ (by omega)]

/-- C26, witness: the link `LO + 144` stored in the fields of the block `LO + 200`. -/
theorem link_roundtrip_witness :
    GET_PREV_FREE (PUT_PREV_FREE zeros (LO + 200) (LO + 144)) (LO + 200) = LO + 144 ∧
    GET_NEXT_FREE (PUT_NEXT_FREE zeros (LO + 200) (LO + 144)) (LO + 200) = LO + 144 :=
  ⟨(link_roundtrip zeros (LO + 200) (LO + 144) (by decide) (by decide)).1,
   (link_roundtrip zeros (LO + 200) (LO + 144) (by decide) (by decide)).2.1⟩

end MM

namespace MM

/-! ## Growing the heap, and the checker -/

set_option synthInstance.maxSize 1024

/-- C27, at a failing input: after run A (three `malloc(8)`, `free` of the
three handles, `malloc(40)`, `realloc(LO + 144, 2147483644)`) and `malloc(44)`,
which returns `LO + 144`, the heap holds the blocks `LO + 208` and `LO + 224`
of 16 bytes each; `malloc(8)` returns `LO + 208` without growing the region,
and after `free(LO + 208)` the heap holds one block of 32 bytes at `LO + 208`
and the prev_allocated bit of `LO + 240` has changed. -/
theorem malloc_free_does_not_restore :
    valueOf (malloc runA8 44) = LO + 144 ∧
    view runA9 = some ([(LO + 144, 48, 1, 1), (LO + 192, 16, 1, 1), (LO + 208, 16, 0, 1),
      (LO + 224, 16, 0, 1), (LO + 240, 16, 1, 1)], LO + 256, 0) ∧
    valueOf (malloc runA9 8) = LO + 208 ∧ runA10.brk = runA9.brk ∧
    allocated runA10 (LO + 208) = true ∧
    view runA11 = some ([(LO + 144, 48, 1, 1), (LO + 192, 16, 1, 1), (LO + 208, 32, 0, 1),
      (LO + 240, 16, 1, 0)], LO + 256, 0) := by
  decide!

/-- The heap walk of the checker ends when the chain of blocks reaches a header
of size 0 within the fuel. -/
theorem check_walk_some (s : State) (n : Nat) :
    ∀ bp k, GET_SIZE s.mem (HDRP (nth_block s.mem n bp)) = 0 →
      ∃ c e, check_walk s (n + 1 + k) bp = some (c, e) ∧
        (c = 1 ∨ (c = 0 ∧ GET_SIZE s.mem (HDRP e) = 0)) := by
  induction n with
  | zero =>
    intro bp k h
    rw [show 0 + 1 + k = k + 1 by omega, check_walk]
    simp only [nth_block] at h
    rw [if_pos h]
    exact ⟨0, bp, rfl, Or.inr ⟨rfl, h⟩⟩
  | succ n ih =>
    intro bp k h
    rw [show n + 1 + 1 + k = (n + 1 + k) + 1 by omega, check_walk]
    simp only [nth_block] at h
    split
    · rename_i h0
      exact ⟨0, bp, rfl, Or.inr ⟨rfl, h0⟩⟩
    · split
      · exact ⟨1, bp, rfl, Or.inl rfl⟩
      · split
        · exact ⟨1, bp, rfl, Or.inl rfl⟩
        · split
          · exact ⟨1, bp, rfl, Or.inl rfl⟩
          · exact ih _ k h

/-- The list walk of the checker fails at the first element of a list of a
bucket other than bucket 0: the size it tests is that of the epilogue. -/
theorem check_list_head (s : State) (e i fuel ptr : Nat) (hi1 : 1 ≤ i) (hi : i < 16)
    (hp : ptr ≠ 0) (he : GET_SIZE s.mem (HDRP e) = 0) :
    check_list s e i (fuel + 1) ptr = some 1 := by
  rw [check_list, if_neg hp]
  split
  · rfl
  · split
    · rfl
    · split
      · rfl
      · rw [he, if_pos]
        right
        interval_cases i <;> decide

theorem check_lists_nonempty (s : State) (e fuel : Nat)
    (he : GET_SIZE s.mem (HDRP e) = 0) (n : Nat) :
    ∀ j, 1 ≤ j → j + n = 16 → (∃ i, j ≤ i ∧ i < 16 ∧ bucket s i ≠ 0) →
      check_lists s e (fuel + 1) n j = some 1 := by
  induction n with
  | zero =>
    intro j _ hj ⟨i, h1, h2, _⟩
    omega
  | succ n ih =>
    intro j hj1 hj ⟨i, h1, h2, h3⟩
    rw [check_lists]
    by_cases hb : bucket s j = 0
    · rw [hb]
      have : check_list s e j (fuel + 1) 0 = some 0 := by
        rw [check_list, if_pos rfl]
      rw [this]
      apply ih (j + 1) (by omega) (by omega)
      refine ⟨i, ?_, h2, h3⟩
      by_contra hne
      have : i = j := by omega
      subst this
      exact h3 hb
    · rw [check_list_head s e j fuel _ hj1 (by omega) hb he]

/-- Where the heap walk of the checker ends: in a state in which the chain of
blocks from the prologue reaches a header of size 0 within as many steps as
the region has bytes, bucket 0 is empty and some bucket list is non-empty,
`mm_checkheap` returns 1. -/
theorem checkheap_fails_with_free_block (s : State) (n : Nat)
    (hn : n ≤ s.brk - s.mem_start)
    (hend : GET_SIZE s.mem (HDRP (nth_block s.mem n s.heap_start)) = 0)
    (h0 : bucket s 0 = 0) (hne : ∃ i, i < 16 ∧ bucket s i ≠ 0) :
    mm_checkheap s = some 1 := by
  obtain ⟨c, e, hw, hc⟩ := check_walk_some s n s.heap_start (s.brk - s.mem_start - n) hend
  rw [show n + 1 + (s.brk - s.mem_start - n) = s.brk - s.mem_start + 1 by omega] at hw
  obtain ⟨i, hi, hbi⟩ := hne
  have hi1 : 1 ≤ i := by
    by_contra h
    have : i = 0 := by omega
    subst this
    exact hbi h0
  unfold mm_checkheap
  split
  · rfl
  · rw [hw]
    rcases hc with hc | ⟨hc, he⟩
    · subst hc
      rfl
    · subst hc
      simp only []
      split
      · rfl
      · have hl : check_lists s e (s.brk - s.mem_start + 1) BUCKETS 0 = some 1 := by
          show check_lists s e (s.brk - s.mem_start + 1) (15 + 1) 0 = some 1
          rw [check_lists, h0]
          have : check_list s e 0 (s.brk - s.mem_start + 1) 0 = some 0 := by
            rw [check_list, if_pos rfl]
          rw [this]
          exact check_lists_nonempty s e _ he 15 1 (by omega) (by omega) ⟨i, hi1, hi, hbi⟩
        rw [hl]

/-- One round of the heap walk of the checker at a block that passes its
tests. -/
theorem check_walk_step (s : State) (fuel bp : Nat)
    (h1 : GET_SIZE s.mem (HDRP bp) ≠ 0) (h2 : in_heap s bp = true) (h3 : bp % 8 = 0)
    (h4 : GET_ALLOC s.mem (HDRP bp) ≠ 0 ∨
      (in_heap s (GET_NEXT_FREE s.mem bp) = true ∧ in_heap s (GET_PREV_FREE s.mem bp) = true)) :
    check_walk s (fuel + 1) bp = check_walk s fuel (NEXT_BLKP s.mem bp) := by
  rw [check_walk, if_neg h1, if_neg (by simp [h2]), if_neg (by simp [h3]), if_neg]
  rintro ⟨ha, hb⟩
  rcases h4 with h4 | ⟨h4, h5⟩
  · exact h4 ha
  · rcases hb with hb | hb
    · rw [h4] at hb
      cases hb
    · rw [h5] at hb
      cases hb

set_option maxRecDepth 100000 in
/-- Run K: the values returned by the calls. -/
theorem runK_values : valueOf (malloc runK0 20) = LO + 144 ∧
    valueOf (realloc runK1 (LO + 144) BIG) = LO + 168 ∧
    valueOf (malloc runK2 20) = LO + 144 ∧
    bucket runK3 9 = LO + 184 ∧ GET_ALLOC runK3.mem (HDRP (LO + 184)) = 0 := by
  decide!

set_option maxRecDepth 100000 in
/-- Run K: the prologue and the allocated block `LO + 144` of the last state. -/
theorem runK_front : runK3.heap_start = LO + 136 ∧
    GET_SIZE runK3.mem (HDRP (LO + 136)) = 8 ∧ GET_ALLOC runK3.mem (HDRP (LO + 136)) = 1 ∧
    in_heap runK3 (LO + 136) = true ∧ NEXT_BLKP runK3.mem (LO + 136) = LO + 144 ∧
    GET_SIZE runK3.mem (HDRP (LO + 144)) = 24 ∧ GET_ALLOC runK3.mem (HDRP (LO + 144)) = 1 ∧
    in_heap runK3 (LO + 144) = true ∧ NEXT_BLKP runK3.mem (LO + 144) = LO + 168 := by
  decide!

set_option maxRecDepth 100000 in
/-- Run K: the two blocks of the last state between which `NEXT_BLKP` goes to
and fro.  The header of `LO + 184` is the word `0xFFFFFFF0` that `realloc`
copied from the payload of `LO + 144`. -/
theorem runK_pair :
    GET_SIZE runK3.mem (HDRP (LO + 168)) = 16 ∧ GET_ALLOC runK3.mem (HDRP (LO + 168)) = 1 ∧
    in_heap runK3 (LO + 168) = true ∧ NEXT_BLKP runK3.mem (LO + 168) = LO + 184 ∧
    GET runK3.mem (HDRP (LO + 184)) = 4294967280 ∧
    GET_SIZE runK3.mem (HDRP (LO + 184)) = 4294967280 ∧
    in_heap runK3 (LO + 184) = true ∧
    in_heap runK3 (GET_NEXT_FREE runK3.mem (LO + 184)) = true ∧
    in_heap runK3 (GET_PREV_FREE runK3.mem (LO + 184)) = true ∧
    NEXT_BLKP runK3.mem (LO + 184) = LO + 168 := by
  decide!

set_option maxRecDepth 100000 in
/-- Run K: from `LO + 168` and from `LO + 184` the heap walk of the checker
ends with no amount of fuel. -/
theorem runK_cycle (fuel : Nat) :
    check_walk runK3 fuel (LO + 168) = none ∧ check_walk runK3 fuel (LO + 184) = none := by
  obtain ⟨s168, a168, i168, n168, -, s184, i184, inx, ipv, n184⟩ := runK_pair
  induction fuel with
  | zero => exact ⟨rfl, rfl⟩
  | succ f ih =>
    constructor
    · rw [check_walk_step runK3 f (LO + 168) (by rw [s168]; decide) i168 (by decide)
        (Or.inl (by rw [a168]; decide)), n168]
      exact ih.2
    · rw [check_walk_step runK3 f (LO + 184) (by rw [s184]; decide) i184 (by decide)
        (Or.inr ⟨inx, ipv⟩), n184]
      exact ih.1

set_option maxRecDepth 100000 in
/-- Run K: the heap walk of the checker from the prologue ends with no amount
of fuel. -/
theorem runK_walk (fuel : Nat) : check_walk runK3 fuel runK3.heap_start = none := by
  obtain ⟨hh, s136, a136, i136, n136, s144, a144, i144, n144⟩ := runK_front
  rw [hh]
  match fuel with
  | 0 => rfl
  | 1 =>
    rw [check_walk_step runK3 0 (LO + 136) (by rw [s136]; decide) i136 (by decide)
        (Or.inl (by rw [a136]; decide))]
    rfl
  | f + 2 =>
    rw [check_walk_step runK3 (f + 1) (LO + 136) (by rw [s136]; decide) i136 (by decide)
        (Or.inl (by rw [a136]; decide)), n136,
      check_walk_step runK3 f (LO + 144) (by rw [s144]; decide) i144 (by decide)
        (Or.inl (by rw [a144]; decide)), n144]
    exact (runK_cycle f).1

set_option maxRecDepth 100000 in
/-- C28: a state reached by calls alone that has a free block and in which
`mm_checkheap` does not return.  On a region whose word at `LO + 156` is
`0xFFFFFFF0`, `mm_init`, `malloc(20)` (which returns `LO + 144`),
`realloc(LO + 144, 2147483644)` (which returns `LO + 168`) and `malloc(20)`
(which returns `LO + 144`) lead to a state in which the list of bucket 9
starts at `LO + 184`, a block whose header has the allocated bit clear and the
size field `0xFFFFFFF0`, that is -16; `NEXT_BLKP` leads from `LO + 168` to
`LO + 184` and from there back to `LO + 168`, so the heap walk of the checker
meets no header of size 0 whatever its fuel, and `mm_checkheap` has no
result. -/
theorem checkheap_walk_never_ends :
    valueOf (malloc runK0 20) = LO + 144 ∧
    valueOf (realloc runK1 (LO + 144) BIG) = LO + 168 ∧
    valueOf (malloc runK2 20) = LO + 144 ∧
    bucket runK3 9 = LO + 184 ∧
    GET_ALLOC runK3.mem (HDRP (LO + 184)) = 0 ∧
    GET runK3.mem (HDRP (LO + 184)) = 4294967280 ∧
    NEXT_BLKP runK3.mem (LO + 168) = LO + 184 ∧
    NEXT_BLKP runK3.mem (LO + 184) = LO + 168 ∧
    (∀ fuel, check_walk runK3 fuel runK3.heap_start = none) ∧
    mm_checkheap runK3 = none := by
  obtain ⟨v1, v2, v3, b9, a184⟩ := runK_values
  obtain ⟨hh, s136, a136, -⟩ := runK_front
  obtain ⟨-, -, -, n168, g184, -, -, -, -, n184⟩ := runK_pair
  refine ⟨v1, v2, v3, b9, a184, g184, n168, n184, runK_walk, ?_⟩
  unfold mm_checkheap
  rw [if_neg, runK_walk]
  rw [hh, s136, a136]
  decide

end MM

namespace MM

theorem list_at_ne_zero (m : Mem) (l : List Nat) :
    ∀ h, list_at m h l = true → ∀ x ∈ l, x ≠ 0 := by
  induction l with
  | nil => intro h _ x hx; simp at hx
  | cons y t ih =>
    intro h hl x hx
    simp only [list_at, Bool.and_eq_true, beq_iff_eq, bne_iff_ne] at hl
    rcases List.mem_cons.mp hx with rfl | hx'
    · exact hl.1.2
    · exact ih _ hl.2 x hx'

theorem find_fit_list_spec (m : Mem) (size : Nat) (l : List Nat) :
    ∀ h fuel, list_at m h l = true → l.length < fuel →
      find_fit_list m size fuel h = some (spec_first_fit m size l) := by
  induction l with
  | nil =>
    intro h fuel hl hf
    simp only [list_at, beq_iff_eq] at hl
    subst hl
    obtain ⟨f, rfl⟩ : ∃ f, fuel = f + 1 := ⟨fuel - 1, by simp at hf; omega⟩
    rw [find_fit_list, if_pos rfl]
    rfl
  | cons y t ih =>
    intro h fuel hl hf
    simp only [list_at, Bool.and_eq_true, beq_iff_eq, bne_iff_ne] at hl
    obtain ⟨⟨rfl, hy⟩, ht⟩ := hl
    obtain ⟨f, rfl⟩ : ∃ f, fuel = f + 1 := ⟨fuel - 1, by simp at hf; omega⟩
    rw [find_fit_list, if_neg hy, spec_first_fit]
    show (if fits m size h = true then some h else _) = _
    by_cases hfit : fits m size h = true
    · rw [if_pos hfit, if_pos hfit]
    · rw [if_neg hfit, if_neg hfit]
      exact ih _ f ht (by simp at hf; omega)

theorem spec_first_fit_zero (m : Mem) (size : Nat) (l : List Nat) (hnz : ∀ x ∈ l, x ≠ 0) :
    spec_first_fit m size l = 0 ↔ ∀ x ∈ l, fits m size x = false := by
  induction l with
  | nil => simp [spec_first_fit]
  | cons y t ih =>
    rw [spec_first_fit]
    have ih' := ih (fun x hx => hnz x (List.mem_cons_of_mem _ hx))
    by_cases hfit : fits m size y = true
    · rw [if_pos hfit]
      constructor
      · intro h0; exact absurd h0 (hnz y (List.mem_cons_self _ _))
      · intro hall
        have := hall y (List.mem_cons_self _ _)
        rw [hfit] at this
        exact absurd this (by decide)
    · rw [if_neg hfit, ih']
      constructor
      · intro hall x hx
        rcases List.mem_cons.mp hx with rfl | hx'
        · simpa using hfit
        · exact hall x hx'
      · intro hall x hx
        exact hall x (List.mem_cons_of_mem _ hx)

theorem spec_first_fit_append (m : Mem) (size : Nat) (l1 l2 : List Nat)
    (hnz : ∀ x ∈ l1, x ≠ 0) :
    spec_first_fit m size (l1 ++ l2) =
      if spec_first_fit m size l1 = 0 then spec_first_fit m size l2
      else spec_first_fit m size l1 := by
  induction l1 with
  | nil => simp [spec_first_fit]
  | cons y t ih =>
    have ih' := ih (fun x hx => hnz x (List.mem_cons_of_mem _ hx))
    rw [List.cons_append, spec_first_fit, spec_first_fit]
    by_cases hfit : fits m size y = true
    · rw [if_pos hfit, if_pos hfit, if_neg (hnz y (List.mem_cons_self _ _))]
    · rw [if_neg hfit, if_neg hfit, ih']

theorem mem_scan (F : Nat → List Nat) (n : Nat) :
    ∀ i x, x ∈ scan F i n ↔ ∃ j, i ≤ j ∧ j < i + n ∧ x ∈ F j := by
  induction n with
  | zero =>
    intro i x
    simp only [scan, List.not_mem_nil, false_iff]
    rintro ⟨j, h1, h2, _⟩
    omega
  | succ n ih =>
    intro i x
    rw [scan, List.mem_append, ih]
    constructor
    · rintro (h | ⟨j, h1, h2, h3⟩)
      · exact ⟨i, Nat.le_refl i, by omega, h⟩
      · exact ⟨j, by omega, by omega, h3⟩
    · rintro ⟨j, h1, h2, h3⟩
      by_cases hj : j = i
      · subst hj; exact Or.inl h3
      · exact Or.inr ⟨j, by omega, by omega, h3⟩

theorem find_fit_loop_spec (s : State) (size fuel : Nat) (F : Nat → List Nat)
    (hF : ∀ j, j < 16 → list_at s.mem (bucket s j) (F j) = true)
    (hlen : ∀ j, j < 16 → (F j).length < fuel) (n : Nat) :
    ∀ i, i + n ≤ 16 →
      find_fit_loop s size fuel n i = some (spec_first_fit s.mem size (scan F i n)) := by
  induction n with
  | zero => intro i _; rfl
  | succ n ih =>
    intro i hi
    have hl := find_fit_list_spec s.mem size (F i) (bucket s i) fuel (hF i (by omega))
      (hlen i (by omega))
    have hnz := list_at_ne_zero s.mem (F i) _ (hF i (by omega))
    rw [find_fit_loop, hl, scan, spec_first_fit_append _ _ _ _ hnz]
    by_cases h0 : spec_first_fit s.mem size (F i) = 0
    · rw [h0, if_pos rfl]
      exact ih (i + 1) (by omega)
    · rw [if_neg h0]
      cases hv : spec_first_fit s.mem size (F i) with
      | zero => exact absurd hv h0
      | succ k => rfl

theorem walk_length (m : Mem) (fuel : Nat) :
    ∀ bp r, walk m fuel bp = some r → r.1.length < fuel := by
  induction fuel with
  | zero => intro bp r h; simp [walk] at h
  | succ f ih =>
    intro bp r h
    rw [walk] at h
    split at h
    · cases h; simp
    · cases hw : walk m f (NEXT_BLKP m bp) with
      | none => rw [hw] at h; simp at h
      | some r' =>
        rw [hw] at h
        simp only [Option.some.injEq] at h
        subst h
        have := ih _ r' hw
        simp only [List.length_cons]
        omega

theorem find_index_mono (a b : Nat) (hab : sle a b = true) : find_index a ≤ find_index b := by
  obtain ⟨hA, _⟩ := find_index_loop_spec a 16 0 (by omega)
  obtain ⟨hA', hB'⟩ := find_index_loop_spec b 16 0 (by omega)
  have ha := find_index_lt a
  have hb := find_index_lt b
  by_cases hex : ∃ j, j < 16 ∧ sle b (2 ^ j) = true
  · obtain ⟨j, hj, hbj⟩ := hex
    obtain ⟨h1, _⟩ := hA' j (Nat.zero_le j) hj hbj
    exact (hA (find_index b) (Nat.zero_le _) hb (sle_trans a b _ hab h1)).2
  · have h15 : find_index b = 15 := by
      apply hB'
      intro j _ hj
      by_contra hne
      exact hex ⟨j, hj, by simpa using hne⟩
    omega

/-- C23: in a state whose sixteen lists are the duplicate-free lists `F i`
(read from the bucket heads along the next links), whose listed blocks are
free blocks of the heap walk filed under the index of their size, and whose
free blocks of the walk are all listed, `find_fit(size)` returns, and its
result is the first block with the allocated bit clear and size at least
`size` in the lists `find_index(size)`..15 taken in increasing order, each
from head to tail; it is NULL exactly when no free block of the heap has size
at least `size`. -/
theorem find_fit_first_fit (s : State) (size : Nat) (F : Nat → List Nat)
    (hs : List Nat) (e : Nat)
    (hw : heap_walk s = some (hs, e))
    (hF : ∀ i, i < 16 → list_at s.mem (bucket s i) (F i) = true)
    (hnd : ∀ i, i < 16 → (F i).Nodup)
    (hbk : ∀ i, i < 16 → ∀ x ∈ F i, x ∈ hs ∧ GET_ALLOC s.mem (HDRP x) = 0 ∧
      find_index (GET_SIZE s.mem (HDRP x)) = i)
    (hfree : ∀ p ∈ hs, GET_ALLOC s.mem (HDRP p) = 0 → ∃ i, i < 16 ∧ p ∈ F i) :
    find_fit s size =
      some (spec_first_fit s.mem size (scan F (find_index size) (16 - find_index size))) ∧
    (find_fit s size = some 0 ↔
      ∀ p ∈ hs, GET_ALLOC s.mem (HDRP p) = 0 → sle size (GET_SIZE s.mem (HDRP p)) = false) := by
  have hidx := find_index_lt size
  have hwl := walk_length s.mem _ _ _ hw
  have hlen : ∀ j, j < 16 → (F j).length < s.brk - s.mem_start + 1 := by
    intro j hj
    have hsub : F j ⊆ hs := fun x hx => (hbk j hj x hx).1
    have := ((hnd j hj).subperm hsub).length_le
    simp only at hwl
    omega
  have hrun : find_fit s size =
      some (spec_first_fit s.mem size (scan F (find_index size) (16 - find_index size))) := by
    unfold find_fit BUCKETS
    exact find_fit_loop_spec s size _ F hF hlen _ _ (by omega)
  refine ⟨hrun, ?_⟩
  have hnz : ∀ x ∈ scan F (find_index size) (16 - find_index size), x ≠ 0 := by
    intro x hx
    obtain ⟨j, _, hj2, hxj⟩ := (mem_scan F _ _ x).mp hx
    exact list_at_ne_zero s.mem (F j) _ (hF j (by omega)) x hxj
  rw [hrun, Option.some.injEq, spec_first_fit_zero s.mem size _ hnz]
  constructor
  · intro hall p hp hfr
    obtain ⟨i, hi, hpi⟩ := hfree p hp hfr
    by_cases hge : find_index size ≤ i
    · have := hall p ((mem_scan F _ _ p).mpr ⟨i, hge, by omega, hpi⟩)
      unfold fits at this
      simpa [hfr] using this
    · cases hc : sle size (GET_SIZE s.mem (HDRP p)) with
      | false => rfl
      | true =>
        have := find_index_mono _ _ hc
        rw [(hbk i hi p hpi).2.2] at this
        omega
  · intro hall x hx
    obtain ⟨j, _, hj2, hxj⟩ := (mem_scan F _ _ x).mp hx
    obtain ⟨h1, h2, _⟩ := hbk j (by omega) x hxj
    unfold fits
    rw [hall x h1 h2]
    rfl

set_option maxRecDepth 100000
/-- C23, witness: the heap of run A after `free(LO + 160)` has the free blocks
`LO + 160` (16 bytes, list 4) and `LO + 192` (480 bytes, list 9); a search for
24 bytes starts at list 5. -/
theorem find_fit_first_fit_witness :
    find_fit runA4 24 =
      some (spec_first_fit runA4.mem 24
        (scan (fun i => if i = 4 then [LO + 160] else if i = 9 then [LO + 192] else [])
          (find_index 24) (16 - find_index 24))) ∧
    (find_fit runA4 24 = some 0 ↔
      ∀ p ∈ [LO + 144, LO + 160, LO + 176, LO + 192],
        GET_ALLOC runA4.mem (HDRP p) = 0 → sle 24 (GET_SIZE runA4.mem (HDRP p)) = false) :=
  find_fit_first_fit runA4 24
    (fun i => if i = 4 then [LO + 160] else if i = 9 then [LO + 192] else [])
    [LO + 144, LO + 160, LO + 176, LO + 192] (LO + 672)
    (by decide!) (by decide!) (by decide!) (by decide!) (by decide!)

end MM

namespace MM

/-! ## The stores of `pop_free` -/

theorem popMem_nxt (m : Mem) (sl bp sz prv nxt : Nat) (h0 : 4 ≤ bp + sz) (hn : nxt ≠ 0)
    (h4 : nxt + 8 ≤ bp + sz ∨ bp + sz ≤ nxt) :
    GET (popMem m sl bp sz prv nxt) nxt = encL prv := by
  unfold popMem
  simp only []
  rw [GET_PUT_ne _ _ _ _ (by omega), if_pos hn, GET_PUT_eq]
  exact Nat.mod_eq_of_lt (encL_lt _)

theorem encL_decL (v : Nat) (hv : v < 4294967296) : encL (decL v) = v := by
  unfold encL decL ref
  by_cases h : v = 4294967295
  · rw [if_pos h, if_pos rfl, h]
  · rw [if_neg h, if_neg (by omega)]
    omega

end MM

namespace MM

/-! ## The placement of a request in a free block -/

theorem Apart_of_mem (s : State) (bp S : Nat) (l : List Nat)
    (hA : ∀ x ∈ l, Apart s bp S x) (x : Nat) (hx : x = 0 ∨ x ∈ l) : Apart s bp S x := by
  rcases hx with hx | hx
  · exact Or.inl hx
  · exact hA x hx

end MM

namespace MM1

open MM

/-! ## The implicit-list variant: stores, tags and tilings -/

theorem put_ok (s : State) (p v : Nat) (h1 : s.mem_start ≤ p) (h2 : p + 4 ≤ s.mem_max) :
    put s p v = some { s with mem := PUT s.mem p v } := by
  unfold put
  rw [if_pos ⟨h1, h2⟩]

theorem put_none (s : State) (p v : Nat) (h : p < s.mem_start ∨ s.mem_max < p + 4) :
    put s p v = none := by
  unfold put
  rw [if_neg (by omega)]

theorem tag_size (m : Mem) (p sz al : Nat) (h : GET m p = sz + al) (h8 : sz % 8 = 0)
    (ha : al < 2) : GET_SIZE m p = sz ∧ GET_ALLOC m p = al := by
  rw [GET_SIZE_eq, GET_ALLOC_eq, h]
  omega

theorem HDRP_val (bp : Nat) (h : 4 ≤ bp) (h2 : bp < 18446744073709551616) :
    HDRP bp = bp - 4 := HDRP_eq bp h h2

theorem NEXT_val (m : Mem) (bp sz al : Nat) (hb : 4 ≤ bp) (h : GET m (bp - 4) = sz + al)
    (h8 : sz % 8 = 0) (ha : al < 2) (hs : sz < 2147483648)
    (h64 : bp + sz < 18446744073709551616) : NEXT_BLKP m bp = bp + sz := by
  unfold NEXT_BLKP
  rw [HDRP_eq bp hb (by omega), (tag_size m _ sz al h h8 ha).1, padd_eq _ _ hs h64]

theorem FTRP_val (m : Mem) (bp sz al : Nat) (hb : 4 ≤ bp) (h : GET m (bp - 4) = sz + al)
    (h8 : sz % 8 = 0) (ha : al < 2) (hs : sz < 2147483648) (h0 : 8 ≤ bp + sz)
    (h64 : bp + sz < 18446744073709551616) : FTRP m bp = bp + sz - 8 := by
  unfold FTRP
  rw [HDRP_eq bp hb (by omega), (tag_size m _ sz al h h8 ha).1, padd_eq _ _ hs h64,
    psub_eq _ _ (by decide) (by simp only [DSIZE]; omega) h64]
  rfl

theorem PREV_val (m : Mem) (bp psz pal : Nat) (hb : 8 ≤ bp) (h : GET m (bp - 8) = psz + pal)
    (h8 : psz % 8 = 0) (ha : pal < 2) (hs : psz < 2147483648) (hle : psz ≤ bp)
    (h64 : bp < 18446744073709551616) : PREV_BLKP m bp = bp - psz := by
  unfold PREV_BLKP
  rw [HDRP_eq bp (by omega) h64, psub_eq (bp - 4) WSIZE (by decide) (by simp only [WSIZE]; omega)
    (by omega)]
  have e : bp - 4 - WSIZE = bp - 8 := by simp only [WSIZE]; omega
  rw [e, (tag_size m _ psz pal h h8 ha).1, psub_eq _ _ hs hle h64]

theorem PACK0 (sz : Nat) : PACK sz 0 = sz := by
  unfold PACK; simp

theorem PACK1 (sz : Nat) (h8 : sz % 8 = 0) : PACK sz 1 = sz + 1 :=
  PACK_eq sz 1 h8 (by decide)

theorem total_append (X Y : List (Nat × Nat)) : total (X ++ Y) = total X + total Y := by
  induction X with
  | nil => simp [total]
  | cons b L ih => rw [List.cons_append, total, total, ih]; omega

theorem Tiles_append (m : Mem) (X Y : List (Nat × Nat)) :
    ∀ a, Tiles m a (X ++ Y) ↔ Tiles m a X ∧ Tiles m (a + total X) Y := by
  induction X with
  | nil => intro a; simp [Tiles, total]
  | cons b L ih =>
    intro a
    rw [List.cons_append, Tiles, Tiles, total, ih,
      show a + (b.1 + total L) = a + b.1 + total L by omega]
    tauto

theorem Tiles_frame (m m1 : Mem) (L : List (Nat × Nat)) :
    ∀ a, 4 ≤ a → (∀ q, a ≤ q + 4 → q + 8 ≤ a + total L → GET m1 q = GET m q) →
      Tiles m a L → Tiles m1 a L := by
  induction L with
  | nil => intro a _ _ _; trivial
  | cons b L ih =>
    intro a ha hq ht
    simp only [Tiles] at ht ⊢
    simp only [total] at hq
    obtain ⟨h1, h2, h3, h4, h5, h6⟩ := ht
    refine ⟨h1, h2, h3, ?_, ?_, ?_⟩
    · rw [hq _ (by omega) (by omega)]; exact h4
    · rw [hq _ (by omega) (by omega)]; exact h5
    · exact ih _ (by omega) (fun q h7 h8 => hq q (by omega) (by omega)) h6

theorem Tiles_total_mod (m : Mem) (L : List (Nat × Nat)) :
    ∀ a, Tiles m a L → total L % 8 = 0 := by
  induction L with
  | nil => intro a _; rfl
  | cons b L ih =>
    intro a ht
    simp only [Tiles] at ht
    have := ih _ ht.2.2.2.2.2
    simp only [total]
    omega

end MM1

namespace MM1

open MM

/-! ## The merge of free neighbours -/

theorem coalesce_reads (s : State) (bp sz psz pal nsz nal : Nat)
    (h : Around s bp sz psz pal nsz nal) :
    GET_ALLOC s.mem (HDRP (bp + sz)) = nal ∧
    GET_ALLOC s.mem (FTRP s.mem (bp - psz)) = pal ∧
    GET_SIZE s.mem (HDRP bp) = sz ∧
    PREV_BLKP s.mem bp = bp - psz ∧
    NEXT_BLKP s.mem bp = bp + sz ∧
    GET_SIZE s.mem (HDRP (bp - psz)) = psz ∧
    GET_SIZE s.mem (HDRP (bp + sz)) = nsz := by
  obtain ⟨b1, b2, b3, b4, b5, sz8, sz0, p8, p0, pa, n8, na, n0, hd, ft, pf, ph, nh⟩ := h
  have hsz : sz < 2147483648 := by omega
  have hn := NEXT_val s.mem bp sz 0 (by omega) hd sz8 (by decide) hsz (by omega)
  have hp := PREV_val s.mem bp psz pal (by omega) pf p8 pa (by omega) (by omega) (by omega)
  have e1 : HDRP (bp + sz) = bp + sz - 4 := HDRP_eq _ (by omega) (by omega)
  have e2 : HDRP (bp - psz) = bp - psz - 4 := HDRP_eq _ (by omega) (by omega)
  have e3 : HDRP bp = bp - 4 := HDRP_eq _ (by omega) (by omega)
  have hf := FTRP_val s.mem (bp - psz) psz pal (by omega) ph p8 pa (by omega) (by omega)
    (by omega)
  have e4 : bp - psz + psz - 8 = bp - 8 := by omega
  rw [hn, hp, hf, e1, e2, e3, e4]
  exact ⟨(tag_size _ _ _ _ nh n8 na).2, (tag_size _ _ _ _ pf p8 pa).2,
    (tag_size _ _ sz 0 hd sz8 (by decide)).1, rfl, rfl, (tag_size _ _ _ _ ph p8 pa).1,
    (tag_size _ _ _ _ nh n8 na).1⟩

theorem coalesce_case1 (s : State) (bp sz psz nsz : Nat)
    (h : Around s bp sz psz 1 nsz 1) : coalesce s bp = some (s, bp) := by
  obtain ⟨r1, r2, _, r4, r5, _⟩ := coalesce_reads s bp sz psz 1 nsz 1 h
  unfold coalesce
  simp only [r4, r5, r1, r2]
  rw [if_pos (by decide)]

theorem coalesce_case2 (s : State) (bp sz psz nsz : Nat)
    (h : Around s bp sz psz 0 nsz 1) :
    coalesce s bp = some ({ s with mem :=
      (PUT (PUT s.mem (bp - psz - 4) (psz + sz)) (bp + sz - 8) (psz + sz)) }, bp - psz) := by
  obtain ⟨r1, r2, r3, r4, r5, r6, r7⟩ := coalesce_reads s bp sz psz 0 nsz 1 h
  obtain ⟨b1, b2, b3, b4, b5, sz8, sz0, p8, p0, pa, n8, na, n0, hd, ft, pf, ph, nh⟩ := h
  simp only [if_neg (by decide : ¬ (1 = 0))] at b2
  unfold coalesce
  simp only [r4, r5, r1, r2, r3, r6]
  rw [if_neg (by decide), if_pos (by decide), HDRP_eq (bp - psz) (by omega) (by omega), PACK0,
    add32_eq _ _ (by omega), put_ok _ _ _ (by omega) (by omega), Option.some_bind]
  simp only []
  have g1 : GET (PUT s.mem (bp - psz - 4) (sz + psz)) (bp - 4) = sz := by
    rw [GET_PUT_ne _ _ _ _ (by omega)]; exact hd
  have g2 : GET (PUT (PUT s.mem (bp - psz - 4) (sz + psz)) (bp + sz - 8) (sz + psz)) (bp - 8) =
      psz + 0 := by
    rw [GET_PUT_ne _ _ _ _ (by omega), GET_PUT_ne _ _ _ _ (by omega)]; exact pf
  rw [FTRP_val _ bp sz 0 (by omega) g1 sz8 (by decide) (by omega) (by omega) (by omega),
    put_ok _ _ _ (by show s.mem_start ≤ _; omega) (by show _ ≤ s.mem_max; omega),
    Option.some_bind]
  simp only []
  rw [PREV_val _ bp psz 0 (by omega) g2 p8 (by decide) (by omega) (by omega) (by omega),
    Nat.add_comm sz psz]

theorem coalesce_case3 (s : State) (bp sz psz nsz : Nat)
    (h : Around s bp sz psz 1 nsz 0) :
    coalesce s bp = some ({ s with mem :=
      (PUT (PUT s.mem (bp - 4) (sz + nsz)) (bp + sz + nsz - 8) (sz + nsz)) }, bp) := by
  obtain ⟨r1, r2, r3, r4, r5, r6, r7⟩ := coalesce_reads s bp sz psz 1 nsz 0 h
  obtain ⟨b1, b2, b3, b4, b5, sz8, sz0, p8, p0, pa, n8, na, n0, hd, ft, pf, ph, nh⟩ := h
  simp only [if_pos] at b2
  have hn0 := n0 rfl
  unfold coalesce
  simp only [r4, r5, r1, r2, r3, r7]
  rw [if_neg (by decide), if_neg (by decide), if_pos (by decide),
    HDRP_eq bp (by omega) (by omega), PACK0,
    add32_eq _ _ (by omega), put_ok _ _ _ (by omega) (by omega), Option.some_bind]
  simp only []
  have g1 : GET (PUT s.mem (bp - 4) (sz + nsz)) (bp - 4) = (sz + nsz) + 0 := by
    rw [GET_PUT_eq]; exact Nat.mod_eq_of_lt (by omega)
  rw [FTRP_val _ bp (sz + nsz) 0 (by omega) g1 (by omega) (by decide) (by omega) (by omega)
    (by omega),
    put_ok _ _ _ (by show s.mem_start ≤ _; omega) (by show _ ≤ s.mem_max; omega),
    Option.some_bind]
  simp only []
  rw [show bp + (sz + nsz) - 8 = bp + sz + nsz - 8 by omega]

theorem coalesce_case4 (s : State) (bp sz psz nsz : Nat)
    (h : Around s bp sz psz 0 nsz 0) :
    coalesce s bp = some ({ s with mem :=
      (PUT (PUT s.mem (bp - psz - 4) (psz + sz + nsz)) (bp + sz + nsz - 8)
        (psz + sz + nsz)) }, bp - psz) := by
  obtain ⟨r1, r2, r3, r4, r5, r6, r7⟩ := coalesce_reads s bp sz psz 0 nsz 0 h
  obtain ⟨b1, b2, b3, b4, b5, sz8, sz0, p8, p0, pa, n8, na, n0, hd, ft, pf, ph, nh⟩ := h
  simp only [if_pos] at b2
  have hn0 := n0 rfl
  unfold coalesce
  simp only [r4, r5, r1, r2, r3, r6, r7]
  rw [if_neg (by decide), if_neg (by decide), if_neg (by decide),
    HDRP_eq (bp - psz) (by omega) (by omega), PACK0,
    add32_eq sz psz (by omega), add32_eq _ _ (by omega), put_ok _ _ _ (by omega) (by omega),
    Option.some_bind]
  simp only []
  have g1 : GET (PUT s.mem (bp - psz - 4) (sz + psz + nsz)) (bp - 4) = sz := by
    rw [GET_PUT_ne _ _ _ _ (by omega)]; exact hd
  have g3 : GET (PUT s.mem (bp - psz - 4) (sz + psz + nsz)) (bp + sz - 4) = nsz + 0 := by
    rw [GET_PUT_ne _ _ _ _ (by omega)]; exact nh
  have g2 : GET (PUT (PUT s.mem (bp - psz - 4) (sz + psz + nsz)) (bp + sz + nsz - 8)
      (sz + psz + nsz)) (bp - 8) = psz + 0 := by
    rw [GET_PUT_ne _ _ _ _ (by omega), GET_PUT_ne _ _ _ _ (by omega)]; exact pf
  rw [NEXT_val _ bp sz 0 (by omega) g1 sz8 (by decide) (by omega) (by omega),
    FTRP_val _ (bp + sz) nsz 0 (by omega) g3 n8 (by decide) (by omega) (by omega) (by omega),
    put_ok _ _ _ (by show s.mem_start ≤ _; omega) (by show _ ≤ s.mem_max; omega),
    Option.some_bind]
  simp only []
  rw [PREV_val _ bp psz 0 (by omega) g2 p8 (by decide) (by omega) (by omega) (by omega),
    show sz + psz + nsz = psz + sz + nsz by omega]

/-- What `coalesce` does, in one statement: the merged block starts `P` bytes
before `bp` and ends `N` bytes after the end of `bp`, its header and footer
hold the merged size, and no other word changes. -/
theorem coalesce_num (s : State) (bp sz psz pal nsz nal P N : Nat)
    (h : Around s bp sz psz pal nsz nal)
    (hP : P = if pal = 0 then psz else 0) (hN : N = if nal = 0 then nsz else 0) :
    ∃ m1, coalesce s bp = some ({ s with mem := m1 }, bp - P) ∧
      GET m1 (bp - P - 4) = P + sz + N ∧ GET m1 (bp + sz + N - 8) = P + sz + N ∧
      ∀ q, (q + 4 ≤ bp - P - 4 ∨ bp - P ≤ q) → (q + 8 ≤ bp + sz + N - 4 ∨ bp + sz + N - 4 ≤ q) →
        GET m1 q = GET s.mem q := by
  have hb := h.b1
  have hb2 := h.b2
  have hb3 := h.b3
  have hb4 := h.b4
  have hp0 := h.p0
  have hs0 := h.sz0
  have hpa := h.pa
  have hna := h.na
  have hn0 := h.n0
  by_cases hp : pal = 0 <;> by_cases hn : nal = 0
  · subst hp; subst hn
    rw [if_pos rfl] at hP hN hb2
    subst hP; subst hN
    have := hn0 rfl
    refine ⟨_, coalesce_case4 s bp sz P N h, ?_, ?_, ?_⟩
    · rw [GET_PUT_ne _ _ _ _ (by omega), GET_PUT_eq]; exact Nat.mod_eq_of_lt (by omega)
    · rw [GET_PUT_eq]; exact Nat.mod_eq_of_lt (by omega)
    · intro q h1 h2
      rw [GET_PUT_ne _ _ _ _ (by omega), GET_PUT_ne _ _ _ _ (by omega)]
  · have hn1 : nal = 1 := by omega
    subst hp; subst hn1
    rw [if_pos rfl] at hP
    rw [if_neg (by decide)] at hN hb2
    subst hP; subst hN
    simp only [Nat.add_zero] at hb2 ⊢
    refine ⟨_, coalesce_case2 s bp sz P nsz h, ?_, ?_, ?_⟩
    · rw [GET_PUT_ne _ _ _ _ (by omega), GET_PUT_eq]; exact Nat.mod_eq_of_lt (by omega)
    · rw [GET_PUT_eq]; exact Nat.mod_eq_of_lt (by omega)
    · intro q h1 h2
      rw [GET_PUT_ne _ _ _ _ (by omega), GET_PUT_ne _ _ _ _ (by omega)]
  · have hp1 : pal = 1 := by omega
    subst hp1; subst hn
    rw [if_neg (by decide)] at hP
    rw [if_pos rfl] at hN hb2
    subst hP; subst hN
    have := hn0 rfl
    simp only [Nat.sub_zero, Nat.zero_add]
    refine ⟨_, coalesce_case3 s bp sz psz N h, ?_, ?_, ?_⟩
    · rw [GET_PUT_ne _ _ _ _ (by omega), GET_PUT_eq]
      exact Nat.mod_eq_of_lt (by omega)
    · rw [GET_PUT_eq]
      exact Nat.mod_eq_of_lt (by omega)
    · intro q h1 h2
      rw [GET_PUT_ne _ _ _ _ (by omega), GET_PUT_ne _ _ _ _ (by omega)]
  · have hp1 : pal = 1 := by omega
    have hn1 : nal = 1 := by omega
    subst hp1; subst hn1
    rw [if_neg (by decide)] at hP hN
    subst hP; subst hN
    refine ⟨s.mem, ?_, ?_, ?_, ?_⟩
    · rw [coalesce_case1 s bp sz psz nsz h]
      rfl
    · simp only [Nat.sub_zero, Nat.zero_add, Nat.add_zero]; exact h.hd
    · simp only [Nat.sub_zero, Nat.zero_add, Nat.add_zero]; exact h.ft
    · intro q _ _; rfl

end MM1

namespace MM1

open MM

/-! ## Lists of blocks -/

theorem prevOf_nil : prevOf [] = (8, 1) := rfl

theorem prevOf_concat (X : List (Nat × Nat)) (b : Nat × Nat) : prevOf (X ++ [b]) = b := by
  unfold prevOf
  rw [List.getLast?_concat]
  rfl

theorem total_mem_le (L : List (Nat × Nat)) (b : Nat × Nat) (hb : b ∈ L) :
    b.1 ≤ total L := by
  induction L with
  | nil => simp at hb
  | cons c L ih =>
    simp only [total]
    rcases List.mem_cons.mp hb with h | h
    · subst h; omega
    · have := ih h; omega

/-- The block before: its tags, and the blocks that stay when it is merged. -/
theorem before_facts (m : Mem) (a : Nat) (X : List (Nat × Nat)) (ha : 4 ≤ a)
    (ht : Tiles m a ((8, 1) :: X)) :
    8 ≤ (prevOf X).1 ∧ (prevOf X).1 % 8 = 0 ∧ (prevOf X).2 < 2 ∧
    (prevOf X).1 ≤ total X + 8 ∧
    GET m (a + 8 + total X - 8) = (prevOf X).1 + (prevOf X).2 ∧
    GET m (a + 8 + total X - (prevOf X).1 - 4) = (prevOf X).1 + (prevOf X).2 ∧
    Tiles m a ((8, 1) :: (if (prevOf X).2 = 0 then X.dropLast else X)) ∧
    total (if (prevOf X).2 = 0 then X.dropLast else X) +
      (if (prevOf X).2 = 0 then (prevOf X).1 else 0) = total X := by
  rcases List.eq_nil_or_concat X with h | ⟨X0, b, h⟩
  · subst h
    simp only [Tiles] at ht
    rw [prevOf_nil]
    refine ⟨by omega, by omega, by omega, by omega, ?_, ?_, ?_, ?_⟩
    · refine Eq.trans (congrArg (GET m) ?_) ht.2.2.2.2.1
      simp only [total]
    · refine Eq.trans (congrArg (GET m) ?_) ht.2.2.2.1
      simp only [total]; omega
    · rw [if_neg (by decide)]
      simp only [Tiles]
      exact ht
    · rw [if_neg (by decide), if_neg (by decide)]; rfl
  · rw [List.concat_eq_append] at h
    subst h
    rw [prevOf_concat]
    have ht2 : Tiles m a (((8, 1) :: X0) ++ [b]) := ht
    rw [Tiles_append] at ht2
    obtain ⟨h1, h2⟩ := ht2
    simp only [Tiles, total] at h2
    rw [total_append]
    obtain ⟨g1, g2, g3, g4, g5, _⟩ := h2
    refine ⟨g1, g2, g3, by simp only [total]; omega, ?_, ?_, ?_, ?_⟩
    · refine Eq.trans (congrArg (GET m) ?_) g5
      simp only [total]; omega
    · refine Eq.trans (congrArg (GET m) ?_) g4
      simp only [total]; omega
    · by_cases hb : b.2 = 0
      · rw [if_pos hb, List.dropLast_concat]; exact h1
      · rw [if_neg hb]; exact ht
    · by_cases hb : b.2 = 0
      · rw [if_pos hb, if_pos hb, List.dropLast_concat]; simp only [total]; omega
      · rw [if_neg hb, if_neg hb, total_append]; simp only [total]; omega

/-- The block after: its header, and the blocks that stay when it is merged. -/
theorem after_facts (m : Mem) (c : Nat) (Y : List (Nat × Nat))
    (ht : Tiles m c Y) (hepi : GET m (c + total Y - 4) = 1) :
    (nextOf Y).1 % 8 = 0 ∧ (nextOf Y).2 < 2 ∧ ((nextOf Y).2 = 0 → 8 ≤ (nextOf Y).1) ∧
    GET m (c - 4) = (nextOf Y).1 + (nextOf Y).2 ∧
    Tiles m (c + (if (nextOf Y).2 = 0 then (nextOf Y).1 else 0))
      (if (nextOf Y).2 = 0 then Y.tail else Y) ∧
    total (if (nextOf Y).2 = 0 then Y.tail else Y) +
      (if (nextOf Y).2 = 0 then (nextOf Y).1 else 0) = total Y := by
  cases Y with
  | nil =>
    simp only [total, Nat.add_zero] at hepi
    have e : nextOf [] = (0, 1) := rfl
    rw [e]
    refine ⟨by decide, by decide, by decide, hepi, ?_, ?_⟩
    · rw [if_neg (by decide), if_neg (by decide)]; trivial
    · rw [if_neg (by decide), if_neg (by decide)]; rfl
  | cons b Y0 =>
    have e : nextOf (b :: Y0) = b := rfl
    rw [e]
    have ht2 := ht
    simp only [Tiles] at ht2
    obtain ⟨g1, g2, g3, g4, g5, g6⟩ := ht2
    refine ⟨g2, g3, fun _ => g1, g4, ?_, ?_⟩
    · by_cases hb : b.2 = 0
      · rw [if_pos hb, if_pos hb]; exact g6
      · rw [if_neg hb, if_neg hb]; exact ht
    · by_cases hb : b.2 = 0
      · rw [if_pos hb, if_pos hb]; simp only [List.tail_cons, total]; omega
      · rw [if_neg hb, if_neg hb]; rfl

theorem merged_tiles (m m1 : Mem) (a bp P sz N : Nat) (F Y1 : List (Nat × Nat))
    (ha : 4 ≤ a) (hF : Tiles m a F) (hY : Tiles m (bp + sz + N) Y1)
    (hbp : a + total F = bp - P) (hP : P ≤ bp) (h8 : (P + sz + N) % 8 = 0) (hs : 8 ≤ sz)
    (g1 : GET m1 (bp - P - 4) = P + sz + N) (g2 : GET m1 (bp + sz + N - 8) = P + sz + N)
    (fr : ∀ q, (q + 4 ≤ bp - P - 4 ∨ bp - P ≤ q) →
      (q + 8 ≤ bp + sz + N - 4 ∨ bp + sz + N - 4 ≤ q) → GET m1 q = GET m q) :
    Tiles m1 a (F ++ (P + sz + N, 0) :: Y1) := by
  rw [Tiles_append]
  refine ⟨Tiles_frame m m1 F a ha (fun q h1 h2 => fr q (by omega) (by omega)) hF, ?_⟩
  rw [hbp]
  simp only [Tiles]
  refine ⟨by omega, h8, by decide, g1, ?_, ?_⟩
  · rw [show bp - P + (P + sz + N) - 8 = bp + sz + N - 8 by omega]; exact g2
  · rw [show bp - P + (P + sz + N) = bp + sz + N by omega]
    exact Tiles_frame m m1 Y1 _ (by omega) (fun q h1 h2 => fr q (by omega) (by omega)) hY

/-- The merge `coalesce` makes, on the list of blocks: the free block of size
`sz` between `X` and `Y` is merged with its free neighbours, and the result
is the handle of the merged block. -/
theorem coalesce_list (s : State) (X Y : List (Nat × Nat)) (sz : Nat)
    (hroom : s.brk ≤ s.mem_max) (hsmall : s.mem_max ≤ s.mem_start + 2147483648)
    (haddr : s.mem_max < 18446744073709551616)
    (htop : s.brk = s.mem_start + 16 + total (X ++ (sz, 0) :: Y))
    (ht : Tiles s.mem (s.mem_start + 8) ((8, 1) :: (X ++ (sz, 0) :: Y)))
    (hepi : GET s.mem (s.brk - 4) = 1) :
    ∃ m1, coalesce s (s.mem_start + 16 + total X) = some ({ s with mem := m1 },
        s.mem_start + 16 + total (if (prevOf X).2 = 0 then X.dropLast else X)) ∧
      Tiles m1 (s.mem_start + 8) ((8, 1) :: mergeL X sz Y) ∧ GET m1 (s.brk - 4) = 1 ∧
      total (mergeL X sz Y) = total (X ++ (sz, 0) :: Y) := by
  have ht2 : Tiles s.mem (s.mem_start + 8) (((8, 1) :: X) ++ (sz, 0) :: Y) := ht
  rw [Tiles_append] at ht2
  obtain ⟨hX, hB⟩ := ht2
  have eb : s.mem_start + 8 + total ((8, 1) :: X) = s.mem_start + 16 + total X := by
    simp only [total]; omega
  rw [eb] at hB
  rw [total_append] at htop
  simp only [Tiles, total] at hB htop
  obtain ⟨s0, s8, _, hd, ft, hY⟩ := hB
  obtain ⟨p0, p8, pa, ple, pf, ph, hX1, hXt⟩ := before_facts s.mem _ X (by omega) hX
  obtain ⟨n8, na, n0, nh, hY1, hYt⟩ := after_facts s.mem _ Y hY (by rw [← hepi, htop]; congr 1; omega)
  generalize hP : (if (prevOf X).2 = 0 then (prevOf X).1 else 0) = P at hXt
  generalize hN : (if (nextOf Y).2 = 0 then (nextOf Y).1 else 0) = N at hYt hY1
  generalize hX1d : (if (prevOf X).2 = 0 then X.dropLast else X) = X1 at hXt hX1
  generalize hY1d : (if (nextOf Y).2 = 0 then Y.tail else Y) = Y1 at hYt hY1
  have hP8 : P % 8 = 0 := by rw [← hP]; split <;> omega
  have hN8 : N % 8 = 0 := by rw [← hN]; split <;> omega
  have har : Around s (s.mem_start + 16 + total X) sz (prevOf X).1 (prevOf X).2
      (nextOf Y).1 (nextOf Y).2 :=
    ⟨by omega, by rw [hN]; omega, hroom, hsmall, haddr, s8, s0, p8, p0, pa, n8, na, n0,
      by rw [← Nat.add_zero sz]; exact hd, by rw [← Nat.add_zero sz]; exact ft,
      (congrArg (GET s.mem) (by omega)).trans pf, (congrArg (GET s.mem) (by omega)).trans ph, nh⟩
  obtain ⟨m1, hc, g1, g2, fr⟩ := coalesce_num s _ sz _ _ _ _ P N har hP.symm hN.symm
  have e1 : s.mem_start + 16 + total X - P = s.mem_start + 16 + total X1 := by omega
  have hm : mergeL X sz Y = X1 ++ (P + sz + N, 0) :: Y1 := by
    unfold mergeL; rw [hP, hN, hX1d, hY1d]
  refine ⟨m1, by rw [hc, e1], ?_, ?_, ?_⟩
  · rw [hm]
    exact merged_tiles s.mem m1 (s.mem_start + 8) (s.mem_start + 16 + total X) P sz N
      ((8, 1) :: X1) Y1 (by omega) hX1 hY1 (by simp only [total]; omega) (by omega) (by omega) s0
      g1 g2 fr
  · rw [fr _ (by omega) (by omega)]; exact hepi
  · rw [hm, total_append, total_append]; simp only [total]; omega

end MM1

namespace MM1

open MM

/-! ## Neighbouring free blocks, on lists -/

theorem NoAdj_append (X Y : List (Nat × Nat)) :
    NoAdj (X ++ Y) ↔ NoAdj X ∧ NoAdj Y ∧
      ∀ x ∈ X.getLast?, ∀ y ∈ Y.head?, x.2 ≠ 0 ∨ y.2 ≠ 0 := by
  unfold NoAdj
  exact List.chain'_append

theorem NoAdj_cons (b : Nat × Nat) (Y : List (Nat × Nat)) :
    NoAdj (b :: Y) ↔ (∀ y ∈ Y.head?, b.2 ≠ 0 ∨ y.2 ≠ 0) ∧ NoAdj Y := by
  unfold NoAdj
  exact List.chain'_cons'

theorem NoAdj_mid (X Y : List (Nat × Nat)) (b : Nat × Nat) :
    NoAdj (X ++ b :: Y) ↔ NoAdj X ∧ NoAdj Y ∧
      (∀ x ∈ X.getLast?, x.2 ≠ 0 ∨ b.2 ≠ 0) ∧ (∀ y ∈ Y.head?, b.2 ≠ 0 ∨ y.2 ≠ 0) := by
  rw [NoAdj_append, NoAdj_cons]
  simp only [List.head?_cons, Option.mem_def, Option.some.injEq, forall_eq']
  tauto

/-- An allocated block may stand anywhere. -/
theorem NoAdj_alloc (X Y : List (Nat × Nat)) (b : Nat × Nat) (hb : b.2 ≠ 0)
    (hX : NoAdj X) (hY : NoAdj Y) : NoAdj (X ++ b :: Y) := by
  rw [NoAdj_mid]
  exact ⟨hX, hY, fun _ _ => Or.inr hb, fun _ _ => Or.inl hb⟩

theorem NoAdj_merge (X Y : List (Nat × Nat)) (sz : Nat) (hX : NoAdj X) (hY : NoAdj Y) :
    NoAdj (mergeL X sz Y) := by
  unfold mergeL
  rw [NoAdj_mid]
  refine ⟨?_, ?_, ?_, ?_⟩
  · split
    · exact List.Chain'.prefix hX ( List.dropLast_prefix X)
    · exact hX
  · split
    · exact List.Chain'.suffix hY (List.tail_suffix Y)
    · exact hY
  · rcases List.eq_nil_or_concat X with h | ⟨X0, b, h⟩
    · subst h
      intro x hx
      rw [prevOf_nil, if_neg (by decide)] at hx
      simp at hx
    · rw [List.concat_eq_append] at h
      subst h
      rw [prevOf_concat]
      intro x hx
      left
      by_cases hb : b.2 = 0
      · rw [if_pos hb, List.dropLast_concat] at hx
        have := ((NoAdj_append X0 [b]).mp hX).2.2 x hx b rfl
        rcases this with h | h
        · exact h
        · exact absurd hb h
      · rw [if_neg hb, List.getLast?_concat] at hx
        cases hx
        exact hb
  · cases Y with
    | nil =>
      intro y hy
      have e : nextOf [] = (0, 1) := rfl
      rw [e, if_neg (by decide)] at hy
      simp at hy
    | cons b Y0 =>
      have e : nextOf (b :: Y0) = b := rfl
      rw [e]
      intro y hy
      right
      by_cases hb : b.2 = 0
      · rw [if_pos hb, List.tail_cons] at hy
        have := ((NoAdj_cons b Y0).mp hY).1 y hy
        rcases this with h | h
        · exact absurd hb h
        · exact h
      · rw [if_neg hb] at hy
        cases hy
        exact hb

end MM1

namespace MM1

open MM

/-! ## `free` keeps the heap -/

/-- A block may be replaced by blocks that fill its bytes. -/
theorem Tiles_replace (m m1 : Mem) (a : Nat) (F Y B : List (Nat × Nat)) (b : Nat × Nat)
    (ha : 4 ≤ a) (h : Tiles m a (F ++ b :: Y)) (hB : Tiles m1 (a + total F) B)
    (ht : total B = b.1)
    (fr : ∀ q, q + 8 ≤ a + total F ∨ a + total F + b.1 ≤ q + 4 → GET m1 q = GET m q) :
    Tiles m1 a (F ++ (B ++ Y)) := by
  rw [Tiles_append] at h
  obtain ⟨hF, hY⟩ := h
  simp only [Tiles] at hY
  rw [Tiles_append, Tiles_append, ht]
  refine ⟨Tiles_frame m m1 F a ha (fun q _ h2 => fr q (Or.inl h2)) hF, hB, ?_⟩
  exact Tiles_frame m m1 Y _ (by omega) (fun q h1 _ => fr q (Or.inr (by omega))) hY.2.2.2.2.2

theorem Inv_block (s : State) (X Y : List (Nat × Nat)) (b : Nat × Nat)
    (h : Inv s (X ++ b :: Y)) :
    8 ≤ b.1 ∧ b.1 % 8 = 0 ∧ b.2 < 2 ∧
    GET s.mem (s.mem_start + 16 + total X - 4) = b.1 + b.2 ∧
    GET s.mem (s.mem_start + 16 + total X + b.1 - 8) = b.1 + b.2 ∧
    s.mem_start + 16 + total X + b.1 + total Y = s.brk ∧
    s.brk ≤ s.mem_max ∧ s.mem_max ≤ s.mem_start + 2147483648 ∧
    s.mem_max < 18446744073709551616 := by
  have ht : Tiles s.mem (s.mem_start + 8) (((8, 1) :: X) ++ b :: Y) := h.tiles
  rw [Tiles_append] at ht
  have e : s.mem_start + 8 + total ((8, 1) :: X) = s.mem_start + 16 + total X := by
    simp only [total]; omega
  rw [e] at ht
  have h2 := ht.2
  simp only [Tiles] at h2
  have htop := h.top
  rw [total_append] at htop
  simp only [total] at htop
  exact ⟨h2.1, h2.2.1, h2.2.2.1, h2.2.2.2.1, h2.2.2.2.2.1, by omega, h.room, h.small, h.addr⟩

/-- The header and the footer of a block rewritten with another allocated bit. -/
theorem retag (s : State) (X Y : List (Nat × Nat)) (b : Nat × Nat) (al : Nat) (hal : al < 2)
    (h : Inv s (X ++ b :: Y)) (m2 : Mem)
    (hm2 : m2 = PUT (PUT s.mem (s.mem_start + 16 + total X - 4) (b.1 + al))
      (s.mem_start + 16 + total X + b.1 - 8) (b.1 + al)) :
    Tiles m2 (s.mem_start + 8) ((8, 1) :: (X ++ (b.1, al) :: Y)) ∧ GET m2 (s.brk - 4) = 1 := by
  obtain ⟨h1, h2, h3, h4, h5, h6, h7, h8, h9⟩ := Inv_block s X Y b h
  have hepi := h.epi
  have e : s.mem_start + 8 + total ((8, 1) :: X) = s.mem_start + 16 + total X := by
    simp only [total]; omega
  subst hm2
  constructor
  · have := Tiles_replace s.mem (PUT (PUT s.mem (s.mem_start + 16 + total X - 4) (b.1 + al))
      (s.mem_start + 16 + total X + b.1 - 8) (b.1 + al)) (s.mem_start + 8) ((8, 1) :: X) Y
      [(b.1, al)] b (by omega) h.tiles
      (by rw [e]; simp only [Tiles]
          refine ⟨h1, h2, hal, ?_, ?_, trivial⟩
          · rw [GET_PUT_ne _ _ _ _ (by omega), GET_PUT_eq]; exact Nat.mod_eq_of_lt (by omega)
          · rw [GET_PUT_eq]; exact Nat.mod_eq_of_lt (by omega))
      (by simp only [total]; omega)
      (by intro q hq
          rw [e] at hq
          rw [GET_PUT_ne _ _ _ _ (by omega), GET_PUT_ne _ _ _ _ (by omega)])
    exact this
  · rw [GET_PUT_ne _ _ _ _ (by omega), GET_PUT_ne _ _ _ _ (by omega)]; exact hepi

theorem free_inv (s : State) (X Y : List (Nat × Nat)) (sz : Nat)
    (h : Inv s (X ++ (sz, 1) :: Y)) :
    ∃ s1, free s (s.mem_start + 16 + total X) = some s1 ∧ Inv s1 (mergeL X sz Y) := by
  obtain ⟨h1, h2, h3, h4, h5, h6, h7, h8, h9⟩ := Inv_block s X Y (sz, 1) h
  simp only at h1 h2 h4 h5 h6
  obtain ⟨t1, t2⟩ := retag s X Y (sz, 1) 0 (by decide) h _ rfl
  simp only [Nat.add_zero] at t1 t2
  generalize hm2 : PUT (PUT s.mem (s.mem_start + 16 + total X - 4) sz)
      (s.mem_start + 16 + total X + sz - 8) sz = m2 at t1 t2
  have htop : s.brk = s.mem_start + 16 + total (X ++ (sz, 0) :: Y) := by
    rw [total_append]; simp only [total]; omega
  obtain ⟨m3, hc, c1, c2, c3⟩ := coalesce_list { s with mem := m2 } X Y sz h7 h8 h9 htop t1 t2
  have hn := (NoAdj_mid X Y (sz, 1)).mp h.noadj
  refine ⟨{ s with mem := m3 }, ?_, ⟨h.hs, ?_, h7, h8, h9, c1, c2, NoAdj_merge X Y sz hn.1 hn.2.1⟩⟩
  · unfold free
    rw [if_neg (by omega)]
    simp only []
    rw [HDRP_eq _ (by omega) (by omega), (tag_size s.mem _ sz 1 h4 h2 (by decide)).1, PACK0,
      put_ok _ _ _ (by omega) (by omega), Option.some_bind]
    simp only []
    have g1 : GET (PUT s.mem (s.mem_start + 16 + total X - 4) sz)
        (s.mem_start + 16 + total X - 4) = sz + 0 := by
      rw [GET_PUT_eq]; exact Nat.mod_eq_of_lt (by omega)
    rw [FTRP_val _ _ sz 0 (by omega) g1 h2 (by decide) (by omega) (by omega) (by omega),
      put_ok _ _ _ (by show s.mem_start ≤ _; omega) (by show _ ≤ s.mem_max; omega),
      Option.some_bind]
    simp only []
    rw [hm2]
    exact (congrArg (fun r => Option.bind r fun r => some r.1) hc).trans rfl
  · show s.brk = s.mem_start + 16 + total (mergeL X sz Y)
    rw [c3]; exact htop

end MM1

namespace MM1

open MM

/-! ## `place` -/

/-- The stores of `place` when the block is split. -/
theorem place_split_run (s : State) (bp S N : Nat)
    (h1 : s.mem_start + 16 ≤ bp) (h2 : bp + S ≤ s.mem_max)
    (h3 : s.mem_max ≤ s.mem_start + 2147483648) (h4 : s.mem_max < 18446744073709551616)
    (hS : GET s.mem (bp - 4) = S) (hS8 : S % 8 = 0)
    (hN : 8 ≤ N ∧ N % 8 = 0 ∧ N < S) :
    place s bp N = some { s with mem := (PUT (PUT (PUT (PUT s.mem (bp - 4) (N + 1))
      (bp + N - 8) (N + 1)) (bp + N - 4) (S - N)) (bp + S - 8) (S - N)) } := by
  have e1 : HDRP bp = bp - 4 := HDRP_eq _ (by omega) (by omega)
  have hs := tag_size s.mem _ S 0 hS hS8 (by decide)
  unfold place
  rw [e1, hs.1, hs.2, if_neg (by
    intro h
    rcases h with h | h
    · exact h rfl
    · rw [slt_iff _ _ (by omega) (by omega)] at h; omega)]
  simp only []
  rw [PACK1 N hN.2.1, sub32_eq _ _ (by omega) (by omega), PACK0,
    put_ok _ _ _ (by omega) (by omega), Option.some_bind]
  simp only []
  have g1 : GET (PUT s.mem (bp - 4) (N + 1)) (bp - 4) = N + 1 := by
    rw [GET_PUT_eq]; exact Nat.mod_eq_of_lt (by omega)
  rw [FTRP_val _ bp N 1 (by omega) g1 hN.2.1 (by decide) (by omega) (by omega) (by omega),
    put_ok _ _ _ (by show s.mem_start ≤ _; omega) (by show _ ≤ s.mem_max; omega),
    Option.some_bind]
  simp only []
  rw [if_pos (by rw [slt_iff _ _ (by omega) (by omega)]; omega)]
  have g2 : GET (PUT (PUT s.mem (bp - 4) (N + 1)) (bp + N - 8) (N + 1)) (bp - 4) = N + 1 := by
    rw [GET_PUT_ne _ _ _ _ (by omega)]; exact g1
  rw [NEXT_val _ bp N 1 (by omega) g2 hN.2.1 (by decide) (by omega) (by omega),
    HDRP_eq _ (by omega) (by omega),
    put_ok _ _ _ (by show s.mem_start ≤ _; omega) (by show _ ≤ s.mem_max; omega),
    Option.some_bind]
  simp only []
  have g3 : GET (PUT (PUT (PUT s.mem (bp - 4) (N + 1)) (bp + N - 8) (N + 1)) (bp + N - 4)
      (S - N)) (bp - 4) = N + 1 := by
    rw [GET_PUT_ne _ _ _ _ (by omega)]; exact g2
  have g4 : GET (PUT (PUT (PUT s.mem (bp - 4) (N + 1)) (bp + N - 8) (N + 1)) (bp + N - 4)
      (S - N)) (bp + N - 4) = (S - N) + 0 := by
    rw [GET_PUT_eq]; exact Nat.mod_eq_of_lt (by omega)
  rw [NEXT_val _ bp N 1 (by omega) g3 hN.2.1 (by decide) (by omega) (by omega),
    FTRP_val _ (bp + N) (S - N) 0 (by omega) g4 (by omega) (by decide) (by omega) (by omega)
      (by omega),
    put_ok _ _ _ (by show s.mem_start ≤ _; omega) (by show _ ≤ s.mem_max; omega)]
  simp only []
  rw [show bp + N + (S - N) - 8 = bp + S - 8 by omega]

/-- The stores of `place` when the whole block is used. -/
theorem place_whole_run (s : State) (bp S : Nat)
    (h1 : s.mem_start + 16 ≤ bp) (h2 : bp + S ≤ s.mem_max)
    (h3 : s.mem_max ≤ s.mem_start + 2147483648) (h4 : s.mem_max < 18446744073709551616)
    (hS : GET s.mem (bp - 4) = S) (hS8 : S % 8 = 0) (h8 : 8 ≤ S) :
    place s bp S = some { s with mem := (PUT (PUT s.mem (bp - 4) (S + 1))
      (bp + S - 8) (S + 1)) } := by
  have e1 : HDRP bp = bp - 4 := HDRP_eq _ (by omega) (by omega)
  have hs := tag_size s.mem _ S 0 hS hS8 (by decide)
  unfold place
  rw [e1, hs.1, hs.2, if_neg (by
    intro h
    rcases h with h | h
    · exact h rfl
    · rw [slt_iff _ _ (by omega) (by omega)] at h; omega)]
  simp only []
  rw [PACK1 S hS8, sub32_eq _ _ (by omega) (by omega),
    put_ok _ _ _ (by omega) (by omega), Option.some_bind]
  simp only []
  have g1 : GET (PUT s.mem (bp - 4) (S + 1)) (bp - 4) = S + 1 := by
    rw [GET_PUT_eq]; exact Nat.mod_eq_of_lt (by omega)
  rw [FTRP_val _ bp S 1 (by omega) g1 hS8 (by decide) (by omega) (by omega) (by omega),
    put_ok _ _ _ (by show s.mem_start ≤ _; omega) (by show _ ≤ s.mem_max; omega),
    Option.some_bind]
  simp only []
  rw [Nat.sub_self, if_neg (by decide)]

/-- A request whose adjusted size is `INT_MIN` or `INT_MIN + 8`: the footer
store of `place` falls outside the arena. -/
theorem place_bad (s : State) (bp S N : Nat)
    (h1 : s.mem_start + 16 ≤ bp) (h2 : bp + S ≤ s.mem_max)
    (h3 : s.mem_max ≤ s.mem_start + 2147483648) (h4 : s.mem_max < 18446744073709551616)
    (hS : GET s.mem (bp - 4) = S) (hS8 : S % 8 = 0) (h8 : 8 ≤ S)
    (hN : N = 2147483648 ∨ N = 2147483656) :
    place s bp N = none := by
  have e1 : HDRP bp = bp - 4 := HDRP_eq _ (by omega) (by omega)
  have hs := tag_size s.mem _ S 0 hS hS8 (by decide)
  unfold place
  rw [e1, hs.1, hs.2, if_neg (by
    intro h
    rcases h with h | h
    · exact h rfl
    · unfold slt at h; simp only [decide_eq_true_eq] at h; omega)]
  simp only []
  rw [PACK1 N (by omega), put_ok _ _ _ (by omega) (by omega), Option.some_bind]
  simp only []
  have g1 : GET_SIZE (PUT s.mem (bp - 4) (N + 1)) (bp - 4) = N := by
    rw [GET_SIZE_eq, GET_PUT_eq]; omega
  have hf : FTRP (PUT s.mem (bp - 4) (N + 1)) bp < s.mem_start ∨
      s.mem_max < FTRP (PUT s.mem (bp - 4) (N + 1)) bp + 4 := by
    unfold FTRP
    rw [e1, g1]
    have x1 : sext 2147483648 = 18446744071562067968 := by unfold sext; norm_num
    have x2 : sext 2147483656 = 18446744071562067976 := by unfold sext; norm_num
    have x3 : sext DSIZE = 8 := by unfold sext DSIZE; norm_num
    unfold psub padd
    rcases hN with h | h
    · rw [h, x1, x3]; omega
    · rw [h, x2, x3]; omega
  rw [put_none _ _ _ (by exact hf)]
  rfl

theorem place_inv (s : State) (X Y : List (Nat × Nat)) (S N : Nat)
    (h : Inv s (X ++ (S, 0) :: Y)) (hN : 8 ≤ N ∧ N % 8 = 0 ∧ N ≤ S) :
    ∃ s1 R, place s (s.mem_start + 16 + total X) N = some s1 ∧
      Inv s1 (X ++ (N, 1) :: (R ++ Y)) ∧ N + total R = S ∧ s1.mem_start = s.mem_start := by
  obtain ⟨h1, h2, h3, h4, h5, h6, h7, h8, h9⟩ := Inv_block s X Y (S, 0) h
  simp only [Nat.add_zero] at h1 h2 h4 h5 h6
  have hepi := h.epi
  have hn := (NoAdj_mid X Y (S, 0)).mp h.noadj
  have e : s.mem_start + 8 + total ((8, 1) :: X) = s.mem_start + 16 + total X := by
    simp only [total]; omega
  by_cases hNS : N = S
  · subst hNS
    refine ⟨_, [], place_whole_run s _ N (by omega) (by omega) h8 h9 h4 h2 h1,
      ⟨h.hs, ?_, h7, h8, h9, ?_, ?_, ?_⟩, rfl, rfl⟩
    · show s.brk = _
      rw [h.top, total_append, total_append]; rfl
    · exact (retag s X Y (N, 0) 1 (by decide) h _ rfl).1
    · exact (retag s X Y (N, 0) 1 (by decide) h _ rfl).2
    · exact NoAdj_alloc X _ (N, 1) Nat.one_ne_zero hn.1 hn.2.1
  · refine ⟨_, [(S - N, 0)], place_split_run s _ S N (by omega) (by omega) h8 h9 h4 h2
      ⟨hN.1, hN.2.1, by omega⟩, ⟨h.hs, ?_, h7, h8, h9, ?_, ?_, ?_⟩, by simp only [total]; omega,
      rfl⟩
    · show s.brk = s.mem_start + 16 + total (X ++ (N, 1) :: (S - N, 0) :: Y)
      rw [h.top, total_append, total_append]; simp only [total]
      omega
    · have := Tiles_replace s.mem (PUT (PUT (PUT (PUT s.mem (s.mem_start + 16 + total X - 4)
        (N + 1)) (s.mem_start + 16 + total X + N - 8) (N + 1))
        (s.mem_start + 16 + total X + N - 4) (S - N)) (s.mem_start + 16 + total X + S - 8)
        (S - N)) (s.mem_start + 8) ((8, 1) :: X) Y [(N, 1), (S - N, 0)] (S, 0) (by omega)
        h.tiles
        (by rw [e]; simp only [Tiles]
            refine ⟨hN.1, hN.2.1, by decide, ?_, ?_, by omega, by omega, by decide, ?_, ?_,
              trivial⟩
            · rw [GET_PUT_ne _ _ _ _ (by omega), GET_PUT_ne _ _ _ _ (by omega),
                GET_PUT_ne _ _ _ _ (by omega), GET_PUT_eq]
              exact Nat.mod_eq_of_lt (by omega)
            · rw [GET_PUT_ne _ _ _ _ (by omega), GET_PUT_ne _ _ _ _ (by omega), GET_PUT_eq]
              exact Nat.mod_eq_of_lt (by omega)
            · rw [GET_PUT_ne _ _ _ _ (by omega), GET_PUT_eq]
              exact Nat.mod_eq_of_lt (by omega)
            · rw [show s.mem_start + 16 + total X + N + (S - N) - 8 =
                s.mem_start + 16 + total X + S - 8 by omega, GET_PUT_eq]
              exact Nat.mod_eq_of_lt (by omega))
        (by simp only [total]; omega)
        (by intro q hq
            rw [e] at hq
            simp only at hq
            rw [GET_PUT_ne _ _ _ _ (by omega), GET_PUT_ne _ _ _ _ (by omega),
              GET_PUT_ne _ _ _ _ (by omega), GET_PUT_ne _ _ _ _ (by omega)])
      exact this
    · show GET _ (s.brk - 4) = 1
      rw [GET_PUT_ne _ _ _ _ (by omega), GET_PUT_ne _ _ _ _ (by omega),
        GET_PUT_ne _ _ _ _ (by omega), GET_PUT_ne _ _ _ _ (by omega)]
      exact hepi
    · apply NoAdj_alloc X _ (N, 1) Nat.one_ne_zero hn.1
      show NoAdj ((S - N, 0) :: Y)
      rw [NoAdj_cons]
      exact ⟨hn.2.2.2, hn.2.1⟩

end MM1

namespace MM1

open MM

/-! ## `find_fit` -/

theorem Tiles_length (m : Mem) (L : List (Nat × Nat)) :
    ∀ a, Tiles m a L → 8 * L.length ≤ total L := by
  induction L with
  | nil => intro a _; simp [total]
  | cons b L ih =>
    intro a ht
    simp only [Tiles] at ht
    have := ih _ ht.2.2.2.2.2
    simp only [List.length_cons, total]
    omega

theorem fit_loop_spec (m : Mem) (N : Nat) (L : List (Nat × Nat)) :
    ∀ c fuel, Tiles m c L → GET m (c + total L - 4) = 1 → 4 ≤ c →
      c + total L < 18446744073709551616 → total L < 2147483648 → L.length < fuel →
      find_fit_loop m N fuel c = some 0 ∨
      ∃ X S Y, L = X ++ (S, 0) :: Y ∧ find_fit_loop m N fuel c = some (c + total X) ∧
        sle N S = true := by
  induction L with
  | nil =>
    intro c fuel _ hepi hc h64 _ hf
    left
    obtain ⟨f, rfl⟩ : ∃ f, fuel = f + 1 := ⟨fuel - 1, by simp at hf; omega⟩
    simp only [total, Nat.add_zero] at hepi
    have hz := (tag_size m (c - 4) 0 1 hepi (by decide) (by decide)).1
    rw [find_fit_loop, HDRP_eq c hc (by simp only [total] at h64; omega), hz,
      if_neg (by decide)]
  | cons b L ih =>
    intro c fuel ht hepi hc h64 h31 hf
    obtain ⟨f, rfl⟩ : ∃ f, fuel = f + 1 := ⟨fuel - 1, by simp at hf; omega⟩
    simp only [Tiles] at ht
    simp only [total] at hepi h64 h31
    obtain ⟨g1, g2, g3, g4, _, g6⟩ := ht
    have hz := tag_size m (c - 4) b.1 b.2 g4 g2 g3
    have hn := NEXT_val m c b.1 b.2 hc g4 g2 g3 (by omega) (by omega)
    rw [find_fit_loop, HDRP_eq c hc (by omega), hz.1, hz.2,
      if_pos (by rw [slt_iff _ _ (by omega) (by omega)]; omega)]
    by_cases hfit : sle N b.1 = true ∧ b.2 = 0
    · right
      rw [if_pos hfit]
      refine ⟨[], b.1, L, ?_, rfl, hfit.1⟩
      rw [List.nil_append]
      congr 1
      exact Prod.ext rfl hfit.2
    · rw [if_neg hfit, hn]
      rcases ih (c + b.1) f g6 (by rw [← hepi]; congr 1; omega) (by omega) (by omega) (by omega)
        (by simp at hf; omega) with h | ⟨X, S, Y, h1, h2, h3⟩
      · exact Or.inl h
      · right
        refine ⟨b :: X, S, Y, by rw [h1]; rfl, ?_, h3⟩
        rw [h2]; simp only [total]; exact congrArg some (by omega)

/-- The search returns: NULL, or the handle of a free block that is large
enough (for the signed comparison of the code). -/
theorem find_fit_spec (s : State) (L : List (Nat × Nat)) (N : Nat) (h : Inv s L) :
    find_fit s N = some 0 ∨
    ∃ X S Y, L = X ++ (S, 0) :: Y ∧ find_fit s N = some (s.mem_start + 16 + total X) ∧
      sle N S = true := by
  have htop := h.top
  have hroom := h.room
  have hsmall := h.small
  have haddr := h.addr
  have hlen := Tiles_length s.mem _ _ h.tiles
  simp only [List.length_cons, total] at hlen
  unfold find_fit
  rw [h.hs]
  rcases fit_loop_spec s.mem N ((8, 1) :: L) (s.mem_start + 8) (s.brk - s.mem_start + 1)
    h.tiles (by rw [← h.epi]; congr 1; show s.mem_start + 8 + (8 + total L) - 4 = _; omega)
    (by omega)
    (by show s.mem_start + 8 + (8 + total L) < 18446744073709551616; omega)
    (by show 8 + total L < 2147483648; omega)
    (by show L.length + 1 < _; omega) with h0 | ⟨X, S, Y, h1, h2, h3⟩
  · exact Or.inl h0
  · right
    cases X with
    | nil =>
      simp only [List.nil_append, List.cons.injEq, Prod.mk.injEq] at h1
      omega
    | cons b X0 =>
      simp only [List.cons_append, List.cons.injEq] at h1
      refine ⟨X0, S, Y, h1.2, ?_, h3⟩
      rw [h2, ← h1.1]; simp only [total]; exact congrArg some (by omega)

end MM1

namespace MM1

open MM

/-! ## `extend_heap` -/

theorem ext_size1 (words : Nat) (hw : words < 536870911) :
    (if words % 2 ≠ 0 then mul32 (add32 words 1) WSIZE else mul32 words WSIZE) =
      (if words % 2 ≠ 0 then (words + 1) * 4 else words * 4) := by
  unfold mul32 add32 WSIZE
  split <;> omega

theorem extend_fail (s : State) (words sz : Nat) (hw : words < 536870911)
    (hsz : sz = if words % 2 ≠ 0 then (words + 1) * 4 else words * 4)
    (hfull : s.mem_max < s.brk + sz) : extend_heap s words = some (s, 0) := by
  have h31 : sz < 2147483648 := by rw [hsz]; split <;> omega
  unfold extend_heap
  rw [ext_size1 words hw, ← hsz]
  simp only []
  rw [mem_sbrk_fail s sz h31 hfull]
  simp only [if_true]

/-- The stores of `extend_heap` before it calls `coalesce`. -/
theorem extend_run (s : State) (words sz : Nat) (hw : words < 536870911)
    (hsz : sz = if words % 2 ≠ 0 then (words + 1) * 4 else words * 4) (h8 : 8 ≤ sz)
    (hlo : s.mem_start + 16 ≤ s.brk) (hroom : s.brk + sz ≤ s.mem_max)
    (haddr : s.mem_max < 18446744073709551616) :
    extend_heap s words = coalesce { s with
      mem := (PUT (PUT (PUT s.mem (s.brk - 4) sz) (s.brk + sz - 8) sz) (s.brk + sz - 4) 1),
      brk := s.brk + sz } s.brk := by
  have h31 : sz < 2147483648 := by rw [hsz]; split <;> omega
  have hm8 : sz % 8 = 0 := by rw [hsz]; split <;> omega
  unfold extend_heap
  rw [ext_size1 words hw, ← hsz]
  simp only []
  rw [mem_sbrk_ok s sz h31 hroom]
  simp only []
  rw [if_neg (by unfold SBRK_FAIL; omega), HDRP_eq _ (by omega) (by omega), PACK0,
    put_ok _ _ _ (by show s.mem_start ≤ _; omega) (by show _ ≤ s.mem_max; omega),
    Option.some_bind]
  simp only []
  have g1 : GET (PUT s.mem (s.brk - 4) sz) (s.brk - 4) = sz + 0 := by
    rw [GET_PUT_eq]; exact Nat.mod_eq_of_lt (by omega)
  rw [FTRP_val _ _ sz 0 (by omega) g1 hm8 (by decide) h31 (by omega) (by omega),
    put_ok _ _ _ (by show s.mem_start ≤ _; omega) (by show _ ≤ s.mem_max; omega),
    Option.some_bind]
  simp only []
  have g2 : GET (PUT (PUT s.mem (s.brk - 4) sz) (s.brk + sz - 8) sz) (s.brk - 4) = sz + 0 := by
    rw [GET_PUT_ne _ _ _ _ (by omega)]; exact g1
  rw [NEXT_val _ _ sz 0 (by omega) g2 hm8 (by decide) h31 (by omega),
    HDRP_eq _ (by omega) (by omega),
    put_ok _ _ _ (by show s.mem_start ≤ _; omega) (by show _ ≤ s.mem_max; omega),
    Option.some_bind]
  rfl

theorem NoAdj_nil : NoAdj [] := List.chain'_nil

/-- The heap after a successful `extend_heap`: the appended block is merged
with a free last block. -/
theorem extend_heap_inv (s : State) (L : List (Nat × Nat)) (words sz : Nat) (h : Inv s L)
    (hw : words < 536870911)
    (hsz : sz = if words % 2 ≠ 0 then (words + 1) * 4 else words * 4) (h8 : 8 ≤ sz)
    (hroom : s.brk + sz ≤ s.mem_max) :
    ∃ s1, extend_heap s words =
        some (s1, s.mem_start + 16 + total (if (prevOf L).2 = 0 then L.dropLast else L)) ∧
      Inv s1 (mergeL L sz []) ∧ s1.mem_start = s.mem_start ∧ s1.mem_max = s.mem_max ∧
      s1.brk = s.brk + sz := by
  have h31 : sz < 2147483648 := by rw [hsz]; split <;> omega
  have hm8 : sz % 8 = 0 := by rw [hsz]; split <;> omega
  have htop := h.top
  have hsmall := h.small
  have haddr := h.addr
  have e : s.mem_start + 8 + total ((8, 1) :: L) = s.brk := by
    rw [htop]; simp only [total]; omega
  have hr := extend_run s words sz hw hsz h8 (by omega) hroom haddr
  generalize hm3 : PUT (PUT (PUT s.mem (s.brk - 4) sz) (s.brk + sz - 8) sz) (s.brk + sz - 4) 1
    = m3 at hr
  have ht : Tiles m3 (s.mem_start + 8) ((8, 1) :: (L ++ (sz, 0) :: [])) := by
    have : Tiles m3 (s.mem_start + 8) (((8, 1) :: L) ++ [(sz, 0)]) := by
      rw [Tiles_append, e]
      constructor
      · apply Tiles_frame s.mem m3 _ _ (by omega) _ h.tiles
        intro q h1 h2
        rw [e] at h2
        rw [← hm3, GET_PUT_ne _ _ _ _ (by omega), GET_PUT_ne _ _ _ _ (by omega),
          GET_PUT_ne _ _ _ _ (by omega)]
      · simp only [Tiles]
        refine ⟨h8, hm8, by decide, ?_, ?_, trivial⟩
        · rw [← hm3, GET_PUT_ne _ _ _ _ (by omega), GET_PUT_ne _ _ _ _ (by omega), GET_PUT_eq]
          exact Nat.mod_eq_of_lt (by omega)
        · rw [← hm3, GET_PUT_ne _ _ _ _ (by omega), GET_PUT_eq]
          exact Nat.mod_eq_of_lt (by omega)
    exact this
  have hepi : GET m3 (s.brk + sz - 4) = 1 := by
    rw [← hm3, GET_PUT_eq]
  have htop2 : s.brk + sz = s.mem_start + 16 + total (L ++ (sz, 0) :: []) := by
    rw [total_append]; simp only [total]; omega
  obtain ⟨m4, hc, c1, c2, c3⟩ := coalesce_list { s with mem := m3, brk := s.brk + sz } L [] sz
    hroom hsmall haddr htop2 ht hepi
  refine ⟨{ s with mem := m4, brk := s.brk + sz }, ?_, ⟨h.hs, ?_, hroom, hsmall, haddr, c1, c2,
    NoAdj_merge L [] sz h.noadj NoAdj_nil⟩, rfl, rfl, rfl⟩
  · rw [hr]
    exact (congrArg (coalesce _) htop).trans hc
  · show s.brk + sz = s.mem_start + 16 + total (mergeL L sz [])
    rw [c3]; exact htop2

end MM1

namespace MM1

open MM

/-! ## `malloc` -/

/-- The adjusted size of a request that passes the guard of `malloc`: a
multiple of 8 from 8 up that leaves room for the request and two tag words,
or, for the requests whose low 32 bits are `2^31 - 15` and more, the bit
pattern of `INT_MIN` or `INT_MIN + 8`. -/
theorem adjust_cases (n : Nat) (hn : n < 18446744073709551616)
    (hneg : isNeg (toInt32 n) = false) :
    (8 ≤ adjust n ∧ adjust n < 2147483648 ∧ adjust n % 8 = 0 ∧
      n % 4294967296 + 8 ≤ adjust n) ∨
    adjust n = 2147483648 ∨ adjust n = 2147483656 := by
  unfold isNeg toInt32 at hneg
  simp only [decide_eq_false_iff_not, Nat.mod_mod] at hneg
  unfold adjust toInt32 mul32 DSIZE
  split <;> omega

theorem alloc_replace (A B C X Y : List (Nat × Nat)) (S sz : Nat)
    (h : X ++ (sz, 1) :: Y = A ++ (S, 0) :: B) (hC : total C = S ∨ B = []) :
    ∃ X1 Y1, A ++ (C ++ B) = X1 ++ (sz, 1) :: Y1 ∧ total X1 = total X := by
  rcases List.append_eq_append_iff.mp h with ⟨a, h1, h2⟩ | ⟨c, h1, h2⟩
  · cases a with
    | nil =>
      simp only [List.nil_append, List.cons.injEq, Prod.mk.injEq] at h2
      omega
    | cons b a1 =>
      simp only [List.cons_append, List.cons.injEq] at h2
      refine ⟨X, a1 ++ (C ++ B), ?_, rfl⟩
      rw [h1, ← h2.1]
      simp
  · cases c with
    | nil =>
      simp only [List.nil_append, List.cons.injEq, Prod.mk.injEq] at h2
      omega
    | cons b c1 =>
      simp only [List.cons_append, List.cons.injEq] at h2
      rcases hC with hC | hC
      · refine ⟨A ++ (C ++ c1), Y, ?_, ?_⟩
        · rw [h2.2]; simp
        · rw [h1, ← h2.1, total_append, total_append, total_append]
          simp only [total]; omega
      · rw [hC] at h2
        have := h2.2
        simp at this

/-- The request is placed in a block that `find_fit` found. -/
theorem malloc_found (s : State) (X Y : List (Nat × Nat)) (S N n : Nat)
    (h : Inv s (X ++ (S, 0) :: Y)) (hN : 8 ≤ N ∧ N % 8 = 0 ∧ N ≤ S)
    (hn : n % 4294967296 + 8 ≤ N) :
    ∃ s1, place s (s.mem_start + 16 + total X) N = some s1 ∧
      MallocOk s (X ++ (S, 0) :: Y) n (s1, s.mem_start + 16 + total X) := by
  obtain ⟨s1, R, hp, hi, ht, hm⟩ := place_inv s X Y S N h hN
  have hS := (Inv_block s X Y (S, 0) h)
  have h31 : N < 2147483648 := by
    have := hS.2.2.2.2.2.1
    have := hS.2.2.2.2.2.2
    simp only at this
    have := h.top
    omega
  refine ⟨s1, hp, X, N, R ++ Y, rfl, hi, hm, hn, h31, ?_⟩
  intro X0 sz0 Y0 hL
  have := alloc_replace X Y ((N, 1) :: R) X0 Y0 S sz0 hL.symm (Or.inl (by simp only [total]; omega))
  exact this

theorem mergeL_last (L : List (Nat × Nat)) (sz : Nat) :
    mergeL L sz [] = (if (prevOf L).2 = 0 then L.dropLast else L) ++
      ((if (prevOf L).2 = 0 then (prevOf L).1 else 0) + sz, 0) :: [] := by
  unfold mergeL
  have e : nextOf [] = (0, 1) := rfl
  rw [e, if_neg (show ¬ ((0, 1) : Nat × Nat).2 = 0 by decide),
    if_neg (show ¬ ((0, 1) : Nat × Nat).2 = 0 by decide)]
  rfl

/-- The allocated blocks of `L` are blocks of the heap after the merge at the
end. -/
theorem alloc_merge_last (L X0 Y0 C : List (Nat × Nat)) (sz0 : Nat)
    (hL : L = X0 ++ (sz0, 1) :: Y0) :
    ∃ X1 Y1, (if (prevOf L).2 = 0 then L.dropLast else L) ++ C = X1 ++ (sz0, 1) :: Y1 ∧
      total X1 = total X0 := by
  by_cases hp : (prevOf L).2 = 0
  · rw [if_pos hp]
    rcases List.eq_nil_or_concat L with h | ⟨L0, b, h⟩
    · rw [h] at hL
      simp at hL
    · rw [List.concat_eq_append] at h
      rw [h, prevOf_concat] at hp
      rw [h, List.dropLast_concat]
      have hb : b = (b.1, 0) := Prod.ext rfl hp
      have := alloc_replace L0 [] C X0 Y0 b.1 sz0 (by rw [← hL, h, ← hb]) (Or.inr rfl)
      simpa using this
  · rw [if_neg hp, hL]
    exact ⟨X0, Y0 ++ C, by simp, rfl⟩

theorem grow_size (N : Nat) (hN : N % 8 = 0 ∧ N < 2147483648) :
    (if slt CHUNKSIZE N = true then N else CHUNKSIZE) % 8 = 0 ∧
    4096 ≤ (if slt CHUNKSIZE N = true then N else CHUNKSIZE) ∧
    (if slt CHUNKSIZE N = true then N else CHUNKSIZE) < 2147483648 ∧
    N ≤ (if slt CHUNKSIZE N = true then N else CHUNKSIZE) ∧
    sdiv32 (if slt CHUNKSIZE N = true then N else CHUNKSIZE) WSIZE =
      (if slt CHUNKSIZE N = true then N else CHUNKSIZE) / 4 := by
  have hs : slt CHUNKSIZE N = true ↔ 4096 < N := by
    rw [slt_iff _ _ (by decide) hN.2]; rfl
  unfold sdiv32 WSIZE
  by_cases h : slt CHUNKSIZE N = true
  · rw [if_pos h]
    have := hs.mp h
    refine ⟨hN.1, by omega, hN.2, Nat.le_refl _, ?_⟩
    rw [if_pos (by omega)]
    omega
  · rw [if_neg h]
    have : ¬ 4096 < N := fun h1 => h (hs.mpr h1)
    unfold CHUNKSIZE
    refine ⟨by decide, by decide, by decide, by omega, by decide⟩

theorem grow_size_bad (N : Nat) (hN : N = 2147483648 ∨ N = 2147483656) :
    (if slt CHUNKSIZE N = true then N else CHUNKSIZE) = 4096 := by
  rcases hN with h | h <;> subst h <;> rfl

/-- The request is placed in the block that `extend_heap` returned. -/
theorem malloc_grown (s : State) (L : List (Nat × Nat)) (N n E : Nat) (h : Inv s L)
    (hN : 8 ≤ N ∧ N % 8 = 0 ∧ N ≤ E) (hn : n % 4294967296 + 8 ≤ N)
    (hE : E % 8 = 0 ∧ 8 ≤ E ∧ E < 2147483648) (hroom : s.brk + E ≤ s.mem_max) :
    ∃ s1 s2 bp, extend_heap s (E / 4) = some (s1, bp) ∧ bp ≠ 0 ∧
      place s1 bp N = some s2 ∧ MallocOk s L n (s2, bp) := by
  obtain ⟨s1, he, hi, hm, _, _⟩ := extend_heap_inv s L (E / 4) E h (by omega)
    (by rw [if_neg (by omega)]; omega) hE.2.1 hroom
  rw [mergeL_last] at hi
  generalize hX : (if (prevOf L).2 = 0 then L.dropLast else L) = X at he hi
  generalize hP : (if (prevOf L).2 = 0 then (prevOf L).1 else 0) = P at hi
  obtain ⟨s2, R, hp, hi2, ht, hm2⟩ := place_inv s1 X [] (P + E) N hi
    ⟨hN.1, hN.2.1, by omega⟩
  rw [hm] at hp hm2
  have hb := Inv_block s2 X (R ++ []) (N, 1) hi2
  have h31 : N < 2147483648 := by
    have := hb.2.2.2.2.2.1
    have := hb.2.2.2.2.2.2
    simp only at this
    omega
  refine ⟨s1, s2, _, he, by omega, hp, X, N, R ++ [], rfl, hi2, hm2, hn, h31, ?_⟩
  intro X0 sz0 Y0 hL
  have := alloc_merge_last L X0 Y0 ((N, 1) :: (R ++ [])) sz0 hL
  rw [hX] at this
  exact this

/-- With an adjusted size of `INT_MIN` or `INT_MIN + 8`, `place` has no result
in the block that `extend_heap` returned. -/
theorem malloc_grown_bad (s : State) (L : List (Nat × Nat)) (N : Nat) (h : Inv s L)
    (hN : N = 2147483648 ∨ N = 2147483656) (hroom : s.brk + 4096 ≤ s.mem_max) :
    ∃ s1 bp, extend_heap s (4096 / 4) = some (s1, bp) ∧ bp ≠ 0 ∧ place s1 bp N = none := by
  obtain ⟨s1, he, hi, hm, _, _⟩ := extend_heap_inv s L (4096 / 4) 4096 h (by decide)
    (by decide) (by decide) hroom
  rw [mergeL_last] at hi
  generalize hX : (if (prevOf L).2 = 0 then L.dropLast else L) = X at he hi
  generalize hP : (if (prevOf L).2 = 0 then (prevOf L).1 else 0) = P at hi
  obtain ⟨b1, b2, b3, b4, b5, b6, b7, b8, b9⟩ := Inv_block s1 X [] (P + 4096, 0) hi
  simp only [Nat.add_zero] at b1 b2 b4 b6
  rw [hm] at b4 b6
  refine ⟨s1, _, he, by omega, ?_⟩
  exact place_bad s1 _ (P + 4096) N (by rw [hm]; omega) (by simp only [total] at b6; omega)
    b8 b9 b4 b2 b1 hN

/-- What `malloc` does in a state that satisfies the invariant: it returns
NULL and leaves the state, or it returns a fresh allocated block in a state
that satisfies the invariant, or (only for the requests whose adjusted size
is `INT_MIN` or `INT_MIN + 8`) it has no result. -/
theorem malloc_inv (s : State) (L : List (Nat × Nat)) (n : Nat) (h : Inv s L)
    (hn : n < 18446744073709551616) :
    malloc s n = some (s, 0) ∨ (∃ r, malloc s n = some r ∧ MallocOk s L n r) ∨
    (malloc s n = none ∧ (adjust n = 2147483648 ∨ adjust n = 2147483656)) := by
  unfold malloc
  by_cases hneg : isNeg (toInt32 n) = true
  · left; rw [if_pos hneg]
  · rw [if_neg hneg]
    simp only []
    have hc := adjust_cases n hn (by simpa using hneg)
    generalize adjust n = N at hc
    rcases find_fit_spec s L N h with h0 | ⟨X, S, Y, hL, hf, hs⟩
    · rw [h0, Option.some_bind, if_neg (by simp)]
      rcases hc with hg | hb
      · obtain ⟨g1, g2, g3, g4, g5⟩ := grow_size N ⟨hg.2.2.1, hg.2.1⟩
        rw [g5]
        generalize (if slt CHUNKSIZE N = true then N else CHUNKSIZE) = E at g1 g2 g3 g4
        by_cases hroom : s.brk + E ≤ s.mem_max
        · right; left
          obtain ⟨s1, s2, bp, he, hbp, hp, hok⟩ := malloc_grown s L N n E h
            ⟨hg.1, hg.2.2.1, g4⟩ hg.2.2.2 ⟨g1, by omega, g3⟩ hroom
          refine ⟨(s2, bp), ?_, hok⟩
          rw [he, Option.some_bind]
          simp only []
          rw [if_neg hbp, hp, Option.some_bind]
        · left
          rw [extend_fail s (E / 4) E (by omega) (by rw [if_neg (by omega)]; omega) (by omega),
            Option.some_bind]
          simp only [if_true]
      · rw [grow_size_bad N hb]
        have e : sdiv32 4096 WSIZE = 4096 / 4 := by decide
        rw [e]
        by_cases hroom : s.brk + 4096 ≤ s.mem_max
        · right; right
          obtain ⟨s1, bp, he, hbp, hp⟩ := malloc_grown_bad s L N h hb hroom
          refine ⟨?_, hb⟩
          rw [he, Option.some_bind]
          simp only []
          rw [if_neg hbp, hp]
          rfl
        · left
          rw [extend_fail s (4096 / 4) 4096 (by decide) (by decide) (by omega), Option.some_bind]
          simp only [if_true]
    · have hbk := Inv_block s X Y (S, 0) (hL ▸ h)
      simp only [Nat.add_zero] at hbk
      obtain ⟨b1, b2, b3, b4, b5, b6, b7, b8, b9⟩ := hbk
      rw [hf, Option.some_bind, if_pos (by omega)]
      rcases hc with hg | hb
      · right; left
        rw [sle_iff _ _ hg.2.1 (by omega)] at hs
        subst hL
        obtain ⟨s1, hp, hok⟩ := malloc_found s X Y S N n h ⟨hg.1, hg.2.2.1, hs⟩ hg.2.2.2
        exact ⟨_, by rw [hp, Option.some_bind], hok⟩
      · right; right
        refine ⟨?_, hb⟩
        rw [place_bad s _ S N (by omega) (by omega) b8 b9 b4 b2 b1 hb]
        rfl

end MM1

namespace MM1

open MM

/-! ## `realloc` -/

theorem GET_memcpy_ne (m : Mem) (dst src c q : Nat) (hd : dst + c < 18446744073709551616)
    (h : q + 4 ≤ dst ∨ dst + c ≤ q) : GET (MM.memcpy m dst src c) q = GET m q := by
  apply GET_congr
  intro a h1 h2
  unfold MM.memcpy
  simp only []
  rw [if_neg]
  intro hc
  omega

/-- The copy of `realloc` changes no tag word: it lies in the payload of the
fresh block. -/
theorem memcpy_inv (s : State) (X Y : List (Nat × Nat)) (N src c : Nat)
    (h : Inv s (X ++ (N, 1) :: Y)) (hc : c + 8 ≤ N) :
    ∃ s1, memcpy s (s.mem_start + 16 + total X) src c = some s1 ∧
      Inv s1 (X ++ (N, 1) :: Y) ∧ s1.mem_start = s.mem_start := by
  obtain ⟨h1, h2, h3, h4, h5, h6, h7, h8, h9⟩ := Inv_block s X Y (N, 1) h
  simp only at h1 h2 h4 h5 h6
  have hepi := h.epi
  have e : s.mem_start + 8 + total ((8, 1) :: X) = s.mem_start + 16 + total X := by
    simp only [total]; omega
  have hfr : ∀ q, q + 4 ≤ s.mem_start + 16 + total X ∨ s.mem_start + 16 + total X + N ≤ q + 8 →
      GET (MM.memcpy s.mem (s.mem_start + 16 + total X) src c) q = GET s.mem q := by
    intro q hq
    exact GET_memcpy_ne _ _ _ _ _ (by omega) (by omega)
  refine ⟨{ s with mem := MM.memcpy s.mem (s.mem_start + 16 + total X) src c }, ?_,
    ⟨h.hs, h.top, h7, h8, h9, ?_, ?_, h.noadj⟩, rfl⟩
  · unfold memcpy
    rw [if_pos (Or.inr ⟨by omega, by omega⟩)]
  · have := Tiles_replace s.mem (MM.memcpy s.mem (s.mem_start + 16 + total X) src c)
      (s.mem_start + 8) ((8, 1) :: X) Y [(N, 1)] (N, 1) (by omega) h.tiles
      (by rw [e]; simp only [Tiles]
          refine ⟨h1, h2, by decide, ?_, ?_, trivial⟩
          · rw [hfr _ (by omega)]; exact h4
          · rw [hfr _ (by omega)]; exact h5)
      (by simp only [total, Nat.add_zero])
      (by intro q hq
          rw [e] at hq
          simp only at hq
          exact hfr q (by omega))
    exact this
  · show GET _ (s.brk - 4) = 1
    rw [hfr _ (by omega)]; exact hepi

theorem copy_len (n S0 N : Nat) (hn : n % 4294967296 + 8 ≤ N) (hN : N < 2147483648)
    (hS : S0 < 2147483648) :
    sext (if slt (toInt32 n) S0 = true then toInt32 n else S0) ≤ n % 4294967296 := by
  unfold toInt32
  have hs := slt_iff (n % 4294967296) S0 (by omega) hS
  unfold sext
  by_cases h : slt (n % 4294967296) S0 = true
  · rw [if_pos h, if_pos (by omega)]
    omega
  · have : ¬ n % 4294967296 < S0 := fun h1 => h (hs.mpr h1)
    rw [if_neg h, if_pos (by omega)]
    omega

/-- What `realloc` does on the handle of an allocated block. -/
theorem realloc_inv (s : State) (X0 Y0 : List (Nat × Nat)) (S0 n : Nat)
    (h : Inv s (X0 ++ (S0, 1) :: Y0)) (hn : n < 18446744073709551616) :
    (∃ r L1, realloc s (s.mem_start + 16 + total X0) n = some r ∧ Inv r.1 L1) ∨
    (realloc s (s.mem_start + 16 + total X0) n = none ∧
      (adjust n = 2147483648 ∨ adjust n = 2147483656)) := by
  unfold realloc
  rw [if_neg (by omega)]
  by_cases hn0 : n = 0
  · left
    rw [if_pos hn0]
    obtain ⟨s1, hf, hi⟩ := free_inv s X0 Y0 S0 h
    exact ⟨(s1, 0), _, by rw [hf, Option.some_bind], hi⟩
  · rw [if_neg hn0]
    rcases malloc_inv s _ n h hn with hm | ⟨r, hm, X, N, Y, r2, hi, hms, hnN, hN31, hpres⟩ |
      ⟨hm, hb⟩
    · left
      refine ⟨(s, 0), _, ?_, h⟩
      rw [hm, Option.some_bind]
      simp only [if_true]
    · left
      obtain ⟨X1, Y1, hL, ht⟩ := hpres X0 S0 Y0 rfl
      have hi1 : Inv r.1 (X1 ++ (S0, 1) :: Y1) := hL ▸ hi
      obtain ⟨b1, b2, b3, b4, b5, b6, b7, b8, b9⟩ := Inv_block r.1 X1 Y1 (S0, 1) hi1
      simp only at b1 b2 b4 b6
      have hold : s.mem_start + 16 + total X0 = r.1.mem_start + 16 + total X1 := by
        rw [hms, ht]
      have hS0 : GET_SIZE r.1.mem (HDRP (s.mem_start + 16 + total X0)) = S0 := by
        rw [hold, HDRP_eq _ (by omega) (by omega)]
        exact (tag_size _ _ S0 1 b4 b2 (by decide)).1
      have hlen : sext (if slt (toInt32 n) S0 = true then toInt32 n else S0) + 8 ≤ N := by
        have := copy_len n S0 N hnN hN31 (by omega)
        omega
      obtain ⟨s2, hcp, hi2, hms2⟩ := memcpy_inv r.1 X Y N (s.mem_start + 16 + total X0) _ hi hlen
      have hi3 : Inv s2 (X1 ++ (S0, 1) :: Y1) := hL ▸ hi2
      obtain ⟨s3, hf, hi4⟩ := free_inv s2 X1 Y1 S0 hi3
      rw [hms] at hcp
      rw [hms2, hms, ht] at hf
      refine ⟨(s3, r.2), _, ?_, hi4⟩
      rw [hm, Option.some_bind, if_neg (by rw [r2]; omega)]
      simp only []
      rw [hS0, r2, hcp, Option.some_bind, hf, Option.some_bind]
    · right
      refine ⟨?_, hb⟩
      rw [hm]
      rfl

end MM1

namespace MM1

open MM

/-! ## `mm_init` -/

/-- The empty heap that `mm_init` builds before it calls `extend_heap`. -/
theorem init_empty (lo hi : Nat) (m0 : Mem) (hlo : 0 < lo) (hroom : lo + 16 ≤ hi)
    (hsmall : hi ≤ lo + 2147483648) (haddr : hi < 18446744073709551616) :
    ∃ s5, mm_init (fresh lo hi m0) = (extend_heap s5 (sdiv32 CHUNKSIZE WSIZE)).bind
        (fun r1 => if r1.2 = 0 then some (r1.1, 4294967295) else some (r1.1, 0)) ∧
      Inv s5 [] ∧ s5.mem_start = lo ∧ s5.mem_max = hi := by
  have e16 : mul32 4 WSIZE = 16 := by decide
  have e9 : PACK DSIZE 1 = 9 := by decide
  have e1 : PACK 0 1 = 1 := by decide
  have p4 : padd lo WSIZE = lo + 4 := padd_eq _ _ (by decide) (by simp only [WSIZE]; omega)
  have p8 : padd lo DSIZE = lo + 8 := padd_eq _ _ (by decide) (by simp only [DSIZE]; omega)
  have p12 : padd (lo + 4) DSIZE = lo + 12 :=
    padd_eq _ _ (by decide) (by simp only [DSIZE]; omega)
  refine ⟨(⟨PUT (PUT (PUT (PUT m0 lo 0) (lo + 4) 9) (lo + 8) 9) (lo + 12) 1,
    lo + 16, lo, hi, lo + 8, 0⟩ : State), ?_, ⟨rfl, rfl, hroom, hsmall, haddr, ?_, ?_, NoAdj_nil⟩, rfl, rfl⟩
  · unfold mm_init
    rw [e16, mem_sbrk_ok (fresh lo hi m0) 16 (by decide) hroom]
    simp only [fresh]
    rw [if_neg (by omega), put_ok _ _ _ (Nat.le_refl lo) (by show lo + 4 ≤ hi; omega),
      Option.some_bind]
    simp only []
    rw [p4, e9, put_ok _ _ _ (by show lo ≤ lo + 4; omega) (by show lo + 4 + 4 ≤ hi; omega),
      Option.some_bind]
    simp only []
    rw [p8, put_ok _ _ _ (by show lo ≤ lo + 8; omega) (by show lo + 8 + 4 ≤ hi; omega),
      Option.some_bind]
    simp only []
    rw [p4, p12, e1, put_ok _ _ _ (by show lo ≤ lo + 12; omega) (by show lo + 12 + 4 ≤ hi; omega),
      Option.some_bind]
    simp only []
    rw [p8]
  · show Tiles _ (lo + 8) [(8, 1)]
    simp only [Tiles]
    refine ⟨by decide, by decide, by decide, ?_, ?_, trivial⟩
    · rw [show lo + 8 - 4 = lo + 4 by omega, GET_PUT_ne _ _ _ _ (by omega),
        GET_PUT_ne _ _ _ _ (by omega), GET_PUT_eq]
    · rw [show lo + 8 + 8 - 8 = lo + 8 by omega, GET_PUT_ne _ _ _ _ (by omega), GET_PUT_eq]
  · show GET _ (lo + 16 - 4) = 1
    rw [show lo + 16 - 4 = lo + 12 by omega, GET_PUT_eq]

theorem mergeL_first : mergeL [] 4096 [] = [(4096, 0)] := by decide

/-- A successful `mm_init` leaves the heap of one free block of 4096 bytes. -/
theorem mm_init_inv (lo hi : Nat) (m0 : Mem) (s : State)
    (hsmall : hi ≤ lo + 2147483648) (haddr : hi < 18446744073709551616)
    (h : mm_init (fresh lo hi m0) = some (s, 0)) :
    Inv s [(4096, 0)] ∧ s.mem_start = lo ∧ s.mem_max = hi := by
  by_cases hroom : lo + 16 ≤ hi
  · by_cases hlo : lo = 0
    · exfalso
      unfold mm_init at h
      rw [show mul32 4 WSIZE = 16 by decide, mem_sbrk_ok (fresh lo hi m0) 16 (by decide) hroom]
        at h
      simp only [fresh] at h
      rw [if_pos hlo] at h
      simp at h
    · obtain ⟨s5, he, hi5, hs5, hm5⟩ := init_empty lo hi m0 (by omega) hroom hsmall haddr
      rw [he] at h
      have e : sdiv32 CHUNKSIZE WSIZE = 4096 / 4 := by decide
      rw [e] at h
      by_cases hr2 : s5.brk + 4096 ≤ s5.mem_max
      · obtain ⟨s1, hx, hi1, hms, hmm, _⟩ := extend_heap_inv s5 [] (4096 / 4) 4096 hi5
          (by decide) (by decide) (by decide) hr2
        rw [hx, Option.some_bind] at h
        simp only [] at h
        rw [if_neg (by omega)] at h
        simp only [Option.some.injEq, Prod.mk.injEq, and_true] at h
        rw [← h, hms, hmm, hs5, hm5]
        rw [mergeL_first] at hi1
        exact ⟨hi1, rfl, rfl⟩
      · exfalso
        rw [extend_fail s5 (4096 / 4) 4096 (by decide) (by decide) (by omega),
          Option.some_bind] at h
        simp at h
  · exfalso
    unfold mm_init at h
    rw [show mul32 4 WSIZE = 16 by decide, mem_sbrk_fail (fresh lo hi m0) 16 (by decide)
      (by show hi < lo + 16; omega)] at h
    simp only [fresh] at h
    rw [if_neg (by unfold SBRK_FAIL; decide), put_none _ _ _ (Or.inr (by
      show hi < SBRK_FAIL + 4
      unfold SBRK_FAIL; omega))] at h
    simp at h

end MM1

namespace MM1

open MM

/-! ## The walk over the heap -/

theorem walk_tiles (m : Mem) (L : List (Nat × Nat)) :
    ∀ c fuel, Tiles m c L → GET m (c + total L - 4) = 1 → 4 ≤ c →
      c + total L < 18446744073709551616 → total L < 2147483648 → L.length < fuel →
      walk m fuel c = some (handles c L, c + total L) := by
  induction L with
  | nil =>
    intro c fuel _ hepi hc h64 _ hf
    obtain ⟨f, rfl⟩ : ∃ f, fuel = f + 1 := ⟨fuel - 1, by simp at hf; omega⟩
    simp only [total, Nat.add_zero] at hepi h64
    have hz := (tag_size m (c - 4) 0 1 hepi (by decide) (by decide)).1
    rw [walk, HDRP_eq c hc h64, if_pos hz]
    rfl
  | cons b L ih =>
    intro c fuel ht hepi hc h64 h31 hf
    obtain ⟨f, rfl⟩ : ∃ f, fuel = f + 1 := ⟨fuel - 1, by simp at hf; omega⟩
    simp only [Tiles] at ht
    simp only [total] at hepi h64 h31
    obtain ⟨g1, g2, g3, g4, _, g6⟩ := ht
    have hz := tag_size m (c - 4) b.1 b.2 g4 g2 g3
    have hn := NEXT_val m c b.1 b.2 hc g4 g2 g3 (by omega) (by omega)
    have := ih (c + b.1) f g6 ((congrArg (GET m) (by omega)).trans hepi) (by omega) (by omega)
      (by omega) (by simp at hf; omega)
    rw [walk, HDRP_eq c hc (by omega), if_neg (by rw [hz.1]; omega), hn, this]
    simp only [handles, total]
    exact congrArg some (Prod.ext rfl (by simp only; omega))

theorem heap_walk_inv (s : State) (L : List (Nat × Nat)) (h : Inv s L) :
    heap_walk s = some (handles (s.mem_start + 16) L, s.brk) := by
  have htop := h.top
  have hroom := h.room
  have hsmall := h.small
  have haddr := h.addr
  have hlen := Tiles_length s.mem _ _ h.tiles
  have ht : Tiles s.mem (s.mem_start + 8) ([(8, 1)] ++ L) := h.tiles
  rw [Tiles_append] at ht
  simp only [List.length_cons, total] at hlen
  simp only [Tiles, total, Nat.add_zero] at ht
  unfold heap_walk first_block
  rw [h.hs, NEXT_val s.mem _ 8 1 (by omega) ht.1.2.2.2.1 (by decide) (by decide) (by decide)
    (by omega), show s.mem_start + 8 + 8 = s.mem_start + 16 by omega,
    walk_tiles s.mem L _ _ ((show s.mem_start + 8 + 8 = s.mem_start + 16 by omega) ▸ ht.2)
      ((congrArg (GET s.mem) (by omega)).trans h.epi) (by omega) (by omega) (by omega)
      (by omega), htop]

theorem adjacent_free_tiles (m : Mem) (L : List (Nat × Nat)) :
    ∀ c, Tiles m c L → 4 ≤ c → c + total L < 18446744073709551616 → NoAdj L →
      adjacent_free m (handles c L) = false := by
  induction L with
  | nil => intro c _ _ _ _; rfl
  | cons b L ih =>
    intro c ht hc h64 hn
    cases L with
    | nil => rfl
    | cons b2 L2 =>
      have ht2 := ht
      simp only [Tiles] at ht2
      simp only [total] at h64
      obtain ⟨g1, g2, g3, g4, _, g6, g7, g8, g9, _, _⟩ := ht2
      have hz := (tag_size m (c - 4) b.1 b.2 g4 g2 g3).2
      have hz2 := (tag_size m (c + b.1 - 4) b2.1 b2.2 g9 g7 g8).2
      have hn2 := (NoAdj_cons b (b2 :: L2)).mp hn
      have hadj := hn2.1 b2 rfl
      have := ih (c + b.1) (by simp only [Tiles] at ht; exact ht.2.2.2.2.2) (by omega)
        (by simp only [total]; omega) hn2.2
      simp only [handles] at this ⊢
      rw [adjacent_free, this, HDRP_eq c hc (by omega), HDRP_eq (c + b.1) (by omega) (by omega),
        hz, hz2]
      rcases hadj with h | h
      · simp [h]
      · simp [h]

theorem mem_handles (L : List (Nat × Nat)) :
    ∀ c p, p ∈ handles c L → ∃ X b Y, L = X ++ b :: Y ∧ p = c + total X := by
  induction L with
  | nil => intro c p h; simp [handles] at h
  | cons b L ih =>
    intro c p h
    simp only [handles, List.mem_cons] at h
    rcases h with h | h
    · exact ⟨[], b, L, rfl, by rw [h]; rfl⟩
    · obtain ⟨X, b1, Y, h1, h2⟩ := ih _ _ h
      exact ⟨b :: X, b1, Y, by rw [h1]; rfl, by rw [h2]; simp only [total]; omega⟩

/-- A handle with the allocated bit set that the walk meets is the handle of
an allocated block of the list. -/
theorem allocated_inv (s : State) (L : List (Nat × Nat)) (p : Nat) (h : Inv s L)
    (hp : allocated s p = true) :
    ∃ X sz Y, L = X ++ (sz, 1) :: Y ∧ p = s.mem_start + 16 + total X := by
  unfold allocated at hp
  rw [heap_walk_inv s L h] at hp
  simp only [Bool.and_eq_true, decide_eq_true_eq] at hp
  obtain ⟨X, b, Y, h1, h2⟩ := mem_handles L _ p hp.1
  subst h1
  obtain ⟨b1, b2, b3, b4, b5, b6, b7, b8, b9⟩ := Inv_block s X Y b h
  have hz := (tag_size s.mem _ b.1 b.2 b4 b2 b3).2
  rw [h2, HDRP_eq _ (by omega) (by omega), hz] at hp
  have hb : b = (b.1, 1) := Prod.ext rfl (by simp only; omega)
  exact ⟨X, b.1, Y, by rw [← hb], h2⟩

end MM1

namespace MM1

open MM

/-! ## Reachable states -/

theorem malloc_step (s s1 : State) (L : List (Nat × Nat)) (n p : Nat) (h : Inv s L)
    (hn : n < 18446744073709551616) (hm : malloc s n = some (s1, p)) : ∃ L1, Inv s1 L1 := by
  rcases malloc_inv s L n h hn with h0 | ⟨r, h1, X, N, Y, _, hi, _⟩ | ⟨h2, _⟩
  · rw [h0] at hm
    simp only [Option.some.injEq, Prod.mk.injEq] at hm
    exact ⟨L, hm.1 ▸ h⟩
  · rw [h1] at hm
    simp only [Option.some.injEq] at hm
    rw [hm] at hi
    exact ⟨_, hi⟩
  · rw [h2] at hm
    cases hm

/-- Every reachable state satisfies the invariant. -/
theorem reach_inv (lo hi : Nat) (m0 : Mem) (s : State)
    (hsmall : hi ≤ lo + 2147483648) (haddr : hi < 18446744073709551616)
    (hr : Reach (fresh lo hi m0) s) : ∃ L, Inv s L := by
  induction hr with
  | init s h => exact ⟨_, (mm_init_inv lo hi m0 s hsmall haddr h).1⟩
  | malloc s s1 n p _ hn hm ih =>
    obtain ⟨L, hL⟩ := ih
    exact malloc_step s s1 L n p hL hn hm
  | free s s1 p _ hp hf ih =>
    obtain ⟨L, hL⟩ := ih
    rcases hp with hp | hp
    · subst hp
      unfold free at hf
      rw [if_pos rfl] at hf
      simp only [Option.some.injEq] at hf
      exact ⟨L, hf ▸ hL⟩
    · obtain ⟨X, sz, Y, h1, h2⟩ := allocated_inv s L p hL hp
      subst h1; subst h2
      obtain ⟨s2, h3, h4⟩ := free_inv s X Y sz hL
      rw [h3] at hf
      simp only [Option.some.injEq] at hf
      exact ⟨_, hf ▸ h4⟩
  | realloc s s1 p n q _ hp hn hre ih =>
    obtain ⟨L, hL⟩ := ih
    rcases hp with hp | hp
    · subst hp
      unfold realloc at hre
      rw [if_pos rfl] at hre
      exact malloc_step s s1 L n q hL hn hre
    · obtain ⟨X, sz, Y, h1, h2⟩ := allocated_inv s L p hL hp
      subst h1; subst h2
      rcases realloc_inv s X Y sz n hL hn with ⟨r, L1, h3, h4⟩ | ⟨h3, _⟩
      · rw [h3] at hre
        simp only [Option.some.injEq] at hre
        rw [hre] at h4
        exact ⟨_, h4⟩
      · rw [h3] at hre
        cases hre

theorem handles_append (X Y : List (Nat × Nat)) :
    ∀ c, handles c (X ++ Y) = handles c X ++ handles (c + total X) Y := by
  induction X with
  | nil => intro c; rfl
  | cons b X ih =>
    intro c
    rw [List.cons_append, handles, handles, ih, total,
      show c + (b.1 + total X) = c + b.1 + total X by omega]
    rfl

theorem handles_last (L : List (Nat × Nat)) (c q : Nat)
    (h : (handles c L).getLast? = some q) : ∃ L0 b, L = L0 ++ [b] ∧ q = c + total L0 := by
  rcases List.eq_nil_or_concat L with h0 | ⟨L0, b, h0⟩
  · subst h0
    simp [handles] at h
  · rw [List.concat_eq_append] at h0
    subst h0
    rw [handles_append] at h
    simp only [handles] at h
    rw [List.getLast?_concat] at h
    simp only [Option.some.injEq] at h
    exact ⟨L0, b, rfl, h.symm⟩

theorem no_adj_inv (s : State) (L : List (Nat × Nat)) (h : Inv s L) :
    heap_walk s = some (handles (s.mem_start + 16) L, s.brk) ∧
      adjacent_free s.mem (handles (s.mem_start + 16) L) = false := by
  have htop := h.top
  have hroom := h.room
  have haddr := h.addr
  have ht : Tiles s.mem (s.mem_start + 8) ([(8, 1)] ++ L) := h.tiles
  rw [Tiles_append] at ht
  refine ⟨heap_walk_inv s L h, ?_⟩
  exact adjacent_free_tiles s.mem L _
    ((show s.mem_start + 8 + total [(8, 1)] = s.mem_start + 16 by simp only [total]) ▸ ht.2)
    (by omega) (by omega) h.noadj

/-- In a state that satisfies the invariant and whose last block `q` is free,
a successful `extend_heap` returns `q`, now a free block that has grown by the
appended bytes and ends at the new top of the region. -/
theorem extend_merges (s : State) (L : List (Nat × Nat)) (words sz q : Nat) (h : Inv s L)
    (hw : words < 536870911)
    (hsz : sz = if words % 2 ≠ 0 then (words + 1) * 4 else words * 4) (h8 : 8 ≤ sz)
    (hroom : s.brk + sz ≤ s.mem_max)
    (hq : (handles (s.mem_start + 16) L).getLast? = some q)
    (hfree : GET_ALLOC s.mem (HDRP q) = 0) :
    ∃ s1 L1, extend_heap s words = some (s1, q) ∧ Inv s1 L1 ∧
      GET_SIZE s1.mem (HDRP q) = GET_SIZE s.mem (HDRP q) + sz ∧
      GET_ALLOC s1.mem (HDRP q) = 0 ∧ NEXT_BLKP s1.mem q = s1.brk ∧ s1.brk = s.brk + sz := by
  obtain ⟨L0, b, hL, hq0⟩ := handles_last L _ q hq
  subst hL
  obtain ⟨b1, b2, b3, b4, b5, b6, b7, b8, b9⟩ := Inv_block s L0 [] b h
  rw [← hq0] at b4 b6
  have hz := tag_size s.mem _ b.1 b.2 b4 b2 b3
  have e1 : HDRP q = q - 4 := HDRP_eq _ (by omega) (by omega)
  rw [e1, hz.2] at hfree
  obtain ⟨s1, he, hi, hms, hmm, hbrk⟩ := extend_heap_inv s (L0 ++ [b]) words sz h hw hsz h8 hroom
  rw [mergeL_last, prevOf_concat, if_pos hfree, if_pos hfree, List.dropLast_concat] at hi
  rw [prevOf_concat, if_pos hfree, List.dropLast_concat, ← hq0] at he
  obtain ⟨c1, c2, c3, c4, c5, c6, c7, c8, c9⟩ := Inv_block s1 L0 [] (b.1 + sz, 0) hi
  rw [hms, ← hq0] at c4 c6
  simp only [Nat.add_zero, total] at c4 c6
  have hz1 := tag_size s1.mem _ (b.1 + sz) 0 c4 c2 (by decide)
  refine ⟨s1, _, he, hi, ?_, ?_, ?_, hbrk⟩
  · rw [e1, hz1.1, hz.1]
  · rw [e1, hz1.2]
  · rw [NEXT_val s1.mem q (b.1 + sz) 0 (by omega) c4 c2 (by decide) (by omega) (by omega)]
    omega

end MM1

namespace MM1

open MM

/-! ## The claim on the implicit-list variant -/

theorem some_stateOf (s : State) (r : Option (State × Nat)) (v : Nat)
    (h : r.isSome = true) (hv : valueOf r = v) : r = some (stateOf s r, v) := by
  cases r with
  | none => simp at h
  | some x =>
    simp only [valueOf] at hv
    rw [← hv]
    rfl

theorem some_getD (s : State) (r : Option State) (h : r.isSome = true) :
    r = some (r.getD s) := by
  cases r with
  | none => simp at h
  | some x => rfl

/-- C29: in the implicit-list variant `mm1.c`, in an arena of at most `2^31`
bytes below `2^64`, every state reachable from a successful `mm_init` by calls
of `malloc`, `free` and `realloc` (on NULL or on handles of allocated blocks)
that have a result is a heap whose walk from the first block reaches the top
of the region and meets no two free blocks one after the other.  In such a
state `extend_heap`, when the region can grow and the last block `q` is free,
returns `q`, merged with the appended bytes, in a heap that again has no two
adjacent free blocks.  The calls have a result: `find_fit` always returns,
`free` of an allocated block returns, and `malloc` and `realloc` have no
result only for a request whose adjusted size is the bit pattern of `INT_MIN`
or `INT_MIN + 8`, where `place` stores outside the arena. -/
theorem no_adjacent_free_blocks (lo hi : Nat) (m0 : Mem) (s : State)
    (hsmall : hi ≤ lo + 2147483648) (haddr : hi < 18446744073709551616)
    (hr : Reach (fresh lo hi m0) s) :
    (∃ hs, heap_walk s = some (hs, s.brk) ∧ adjacent_free s.mem hs = false) ∧
    (∀ words q hs, 2 ≤ words → words < 536870911 →
      s.brk + (if words % 2 ≠ 0 then (words + 1) * 4 else words * 4) ≤ s.mem_max →
      heap_walk s = some (hs, s.brk) → hs.getLast? = some q →
      GET_ALLOC s.mem (HDRP q) = 0 →
      ∃ s1 hs1, extend_heap s words = some (s1, q) ∧
        GET_SIZE s1.mem (HDRP q) = GET_SIZE s.mem (HDRP q) +
          (if words % 2 ≠ 0 then (words + 1) * 4 else words * 4) ∧
        GET_ALLOC s1.mem (HDRP q) = 0 ∧ NEXT_BLKP s1.mem q = s1.brk ∧
        heap_walk s1 = some (hs1, s1.brk) ∧ adjacent_free s1.mem hs1 = false) ∧
    (∀ size, ∃ bp, find_fit s size = some bp) ∧
    (∀ n, n < 18446744073709551616 → malloc s n = none →
      adjust n = 2147483648 ∨ adjust n = 2147483656) ∧
    (∀ p, allocated s p = true → ∃ s1, free s p = some s1) ∧
    (∀ p n, allocated s p = true → n < 18446744073709551616 → realloc s p n = none →
      adjust n = 2147483648 ∨ adjust n = 2147483656) := by
  obtain ⟨L, hL⟩ := reach_inv lo hi m0 s hsmall haddr hr
  refine ⟨⟨_, (no_adj_inv s L hL).1, (no_adj_inv s L hL).2⟩, ?_, ?_, ?_, ?_, ?_⟩
  · intro words q hs hw2 hw hroom hwalk hq hfree
    rw [(no_adj_inv s L hL).1] at hwalk
    simp only [Option.some.injEq, Prod.mk.injEq, and_true] at hwalk
    rw [← hwalk] at hq
    obtain ⟨s1, L1, he, hi1, h1, h2, h3, _⟩ := extend_merges s L words _ q hL hw rfl
      (by split <;> omega) hroom hq hfree
    exact ⟨s1, _, he, h1, h2, h3, (no_adj_inv s1 L1 hi1).1, (no_adj_inv s1 L1 hi1).2⟩
  · intro size
    rcases find_fit_spec s L size hL with h | ⟨X, S, Y, _, h, _⟩
    · exact ⟨_, h⟩
    · exact ⟨_, h⟩
  · intro n hn hm
    rcases malloc_inv s L n hL hn with h0 | ⟨r, h1, _⟩ | ⟨_, h2⟩
    · rw [h0] at hm; cases hm
    · rw [h1] at hm; cases hm
    · exact h2
  · intro p hp
    obtain ⟨X, sz, Y, h1, h2⟩ := allocated_inv s L p hL hp
    subst h1; subst h2
    obtain ⟨s2, h3, _⟩ := free_inv s X Y sz hL
    exact ⟨s2, h3⟩
  · intro p n hp hn hre
    obtain ⟨X, sz, Y, h1, h2⟩ := allocated_inv s L p hL hp
    subst h1; subst h2
    rcases realloc_inv s X Y sz n hL hn with ⟨r, L1, h3, _⟩ | ⟨_, h3⟩
    · rw [h3] at hre; cases hre
    · exact h3

set_option maxRecDepth 100000 in
/-- C29, witness: run M in an arena of 64 KiB: `mm_init`, `malloc(24)`,
`malloc(5000)`, `free(LO + 16)`, `realloc(LO + 48, 100)`.  The last call
frees the block `LO + 48` next to the free block `LO + 16`, and the two are
merged: the heap is a free block of 5040 bytes, the allocated block of 112
bytes and a free block of 3952 bytes. -/
theorem no_adjacent_free_blocks_witness :
    view1 runM5 = some [(LO + 16, 5040, 0), (LO + 5056, 112, 1), (LO + 5168, 3952, 0)] ∧
    ∃ hs, heap_walk runM5 = some (hs, runM5.brk) ∧ adjacent_free runM5.mem hs = false :=
  ⟨by decide!,
   (no_adjacent_free_blocks LO (LO + 65536) zeros runM5 (by decide) (by decide)
    (Reach.realloc runM4 runM5 (LO + 48) 100 (LO + 5056)
      (Reach.free runM3 runM4 (LO + 16)
        (Reach.malloc runM2 runM3 5000 (LO + 48)
          (Reach.malloc runM1 runM2 24 (LO + 16)
            (Reach.init runM1 (some_stateOf arena _ 0 (by decide!) (by decide!)))
            (by decide) (some_stateOf runM1 _ _ (by decide!) (by decide!)))
          (by decide) (some_stateOf runM2 _ _ (by decide!) (by decide!)))
        (Or.inr (by decide!)) (some_getD runM3 _ (by decide!)))
      (Or.inr (by decide!)) (by decide)
      (some_stateOf runM4 _ _ (by decide!) (by decide!)))).1⟩

end MM1

